import Mathlib

/-!
CHIP-8 / SCHIP interpreter core (`chip8.c`)

A shallow embedding of the machine state and of the public operations of `chip8.c`
(`chip8_make`, `chip8_load_program`, `chip8_cpu_tick`, `chip8_get_pixel`, ...) together with
the internal framebuffer helpers, followed by theorems about them.

Modelling conventions
* `uint8_t` / `uint16_t` / `size_t` values are natural numbers; every store into such an
  object reduces modulo `2^8` / `2^16` / `2^64` exactly where the C assignment truncates.
  `int` values that can become negative are integers.
* The arrays `memory`, `display`, `regs` and the keyboard snapshot are total functions from
  an index to a value, so that every operation stays total and executable.
* The pointer member `stack` is kept as its byte offset from `memory`; `chip8_make` sets it
  to `STACK_OFFSET` and no statement of `chip8.c` assigns it again.  `ch->stack[k]` is the
  `uint16_t` at the byte pair `stack + 2k`, `stack + 2k + 1` of `memory`, low byte first
  (little-endian host).
* Accesses outside `memory[MEMORY_SIZE]`.  The instruction fetch, the DXYN sprite read and
  the FX33 store are behind explicit tests in the source.  The FX55 and FX65 loops and the
  stack accesses of 2NNN and 00EE are not: their index can be `MEMORY_SIZE` or more.  In the
  C object the bytes behind `memory` are the other members of `struct chip8` (`stack`,
  `display`, `regs`, `i_reg`, ..., `timer_counter`) and then whatever follows the
  allocation, so such a store overwrites them and such a load returns them; C leaves both
  undefined.  The embedding performs the access on the cell `memory a` of the total
  function, leaves the other fields alone, and sets the field `out_of_bounds`, which no
  operation clears.  A state with `out_of_bounds = true` therefore no longer describes the
  C object beyond the access that set the field; the theorems about runs of several ticks
  (timer cadence, call and return, stack capacity) are stated for runs that end with
  `out_of_bounds = false`.
* EX9E and EXA1 index the keyboard snapshot with a register value, which can be 16 or
  more; the snapshot is a function on all indices and every statement holds for every such
  function, hence for whatever value a read behind `keys[16]` returns.
* `rand()` is an extra argument of `chip8_cpu_tick`.
-/

set_option maxRecDepth 100000

namespace Chip8

/-! ## Constants (`#define`s of chip8.c) -/

@[reducible, simp] def DISPLAY_WIDTH : Nat := 64
@[reducible, simp] def DISPLAY_HEIGHT : Nat := 32
@[reducible, simp] def SDISPLAY_WIDTH : Nat := 128
@[reducible, simp] def SDISPLAY_HEIGHT : Nat := 64
@[reducible, simp] def DISPLAY_SIZE : Nat := (SDISPLAY_WIDTH * SDISPLAY_HEIGHT) / 8
@[reducible, simp] def MEMORY_SIZE : Nat := 4096
@[reducible, simp] def NUM_REGS : Nat := 16
@[reducible, simp] def PROGRAM_OFFSET : Nat := 0x200
@[reducible, simp] def STACK_OFFSET : Nat := 0xea0
@[reducible, simp] def SUPER_DIGITS_OFFSET : Nat := 0x50

/-- Number of values of `size_t` (64-bit host). -/
@[reducible, simp] def SIZE_RANGE : Nat := 2 ^ 64

/-! ## Machine state (`struct chip8`) -/

/-- The record `struct chip8`, members in declaration order.  `stack` is the pointer member
as a byte offset from `memory`.  The last field is not a member of the C record: it
records that an access has left `memory[MEMORY_SIZE]` (see the conventions above). -/
structure chip8_t where
  memory : Nat → Nat
  stack : Nat
  display : Nat → Nat
  regs : Nat → Nat
  i_reg : Nat
  program_counter : Nat
  stack_pointer : Nat
  delay_timer : Nat
  sound_timer : Nat
  program_size : Nat
  increment_ireg : Bool
  schip_mode : Bool
  timer_counter : Int
  out_of_bounds : Bool

/-- Array store `a[i] = v`. -/
def upd (a : Nat → Nat) (i v : Nat) : Nat → Nat :=
  fun j => if j = i then v else a j

/-- Conversion of an `int` to `uint8_t`. -/
def u8 (z : Int) : Nat := (z % 256).toNat

/-- Conversion of an `int` to `uint16_t`. -/
def u16 (z : Int) : Nat := (z % 65536).toNat

/-- The call `memcpy(dst + off, src, n)` on a byte array. -/
def memcpy (dst : Nat → Nat) (off : Nat) (src : List Nat) (n : Nat) : Nat → Nat :=
  fun a => if off ≤ a ∧ a < off + n then src.getD (a - off) 0 else dst a

/-- The call `memmove(buf + dst, buf + src, n)` inside one byte array. -/
def memmove (buf : Nat → Nat) (dst src n : Nat) : Nat → Nat :=
  fun a => if dst ≤ a ∧ a < dst + n then buf (src + (a - dst)) else buf a

/-- The call `memset(buf + off, v, n)` on a byte array. -/
def memset (buf : Nat → Nat) (off v n : Nat) : Nat → Nat :=
  fun a => if off ≤ a ∧ a < off + n then v else buf a

/-- The byte index `a` is outside `memory[MEMORY_SIZE]`. -/
def outside (a : Nat) : Bool := decide (MEMORY_SIZE ≤ a)

/-- The value of `ch->stack[k]`: the byte pair at `stack + 2k`, low byte first. -/
def stack_get (ch : chip8_t) (k : Nat) : Nat :=
  ch.memory (ch.stack + 2 * k) + 256 * ch.memory (ch.stack + 2 * k + 1)

/-- Statement `ch->program_counter = ch->stack[k]`; the read is outside `memory` when its
second byte is. -/
def stack_load_pc (ch : chip8_t) (k : Nat) : chip8_t :=
  { ch with
    program_counter := stack_get ch k
    out_of_bounds := ch.out_of_bounds || outside (ch.stack + 2 * k + 1) }

/-- Store `ch->stack[k] = v` of a `uint16_t` value; the store is outside `memory` when its
second byte is. -/
def stack_set (ch : chip8_t) (k v : Nat) : chip8_t :=
  let m1 := upd ch.memory (ch.stack + 2 * k) (v % 256)
  let m2 := upd m1 (ch.stack + 2 * k + 1) (v / 256 % 256)
  { ch with memory := m2, out_of_bounds := ch.out_of_bounds || outside (ch.stack + 2 * k + 1) }

/-! ## Glyph tables -/

/-- The table `digits[]`: 16 low-resolution glyphs of 5 bytes. -/
def digits : List Nat := [
  0xf0, 0x90, 0x90, 0x90, 0xf0,
  0x20, 0x60, 0x20, 0x20, 0x70,
  0xf0, 0x10, 0xf0, 0x80, 0xf0,
  0xf0, 0x10, 0xf0, 0x10, 0xf0,
  0x90, 0x90, 0xf0, 0x10, 0x10,
  0xf0, 0x80, 0xf0, 0x10, 0xf0,
  0xf0, 0x80, 0xf0, 0x90, 0xf0,
  0xf0, 0x10, 0x20, 0x40, 0x40,
  0xf0, 0x90, 0xf0, 0x90, 0xf0,
  0xf0, 0x90, 0xf0, 0x10, 0xf0,
  0xf0, 0x90, 0xf0, 0x90, 0x90,
  0xe0, 0x90, 0xe0, 0x90, 0xe0,
  0xf0, 0x80, 0x80, 0x80, 0xf0,
  0xe0, 0x90, 0x90, 0x90, 0xe0,
  0xf0, 0x80, 0xf0, 0x80, 0xf0,
  0xf0, 0x80, 0xf0, 0x80, 0x80]

/-- The table `super_digits[]`: 16 high-resolution glyphs of 10 bytes. -/
def super_digits : List Nat := [
  0xff, 0xff, 0xc3, 0xc3, 0xc3, 0xc3, 0xc3, 0xc3, 0xff, 0xff,
  0x18, 0x78, 0x78, 0x18, 0x18, 0x18, 0x18, 0x18, 0xff, 0xff,
  0xff, 0xff, 0x03, 0x03, 0xff, 0xff, 0xc0, 0xc0, 0xff, 0xff,
  0xff, 0xff, 0x03, 0x03, 0xff, 0xff, 0x03, 0x03, 0xff, 0xff,
  0xc3, 0xc3, 0xc3, 0xc3, 0xff, 0xff, 0x03, 0x03, 0x03, 0x03,
  0xff, 0xff, 0xc0, 0xc0, 0xff, 0xff, 0x03, 0x03, 0xff, 0xff,
  0xff, 0xff, 0xc0, 0xc0, 0xff, 0xff, 0xc3, 0xc3, 0xff, 0xff,
  0xff, 0xff, 0x03, 0x03, 0x06, 0x0c, 0x18, 0x18, 0x18, 0x18,
  0xff, 0xff, 0xc3, 0xc3, 0xff, 0xff, 0xc3, 0xc3, 0xff, 0xff,
  0xff, 0xff, 0xc3, 0xc3, 0xff, 0xff, 0x03, 0x03, 0xff, 0xff,
  0x7e, 0xff, 0xc3, 0xc3, 0xc3, 0xff, 0xff, 0xc3, 0xc3, 0xc3,
  0xfc, 0xfc, 0xc3, 0xc3, 0xfc, 0xfc, 0xc3, 0xc3, 0xfc, 0xfc,
  0x3c, 0xff, 0xc3, 0xc0, 0xc0, 0xc0, 0xc0, 0xc3, 0xff, 0x3c,
  0xfc, 0xfe, 0xc3, 0xc3, 0xc3, 0xc3, 0xc3, 0xc3, 0xfe, 0xfc,
  0xff, 0xff, 0xc0, 0xc0, 0xff, 0xff, 0xc0, 0xc0, 0xff, 0xff,
  0xff, 0xff, 0xc0, 0xc0, 0xff, 0xff, 0xc0, 0xc0, 0xc0, 0xc0]

/-! ## Lifecycle -/

/-- The constructor `chip8_make` (the allocation is assumed to succeed): the whole record
is zeroed, `stack` is pointed at `memory + STACK_OFFSET`, then the two glyph tables are
copied to offsets `0` and `SUPER_DIGITS_OFFSET`. -/
def chip8_make : chip8_t :=
  { memory := memcpy (memcpy (fun _ => 0) 0 digits digits.length)
      SUPER_DIGITS_OFFSET super_digits super_digits.length
    stack := STACK_OFFSET
    display := fun _ => 0
    regs := fun _ => 0
    i_reg := 0
    program_counter := 0
    stack_pointer := 0
    delay_timer := 0
    sound_timer := 0
    program_size := 0
    increment_ireg := false
    schip_mode := false
    timer_counter := 0
    out_of_bounds := false }

/-- The function `chip8_load_program(ch, program, size)` with `size = program.length`.
The sum `PROGRAM_OFFSET + size` is computed in `size_t`. -/
def chip8_load_program (ch : chip8_t) (program : List Nat) : Bool × chip8_t :=
  let size := program.length
  if (PROGRAM_OFFSET + size) % SIZE_RANGE ≥ STACK_OFFSET then
    (false, ch)
  else
    (true,
      { ch with
        memory := memcpy ch.memory PROGRAM_OFFSET program size
        program_size := size
        i_reg := 0
        program_counter := PROGRAM_OFFSET
        stack_pointer := 0
        delay_timer := 0
        sound_timer := 0
        increment_ireg := false
        schip_mode := false
        timer_counter := 0 })

/-! ## Display queries and bit helpers -/

/-- Query `chip8_should_beep`. -/
def chip8_should_beep (ch : chip8_t) : Bool := decide (ch.sound_timer > 0)

/-- Query `chip8_get_width`. -/
def chip8_get_width (ch : chip8_t) : Nat :=
  if ch.schip_mode then SDISPLAY_WIDTH else DISPLAY_WIDTH

/-- Query `chip8_get_height`. -/
def chip8_get_height (ch : chip8_t) : Nat :=
  if ch.schip_mode then SDISPLAY_HEIGHT else DISPLAY_HEIGHT

/-- Query `chip8_is_super`. -/
def chip8_is_super (ch : chip8_t) : Bool := ch.schip_mode

/-- Helper `chip8_get_bit(bytes, ix)` for a non-negative bit index. -/
def chip8_get_bit (bytes : Nat → Nat) (ix : Nat) : Bool :=
  ((bytes (ix / 8) >>> (7 - ix % 8)) &&& 1) != 0

/-- Helper `chip8_set_bit(bytes, ix, val)`.  The masks `~(1 << bit_ix)` and
`-(unsigned int)val` are 32-bit words; the result is stored into a `uint8_t`. -/
def chip8_set_bit (bytes : Nat → Nat) (ix : Nat) (val : Bool) : Nat → Nat :=
  let byte_ix := ix / 8
  let bit_ix := 7 - ix % 8
  let byte := bytes byte_ix
  let byte1 := (byte &&& (0xffffffff ^^^ (1 <<< bit_ix)))
    ||| ((if val then 0xffffffff else 0) &&& (1 <<< bit_ix))
  upd bytes byte_ix (byte1 % 256)

/-- Query `chip8_get_pixel(ch, x, y)` for non-negative coordinates. -/
def chip8_get_pixel (ch : chip8_t) (x y : Nat) : Bool :=
  let width := chip8_get_width ch
  let height := chip8_get_height ch
  let ix := ((y % height) * width) + (x % width)
  chip8_get_bit ch.display ix

/-- Helper `chip8_set_pixel(ch, x, y, val)` for non-negative coordinates. -/
def chip8_set_pixel (ch : chip8_t) (x y : Nat) (val : Bool) : chip8_t :=
  let width := chip8_get_width ch
  let height := chip8_get_height ch
  let ix := ((y % height) * width) + (x % width)
  { ch with display := chip8_set_bit ch.display ix val }

/-- Body of the inner loop of `chip8_draw_sprite` for one `(row, col)`.  The sprite is the
byte sequence at `memory + sprite`; `vf` is `&ch->regs[0xf]`, the only argument the
interpreter passes. -/
def draw_pixel (sprite cols x y : Nat) (ch : chip8_t) (row col : Nat) : chip8_t :=
  let pixel_ix := (row * cols) + col
  let display_pixel := chip8_get_pixel ch (x + col) (y + row)
  let sprite_pixel := chip8_get_bit (fun k => ch.memory (sprite + k)) pixel_ix
  let ch1 := if display_pixel && sprite_pixel then { ch with regs := upd ch.regs 0xf 1 } else ch
  chip8_set_pixel ch1 (x + col) (y + row) (xor display_pixel sprite_pixel)

/-- Helper `chip8_draw_sprite(ch, memory + sprite, n, x, y, &ch->regs[0xf])`. -/
def chip8_draw_sprite (ch : chip8_t) (sprite n x y : Nat) : chip8_t :=
  let cols := if n = 0 then 16 else 8
  let rows := if n = 0 then 16 else n
  let ch0 := { ch with regs := upd ch.regs 0xf 0 }
  (List.range rows).foldl
    (fun c row => (List.range cols).foldl (fun c2 col => draw_pixel sprite cols x y c2 row col) c)
    ch0

/-! ## The instruction cycle `chip8_cpu_tick` -/

/-- The branches of the dispatch chain of `chip8_cpu_tick`, in source order; the last
constructor is the final `else` ("opcode not found"). -/
inductive op_t
  | op_00CN | op_00E0 | op_00EE | op_00FA | op_00FB | op_00FC | op_00FD | op_00FE | op_00FF
  | op_0NNN | op_1NNN | op_2NNN | op_3XNN | op_4XNN | op_5XY0 | op_6XNN | op_7XNN
  | op_8XY0 | op_8XY1 | op_8XY2 | op_8XY3 | op_8XY4 | op_8XY5 | op_8XY6 | op_8XY7 | op_8XYE
  | op_9XY0 | op_ANNN | op_BNNN | op_CXNN | op_DXYN | op_EX9E | op_EXA1
  | op_FX07 | op_FX0A | op_FX15 | op_FX18 | op_FX1E | op_FX29 | op_FX30 | op_FX33
  | op_FX55 | op_FX65 | not_found
  deriving DecidableEq, Repr

open op_t

/-- The conditions of the `if` / `else if` chain of `chip8_cpu_tick`, tested in source
order on the four nibbles and the 16-bit opcode. -/
def decode (nibs0 nibs1 nibs2 nibs3 opcode : Nat) : op_t :=
  if nibs0 = 0x0 ∧ nibs1 = 0x0 ∧ nibs2 = 0xc then op_00CN
  else if opcode = 0x00e0 then op_00E0
  else if opcode = 0x00ee then op_00EE
  else if opcode = 0x00fa then op_00FA
  else if opcode = 0x00fb then op_00FB
  else if opcode = 0x00fc then op_00FC
  else if opcode = 0x00fd then op_00FD
  else if opcode = 0x00fe then op_00FE
  else if opcode = 0x00ff then op_00FF
  else if nibs0 = 0x0 then op_0NNN
  else if nibs0 = 0x1 then op_1NNN
  else if nibs0 = 0x2 then op_2NNN
  else if nibs0 = 0x3 then op_3XNN
  else if nibs0 = 0x4 then op_4XNN
  else if nibs0 = 0x5 ∧ nibs3 = 0x0 then op_5XY0
  else if nibs0 = 0x6 then op_6XNN
  else if nibs0 = 0x7 then op_7XNN
  else if nibs0 = 0x8 ∧ nibs3 = 0x0 then op_8XY0
  else if nibs0 = 0x8 ∧ nibs3 = 0x1 then op_8XY1
  else if nibs0 = 0x8 ∧ nibs3 = 0x2 then op_8XY2
  else if nibs0 = 0x8 ∧ nibs3 = 0x3 then op_8XY3
  else if nibs0 = 0x8 ∧ nibs3 = 0x4 then op_8XY4
  else if nibs0 = 0x8 ∧ nibs3 = 0x5 then op_8XY5
  else if nibs0 = 0x8 ∧ nibs3 = 0x6 then op_8XY6
  else if nibs0 = 0x8 ∧ nibs3 = 0x7 then op_8XY7
  else if nibs0 = 0x8 ∧ nibs3 = 0xe then op_8XYE
  else if nibs0 = 0x9 ∧ nibs3 = 0x0 then op_9XY0
  else if nibs0 = 0xa then op_ANNN
  else if nibs0 = 0xb then op_BNNN
  else if nibs0 = 0xc then op_CXNN
  else if nibs0 = 0xd then op_DXYN
  else if nibs0 = 0xe ∧ nibs2 = 0x9 ∧ nibs3 = 0xe then op_EX9E
  else if nibs0 = 0xe ∧ nibs2 = 0xa ∧ nibs3 = 0x1 then op_EXA1
  else if nibs0 = 0xf ∧ nibs2 = 0x0 ∧ nibs3 = 0x7 then op_FX07
  else if nibs0 = 0xf ∧ nibs2 = 0x0 ∧ nibs3 = 0xa then op_FX0A
  else if nibs0 = 0xf ∧ nibs2 = 0x1 ∧ nibs3 = 0x5 then op_FX15
  else if nibs0 = 0xf ∧ nibs2 = 0x1 ∧ nibs3 = 0x8 then op_FX18
  else if nibs0 = 0xf ∧ nibs2 = 0x1 ∧ nibs3 = 0xe then op_FX1E
  else if nibs0 = 0xf ∧ nibs2 = 0x2 ∧ nibs3 = 0x9 then op_FX29
  else if nibs0 = 0xf ∧ nibs2 = 0x3 ∧ nibs3 = 0x0 then op_FX30
  else if nibs0 = 0xf ∧ nibs2 = 0x3 ∧ nibs3 = 0x3 then op_FX33
  else if nibs0 = 0xf ∧ nibs2 = 0x5 ∧ nibs3 = 0x5 then op_FX55
  else if nibs0 = 0xf ∧ nibs2 = 0x6 ∧ nibs3 = 0x5 then op_FX65
  else not_found

/-- Store `ch->regs[i] = v`. -/
def set_reg (ch : chip8_t) (i v : Nat) : chip8_t :=
  { ch with regs := upd ch.regs i v }

/-- Statement `ch->program_counter += 2`. -/
def skip_next (ch : chip8_t) : chip8_t :=
  { ch with program_counter := (ch.program_counter + 2) % 65536 }

/-- Body of the 00FB loops for one byte: the pair is the display and the carried local
`byte`, which is declared before the row loop and so survives from one row to the next. -/
def scroll_right_step (row_len row : Nat) (st : (Nat → Nat) × Nat) (i : Nat) : (Nat → Nat) × Nat :=
  let current_byte := st.1 (row_len * row + i)
  (upd st.1 (row_len * row + i) (((current_byte >>> 4) ||| (st.2 <<< 4)) % 256), current_byte)

/-- The 00FB branch: both loops over the display. -/
def scroll_right (ch : chip8_t) : chip8_t :=
  let row_len := chip8_get_width ch / 8
  let res := (List.range (chip8_get_height ch)).foldl
    (fun st row => (List.range row_len).foldl (scroll_right_step row_len row) st)
    (ch.display, 0)
  { ch with display := res.1 }

/-- Body of the inner 00FC loop for one byte. -/
def scroll_left_step (row_len row : Nat) (st : (Nat → Nat) × Nat) (i : Nat) : (Nat → Nat) × Nat :=
  let current_byte := st.1 (row_len * row + i)
  (upd st.1 (row_len * row + i) ((((current_byte <<< 4) &&& 0xf0) ||| ((st.2 >>> 4) &&& 0xf)) % 256),
    current_byte)

/-- The 00FC branch: for every row the local `byte` restarts at 0 and the bytes are visited
from `row_len - 1` down to 0. -/
def scroll_left (ch : chip8_t) : chip8_t :=
  let row_len := chip8_get_width ch / 8
  let d := (List.range (chip8_get_height ch)).foldl
    (fun d row => ((List.range row_len).reverse.foldl (scroll_left_step row_len row) (d, 0)).1)
    ch.display
  { ch with display := d }

/-- The 00CN branch: `memmove` of the rows that stay, then `memset` of the top `n` rows. -/
def scroll_down (ch : chip8_t) (n : Nat) : chip8_t :=
  let rem_lines := chip8_get_height ch - n
  let width := chip8_get_width ch
  let d1 := memmove ch.display ((width / 8) * n) 0 (rem_lines * (width / 8))
  { ch with display := memset d1 0 0 ((width / 8) * n) }

/-- Body of the FX55 loop, `memory[i_reg + i] = regs[i]`.  The source does not test the
index: a store at `MEMORY_SIZE` or beyond is recorded in `out_of_bounds`. -/
def store_reg (c : chip8_t) (i : Nat) : chip8_t :=
  { c with
    memory := upd c.memory (c.i_reg + i) (c.regs i)
    out_of_bounds := c.out_of_bounds || outside (c.i_reg + i) }

/-- Body of the FX65 loop, `regs[i] = memory[i_reg + i]`.  The source does not test the
index: a load at `MEMORY_SIZE` or beyond is recorded in `out_of_bounds`. -/
def load_reg (c : chip8_t) (i : Nat) : chip8_t :=
  { c with
    regs := upd c.regs i (c.memory (c.i_reg + i))
    out_of_bounds := c.out_of_bounds || outside (c.i_reg + i) }

/-- The FX55 loop `for (i = 0; i <= x; i++) memory[i_reg + i] = regs[i]`. -/
def store_regs (ch : chip8_t) (x : Nat) : chip8_t :=
  (List.range (x + 1)).foldl store_reg ch

/-- The FX65 loop `for (i = 0; i <= x; i++) regs[i] = memory[i_reg + i]`. -/
def load_regs (ch : chip8_t) (x : Nat) : chip8_t :=
  (List.range (x + 1)).foldl load_reg ch

/-- Statement `if (ch->increment_ireg) ch->i_reg += x + 1`. -/
def bump_ireg (ch : chip8_t) (x : Nat) : chip8_t :=
  if ch.increment_ireg then { ch with i_reg := (ch.i_reg + (x + 1)) % 65536 } else ch

/-- The FX0A scan `for (i = 0; i < sizeof(input->keys); i++) if (input->keys[i]) ...`. -/
def key_pressed (input : Nat → Bool) : Bool :=
  (List.range 16).any (fun i => input i)

/-- The bodies of the dispatch chain.  The first component is `some b` when the branch
executes `return b` itself and `none` when control reaches the common tail
`program_counter += 2; return true`. -/
def execute (ch : chip8_t) (input : Nat → Bool) (rnd : Nat)
    (nnn nn n x y : Nat) : op_t → Option Bool × chip8_t
  | op_00CN => (none, scroll_down ch n)
  | op_00E0 => (none, { ch with display := memset ch.display 0 0x0 DISPLAY_SIZE })
  | op_00EE =>
    let ch1 := stack_load_pc ch ch.stack_pointer
    (none, { ch1 with stack_pointer := u8 ((ch1.stack_pointer : Int) - 1) })
  | op_00FA => (none, { ch with increment_ireg := !ch.increment_ireg })
  | op_00FB => (none, scroll_right ch)
  | op_00FC => (none, scroll_left ch)
  | op_00FD => (none, ch)
  | op_00FE => (none, { ch with schip_mode := false })
  | op_00FF => (none, { ch with schip_mode := true })
  | op_0NNN => (none, ch)
  | op_1NNN => (none, { ch with program_counter := u16 ((nnn : Int) - 2) })
  | op_2NNN =>
    let ch1 := { ch with stack_pointer := (ch.stack_pointer + 1) % 256 }
    let ch2 := stack_set ch1 ch1.stack_pointer ch1.program_counter
    (none, { ch2 with program_counter := u16 ((nnn : Int) - 2) })
  | op_3XNN => (none, if ch.regs x = nn then skip_next ch else ch)
  | op_4XNN => (none, if ch.regs x ≠ nn then skip_next ch else ch)
  | op_5XY0 => (none, if ch.regs x = ch.regs y then skip_next ch else ch)
  | op_6XNN => (none, set_reg ch x nn)
  | op_7XNN => (none, set_reg ch x ((ch.regs x + nn) % 256))
  | op_8XY0 => (none, set_reg ch x (ch.regs y))
  | op_8XY1 => (none, set_reg ch x ((ch.regs x ||| ch.regs y) % 256))
  | op_8XY2 => (none, set_reg ch x ((ch.regs x &&& ch.regs y) % 256))
  | op_8XY3 => (none, set_reg ch x ((ch.regs x ^^^ ch.regs y) % 256))
  | op_8XY4 =>
    let r := (ch.regs x + ch.regs y) % 65536
    let ch1 := set_reg ch x (r % 256)
    (none, set_reg ch1 0xf (if r > 0xff then 0x1 else 0x0))
  | op_8XY5 =>
    let ch1 := set_reg ch 0xf (if ch.regs x > ch.regs y then 0x1 else 0x0)
    (none, set_reg ch1 x (u8 ((ch1.regs x : Int) - (ch1.regs y : Int))))
  | op_8XY6 =>
    let ch1 := set_reg ch 0xf ((ch.regs x &&& 0x1) % 256)
    (none, set_reg ch1 x ((ch1.regs x >>> 1) % 256))
  | op_8XY7 =>
    let ch1 := set_reg ch 0xf (if ch.regs y > ch.regs x then 0x1 else 0x0)
    (none, set_reg ch1 x (u8 ((ch1.regs y : Int) - (ch1.regs x : Int))))
  | op_8XYE =>
    let ch1 := set_reg ch 0xf (((ch.regs x >>> 7) &&& 0x1) % 256)
    (none, set_reg ch1 x ((ch1.regs x <<< 1) % 256))
  | op_9XY0 => (none, if ch.regs x ≠ ch.regs y then skip_next ch else ch)
  | op_ANNN => (none, { ch with i_reg := nnn })
  | op_BNNN => (none, { ch with program_counter := u16 ((nnn : Int) + (ch.regs 0 : Int) - 2) })
  | op_CXNN => (none, set_reg ch x ((rnd &&& nn) % 256))
  | op_DXYN =>
    if ch.i_reg + (16 * 16) ≥ MEMORY_SIZE then (some false, ch)
    else (none, chip8_draw_sprite ch ch.i_reg n (ch.regs x) (ch.regs y))
  | op_EX9E => (none, if input (ch.regs x) then skip_next ch else ch)
  | op_EXA1 => (none, if !input (ch.regs x) then skip_next ch else ch)
  | op_FX07 => (none, set_reg ch x ch.delay_timer)
  | op_FX0A => if !key_pressed input then (some true, ch) else (none, ch)
  | op_FX15 => (none, { ch with delay_timer := ch.regs x })
  | op_FX18 => (none, { ch with sound_timer := ch.regs x })
  | op_FX1E => (none, { ch with i_reg := (ch.i_reg + ch.regs x) % 65536 })
  | op_FX29 => (none, { ch with i_reg := (ch.regs x * 5) % 65536 })
  | op_FX30 => (none, { ch with i_reg := (SUPER_DIGITS_OFFSET + ch.regs x * 10) % 65536 })
  | op_FX33 =>
    let val := ch.regs x
    let bcd100 := (val / 100) % 256
    let bcd10 := u8 (((val : Int) - (bcd100 * 100 : Nat)) / 10)
    let bcd1 := u8 ((val : Int) - (bcd100 * 100 : Nat) - (bcd10 * 10 : Nat))
    if ch.i_reg + 2 ≥ MEMORY_SIZE then (some false, ch)
    else
      let m1 := upd ch.memory ch.i_reg bcd100
      let m2 := upd m1 (ch.i_reg + 1) bcd10
      (none, { ch with memory := upd m2 (ch.i_reg + 2) bcd1 })
  | op_FX55 => (none, bump_ireg (store_regs ch x) x)
  | op_FX65 => (none, bump_ireg (load_regs ch x) x)
  | not_found => (some false, ch)

/-- The timer block at the head of `chip8_cpu_tick`: the phase counter is incremented and,
when it reaches 16 (8 in SCHIP mode), both timers count down and the phase restarts. -/
def tick_timers (ch : chip8_t) : chip8_t :=
  let ch1 := { ch with timer_counter := ch.timer_counter + 1 }
  if ch1.timer_counter ≥ 16 ∨ (ch1.schip_mode = true ∧ ch1.timer_counter ≥ 8) then
    let ch2 := if ch1.delay_timer > 0 then { ch1 with delay_timer := ch1.delay_timer - 1 } else ch1
    let ch3 := if ch2.sound_timer > 0 then { ch2 with sound_timer := ch2.sound_timer - 1 } else ch2
    { ch3 with timer_counter := 0 }
  else ch1

/-- The end-of-program test `(program_counter - PROGRAM_OFFSET + 1) >= program_size`: the
left side is an `int` that is converted to `size_t` for the comparison. -/
def at_end (ch : chip8_t) : Bool :=
  decide ((((ch.program_counter : Int) - (PROGRAM_OFFSET : Int) + 1) % (SIZE_RANGE : Int)).toNat
    ≥ ch.program_size)

/-- The fetched byte pair `bytes[0]`, `bytes[1]`. -/
def fetch (ch : chip8_t) : Nat × Nat :=
  (ch.memory ch.program_counter, ch.memory (ch.program_counter + 1))

/-- The 16-bit opcode `bytes[1] | (bytes[0] << 8)`. -/
def opcode_of (bytes : Nat × Nat) : Nat := (bytes.2 ||| (bytes.1 <<< 8)) % 65536

/-- The handler selected for a fetched byte pair: the four nibbles
`(bytes[0] & 0xf0) >> 4`, `bytes[0] & 0x0f`, `(bytes[1] & 0xf0) >> 4`, `bytes[1] & 0x0f`
and the opcode go through the dispatch chain. -/
def decode_bytes (bytes : Nat × Nat) : op_t :=
  decode ((bytes.1 &&& 0xf0) >>> 4) (bytes.1 &&& 0x0f) ((bytes.2 &&& 0xf0) >>> 4)
    (bytes.2 &&& 0x0f) (opcode_of bytes)

/-- The function `chip8_cpu_tick(ch, input)`; `rnd` is the value `rand()` returns if the
instruction is CXNN. -/
def chip8_cpu_tick (ch : chip8_t) (input : Nat → Bool) (rnd : Nat) : Bool × chip8_t :=
  let ch1 := tick_timers ch
  if at_end ch1 then (false, ch1)
  else
    let bytes := fetch ch1
    let opcode := opcode_of bytes
    let nnn := opcode &&& 0xfff
    let nn := (opcode &&& 0xff) % 256
    let n := bytes.2 &&& 0x0f
    let x := bytes.1 &&& 0x0f
    let y := (bytes.2 &&& 0xf0) >>> 4
    match execute ch1 input rnd nnn nn n x y (decode_bytes bytes) with
    | (some b, ch2) => (b, ch2)
    | (none, ch2) => (true, skip_next ch2)

/-! ## Runs and reachable states -/

/-- One host step: a call of `chip8_cpu_tick` with a keyboard snapshot and a `rand()` value;
the returned flag is dropped. -/
def step (ch : chip8_t) (e : (Nat → Bool) × Nat) : chip8_t :=
  (chip8_cpu_tick ch e.1 e.2).2

/-- A sequence of consecutive `chip8_cpu_tick` calls. -/
def run (ch : chip8_t) (es : List ((Nat → Bool) × Nat)) : chip8_t :=
  es.foldl step ch

/-- States a host can reach through the public interface: a machine built by `chip8_make`
on which `chip8_load_program` has succeeded, followed by any number of further successful
loads and of `chip8_cpu_tick` calls (a failed load returns the state it was given). -/
inductive Reachable : chip8_t → Prop
  | load_fresh (P : List Nat) (h : (chip8_load_program chip8_make P).1 = true) :
      Reachable (chip8_load_program chip8_make P).2
  | load (ch : chip8_t) (P : List Nat) (hr : Reachable ch)
      (h : (chip8_load_program ch P).1 = true) : Reachable (chip8_load_program ch P).2
  | tick (ch : chip8_t) (input : Nat → Bool) (rnd : Nat) (hr : Reachable ch) :
      Reachable (chip8_cpu_tick ch input rnd).2

/-- The instruction a tick executes in state `ch`: `none` when the tick stops at the
end-of-program test, otherwise the handler the fetched bytes select.  (The timer block
that runs first does not touch the program counter, the program size or the memory.) -/
def executed_op (ch : chip8_t) : Option op_t :=
  if at_end ch then none else some (decode_bytes (fetch ch))

/-! ## State views -/

/-- The part of the state no display or register helper touches: timers, timer phase,
display mode, index-increment flag, program size, program counter, stack pointer and index
register. -/
def control (ch : chip8_t) : Nat × Nat × Int × Bool × Bool × Nat × Nat × Nat × Nat :=
  (ch.delay_timer, ch.sound_timer, ch.timer_counter, ch.schip_mode, ch.increment_ireg,
    ch.program_size, ch.program_counter, ch.stack_pointer, ch.i_reg)

/-! ## Glyphs -/

/-- The five bytes of the low-resolution glyph of digit `d`. -/
def low_glyph (d : Nat) : List Nat := (digits.drop (5 * d)).take 5

/-- The ten bytes of the high-resolution glyph of digit `d`. -/
def high_glyph (d : Nat) : List Nat := (super_digits.drop (10 * d)).take 10

/-- Bit `7 - c` of a byte: column `c` of a sprite row, leftmost column first. -/
def glyph_bit (byte c : Nat) : Bool := (byte / 2 ^ (7 - c)) % 2 = 1

/-- The state in which re-loading is compared with a load on a fresh machine: a fresh
machine loaded with the single instruction 6005 (V0 := 5) and ticked once. -/
def reload_state : chip8_t :=
  (chip8_cpu_tick (chip8_load_program chip8_make [0x60, 0x05]).2 (fun _ => false) 0).2

/-! ## Opcodes outside the opcode table -/

/-- The opcodes the specification lists as unrecognised, for the instruction bytes `b0 b1`:
5XYN and 9XYN with N other than 0, 8XYN with N one of 8, 9, A, B, C, D, F, EXNN with NN
other than 9E and A1, and FXNN with NN other than 07, 0A, 15, 18, 1E, 29, 30, 33, 55, 65. -/
def outside_opcode_table (b0 b1 : Nat) : Bool :=
  (b0 / 16 == 0x5 && b1 % 16 != 0) ||
  (b0 / 16 == 0x9 && b1 % 16 != 0) ||
  (b0 / 16 == 0x8 && [0x8, 0x9, 0xa, 0xb, 0xc, 0xd, 0xf].contains (b1 % 16)) ||
  (b0 / 16 == 0xe && !([0x9e, 0xa1].contains b1)) ||
  (b0 / 16 == 0xf && !([0x07, 0x0a, 0x15, 0x18, 0x1e, 0x29, 0x30, 0x33, 0x55, 0x65].contains b1))

/-- A host step with no key pressed and `rand()` returning 0. -/
def idle : (Nat → Bool) × Nat := (fun _ => false, 0)

/-- Two registers holding the same value 7, then `V1 := V1 - V2` (8125): the fresh machine
loaded with 6107 6207 8125. -/
def sub_equal_start : chip8_t :=
  (chip8_load_program chip8_make [0x61, 0x07, 0x62, 0x07, 0x81, 0x25]).2

/-- Two registers holding the same value 7, then `V1 := V2 - V1` (8127): the fresh machine
loaded with 6107 6207 8127. -/
def subn_equal_start : chip8_t :=
  (chip8_load_program chip8_make [0x61, 0x07, 0x62, 0x07, 0x81, 0x27]).2

/-! ## Timer windows -/

/-- The timer view of a state: delay timer, sound timer, timer phase and display mode. -/
def timers (ch : chip8_t) : Nat × Nat × Int × Bool :=
  (ch.delay_timer, ch.sound_timer, ch.timer_counter, ch.schip_mode)

/-- The instruction executed in state `ch` is none of FX15, FX18, 00FE, 00FF: the tick writes
neither timer from a register and does not switch the display mode. -/
def timer_quiet (ch : chip8_t) : Prop :=
  executed_op ch ≠ some op_FX15 ∧ executed_op ch ≠ some op_FX18 ∧
  executed_op ch ≠ some op_00FE ∧ executed_op ch ≠ some op_00FF

instance (ch : chip8_t) : Decidable (timer_quiet ch) := by
  unfold timer_quiet; infer_instance

/-- A program that sets the delay timer and the sound timer to 5 (6005 F015 F018) and then
runs twenty no-op instructions 0000. -/
def timer_program : List Nat :=
  [0x60, 0x05, 0xf0, 0x15, 0xf0, 0x18] ++ List.replicate 40 0x00

/-- The state after the three timer-setting instructions of `timer_program`. -/
def timer_start : chip8_t :=
  run (chip8_load_program chip8_make timer_program).2 [idle, idle, idle]

/-! ## Pixels and sprite cells -/

/-- Bit index in the display plane of the pixel `(x, y)` when the SCHIP flag is `m`: the
index that `chip8_get_pixel` and `chip8_set_pixel` compute. -/
def pix (m : Bool) (x y : Nat) : Nat :=
  ((y % (if m then SDISPLAY_HEIGHT else DISPLAY_HEIGHT))
      * (if m then SDISPLAY_WIDTH else DISPLAY_WIDTH))
    + (x % (if m then SDISPLAY_WIDTH else DISPLAY_WIDTH))

/-- Number of columns of the sprite drawn by DXYN. -/
def sprite_cols (n : Nat) : Nat := if n = 0 then 16 else 8

/-- Number of rows of the sprite drawn by DXYN. -/
def sprite_rows (n : Nat) : Nat := if n = 0 then 16 else n

/-- The cells `(row, col)` of the sprite in the order the two loops visit them. -/
def sprite_cells (n : Nat) : List (Nat × Nat) :=
  List.product (List.range (sprite_rows n)) (List.range (sprite_cols n))

/-- The sprite bit of a cell: bit `row * cols + col` of the bytes at `mem[sprite ..]`. -/
def sbit (mem : Nat → Nat) (sprite cols : Nat) (cell : Nat × Nat) : Bool :=
  chip8_get_bit (fun k => mem (sprite + k)) (cell.1 * cols + cell.2)

/-- The display bit a cell is drawn to when the sprite is placed at `(x, y)`. -/
def cell_ix (m : Bool) (x y : Nat) (cell : Nat × Nat) : Nat :=
  pix m (x + cell.2) (y + cell.1)

/-! ## Glyph programs -/

/-- The program `60 d  F0 29  D1 25`: V0 := d, I := low-resolution glyph of V0, draw 5 rows at
(V1, V2). -/
def low_glyph_program (d : Nat) : List Nat := [0x60, d, 0xF0, 0x29, 0xD1, 0x25]

/-- The program `60 d  F0 30  D1 2A`: V0 := d, I := high-resolution glyph of V0, draw 10 rows
at (V1, V2). -/
def high_glyph_program (d : Nat) : List Nat := [0x60, d, 0xF0, 0x30, 0xD1, 0x2A]


/-! ## Memory bytes read by a draw -/

/-- The index into `memory` of the byte that `chip8_get_bit(sprite, pixel_ix)` reads for a
sprite cell: `sprite + pixel_ix / 8` with `pixel_ix = row * cols + col`. -/
def sprite_byte_addr (sprite cols : Nat) (cell : Nat × Nat) : Nat :=
  sprite + (cell.1 * cols + cell.2) / 8

/-- The number of sprite bytes DXYN draws: `N`, or 32 (a 16x16 sprite) when `N = 0`. -/
def sprite_byte_count (n : Nat) : Nat := if n = 0 then 32 else n

/-- A state about to draw past the end of memory: the fresh machine loaded with AFFF D005
(I := 0xFFF, then draw 5 rows) after its first tick. -/
def draw_oob_state : chip8_t :=
  run (chip8_load_program chip8_make [0xAF, 0xFF, 0xD0, 0x05]).2 [idle]

/-! ## Register transfers and subtraction with VF as an operand -/

/-- The indices into `memory` that the FX55 and FX65 loops use: `i_reg + i` for
`i = 0 .. x`. -/
def reg_transfer_addrs (ch : chip8_t) (x : Nat) : List Nat :=
  (List.range (x + 1)).map (fun i => ch.i_reg + i)

/-- The fresh machine loaded with 6107 AFFF F155: V1 := 7, I := 0xFFF, then store V0..V1
at I. -/
def store_oob_start : chip8_t :=
  (chip8_load_program chip8_make [0x61, 0x07, 0xAF, 0xFF, 0xF1, 0x55]).2

/-- The fresh machine loaded with AFFF F165: I := 0xFFF, then load V0..V1 from I. -/
def load_oob_start : chip8_t :=
  (chip8_load_program chip8_make [0xAF, 0xFF, 0xF1, 0x65]).2

/-- The fresh machine loaded with 610A 6F03 81F5: V1 := 10, VF := 3, then V1 := V1 - VF. -/
def sub_vf_start : chip8_t :=
  (chip8_load_program chip8_make [0x61, 0x0A, 0x6F, 0x03, 0x81, 0xF5]).2

/-- The fresh machine loaded with 610A 6F03 81F7: V1 := 10, VF := 3, then V1 := VF - V1. -/
def subn_vf_start : chip8_t :=
  (chip8_load_program chip8_make [0x61, 0x0A, 0x6F, 0x03, 0x81, 0xF7]).2

/-! ## Sprite bits as the specification names them -/

/-- The sprite bit `s(r, c)` of a DXYN with operand `n` in state `ch`: bit
`7 - (r * cols + c) mod 8` of `memory[I + (r * cols + c) div 8]`. -/
def sprite_bit_at (ch : chip8_t) (n r c : Nat) : Bool :=
  (ch.memory (ch.i_reg + (r * sprite_cols n + c) / 8)).testBit
    (7 - (r * sprite_cols n + c) % 8)

/-- A state with glyph 0 on screen and a second, overlapping draw pending: the fresh machine
loaded with D015 D015 (I = 0, V0 = V1 = 0) after its first tick. -/
def overlap_state : chip8_t :=
  run (chip8_load_program chip8_make [0xD0, 0x15, 0xD0, 0x15]).2 [idle]

/-! ## States about to scroll -/

/-- Glyph 0 at (0, 0), then 00C2: the fresh machine loaded with D015 00C2 after its first
tick. -/
def scroll_down_state : chip8_t :=
  run (chip8_load_program chip8_make [0xD0, 0x15, 0x00, 0xC2]).2 [idle]

/-- Glyph 0 at (8, 0), then 00FC: the fresh machine loaded with 6008 D015 00FC after two
ticks. -/
def scroll_left_state : chip8_t :=
  run (chip8_load_program chip8_make [0x60, 0x08, 0xD0, 0x15, 0x00, 0xFC]).2 [idle, idle]

/-- The row `f0` at (60, 0), so that pixels 60..63 of row 0 are lit, then 00FB: the fresh
machine loaded with 603C D011 00FB after two ticks. -/
def scroll_right_state : chip8_t :=
  run (chip8_load_program chip8_make [0x60, 0x3C, 0xD0, 0x11, 0x00, 0xFB]).2 [idle, idle]

/-- The byte 00FC stores: the low nibble of the current byte moved up, joined with the high
nibble of the byte to its right (`byte`, the previously visited one). -/
def left_byte (cur byte : Nat) : Nat :=
  (((cur <<< 4) &&& 0xf0) ||| ((byte >>> 4) &&& 0xf)) % 256

/-! ## Calls and the stack pointer -/

/-- The fresh machine loaded with 2204 0000 00EE: a call to 0x204, where a return waits. -/
def call_start : chip8_t :=
  (chip8_load_program chip8_make [0x22, 0x04, 0x00, 0x00, 0x00, 0xEE]).2

/-- The fresh machine loaded with the single instruction 00EE: a return with nothing on the
call stack. -/
def return_start : chip8_t :=
  (chip8_load_program chip8_make [0x00, 0xEE]).2

/-- The stack slot a tick in state `ch` accesses: 2NNN writes slot `stack_pointer + 1`
(the incremented 8-bit pointer), 00EE reads slot `stack_pointer`; other ticks use none. -/
def stack_slot_used (ch : chip8_t) : Option Nat :=
  match executed_op ch with
  | some op_2NNN => some ((ch.stack_pointer + 1) % 256)
  | some op_00EE => some ch.stack_pointer
  | _ => none

/-- The two bytes of stack slot `k` lie inside the call-stack region `[0xEA0, 0x1000)` of
the memory array. -/
def slot_in_region (k : Nat) : Prop :=
  STACK_OFFSET + 2 * k + 1 < MEMORY_SIZE

instance (k : Nat) : Decidable (slot_in_region k) := by
  unfold slot_in_region; infer_instance

/-- The condition under which a tick keeps the stack within its capacity: a call finds the
stack pointer below 175 and a return finds it at least 1. -/
def stack_guard (ch : chip8_t) : Prop :=
  (executed_op ch = some op_2NNN → ch.stack_pointer < 175) ∧
  (executed_op ch = some op_00EE → 1 ≤ ch.stack_pointer)

instance (ch : chip8_t) : Decidable (stack_guard ch) := by
  unfold stack_guard; infer_instance

/-- The fresh machine loaded with the single instruction 2200, a call to itself. -/
def rec_start : chip8_t := (chip8_load_program chip8_make [0x22, 0x00]).2

/-! ## Instruction fetch -/

/-- The two indices into `memory` the fetch uses: `program_counter` and
`program_counter + 1`. -/
def fetch_addrs (ch : chip8_t) : List Nat :=
  [ch.program_counter, ch.program_counter + 1]

/-- The fresh machine loaded with 11FF 0000: a jump to address 0x1FF, one byte below the
program region. -/
def jump_below_start : chip8_t :=
  (chip8_load_program chip8_make [0x11, 0xFF, 0x00, 0x00]).2

/-! ## States about to store digits or transfer registers -/

/-- The fresh machine loaded with 60EA A300 F033: V0 := 234, I := 0x300, then FX33 on V0. -/
def bcd_start : chip8_t :=
  (chip8_load_program chip8_make [0x60, 0xEA, 0xA3, 0x00, 0xF0, 0x33]).2

/-- The fresh machine loaded with 6011 6122 A300 F155 60AA 61BB F165: V0 := 0x11,
V1 := 0x22, I := 0x300, store V0..V1, overwrite both registers, load V0..V1. -/
def store_start : chip8_t :=
  (chip8_load_program chip8_make
    [0x60, 0x11, 0x61, 0x22, 0xA3, 0x00, 0xF1, 0x55, 0x60, 0xAA, 0x61, 0xBB, 0xF1, 0x65]).2

/-! ## Accesses outside `memory` -/

/-- The condition under which a register transfer stays inside `memory`: an FX55 or FX65
finds `I + X` below `MEMORY_SIZE`, where `X` is the low nibble of the first instruction
byte. -/
def transfer_guard (ch : chip8_t) : Prop :=
  (executed_op ch = some op_FX55 ∨ executed_op ch = some op_FX65) →
    ch.i_reg + ((fetch ch).1 &&& 0x0f) < MEMORY_SIZE

instance (ch : chip8_t) : Decidable (transfer_guard ch) := by
  unfold transfer_guard; infer_instance

/-- A sixteen-instruction program without FX15, FX18, 00FE or 00FF: 60FF AFFF, four times
F01E (I = 0xFFF + 4 * 255 = 5115), 6022 F01E (I = 5149), 602A (V0 := 42), F055 (store V0 at
I), then six times 0000. -/
def timer_store_program : List Nat :=
  [0x60, 0xFF, 0xAF, 0xFF, 0xF0, 0x1E, 0xF0, 0x1E, 0xF0, 0x1E, 0xF0, 0x1E,
    0x60, 0x22, 0xF0, 0x1E, 0x60, 0x2A, 0xF0, 0x55] ++ List.replicate 12 0x00

/-- The fresh machine loaded with `timer_store_program`. -/
def timer_store_start : chip8_t := (chip8_load_program chip8_make timer_store_program).2

/-- The fresh machine loaded with 6001 AFFF F01E 6007 F055 220E 0000 00EE: V0 := 1,
I := 0xFFF, I += V0 (I = 0x1000), V0 := 7, store V0 at I, call 0x20E, where a return
waits. -/
def call_store_start : chip8_t :=
  (chip8_load_program chip8_make
    [0x60, 0x01, 0xAF, 0xFF, 0xF0, 0x1E, 0x60, 0x07, 0xF0, 0x55, 0x22, 0x0E, 0x00, 0x00,
      0x00, 0xEE]).2

/-! ## Basic facts about bytes and the decoder -/

theorem u16_sub_two_add_two (n : Nat) (h : n < 65536) : (u16 ((n : Int) - 2) + 2) % 65536 = n := by
  unfold u16; omega

theorem and_fff (a : Nat) : a &&& 0xfff = a % 4096 := Nat.and_pow_two_sub_one_eq_mod a 12

theorem and_ff (a : Nat) : a &&& 0xff = a % 256 := Nat.and_pow_two_sub_one_eq_mod a 8

theorem and_0f (a : Nat) : a &&& 0x0f = a % 16 := Nat.and_pow_two_sub_one_eq_mod a 4

theorem nib_hi (b : Nat) (h : b < 256) : (b &&& 0xf0) >>> 4 = b / 16 := by
  revert b; decide

theorem opcode_of_eq (b0 b1 : Nat) (h0 : b0 < 256) (h1 : b1 < 256) :
    opcode_of (b0, b1) = 256 * b0 + b1 := by
  unfold opcode_of
  simp only
  rw [Nat.shiftLeft_eq, Nat.lor_comm, Nat.mul_comm,
    ← Nat.mul_add_lt_is_or (by omega : b1 < 2 ^ 8)]
  omega

/-- On bytes, the decoder sees the nibbles `b0 / 16`, `b0 % 16`, `b1 / 16`, `b1 % 16` and the
opcode `256 * b0 + b1`. -/
theorem decode_bytes_eq (b0 b1 : Nat) (h0 : b0 < 256) (h1 : b1 < 256) :
    decode_bytes (b0, b1) = decode (b0 / 16) (b0 % 16) (b1 / 16) (b1 % 16) (256 * b0 + b1) := by
  unfold decode_bytes
  simp only [opcode_of_eq b0 b1 h0 h1, nib_hi b0 h0, nib_hi b1 h1, and_0f]

/-- With a non-zero leading nibble the opcode is at least `0x1000`, so none of the `00xx`
tests of the chain fires and the second nibble is not consulted. -/
theorem decode_pos (n0 n1 n2 n3 opc : Nat) (h : 0 < n0) (ho : 4096 ≤ opc) :
    decode n0 n1 n2 n3 opc = decode n0 0 n2 n3 0x1000 := by
  have e0 : n0 ≠ 0 := by omega
  have e1 : opc ≠ 0xe0 := by omega
  have e2 : opc ≠ 0xee := by omega
  have e3 : opc ≠ 0xfa := by omega
  have e4 : opc ≠ 0xfb := by omega
  have e5 : opc ≠ 0xfc := by omega
  have e6 : opc ≠ 0xfd := by omega
  have e7 : opc ≠ 0xfe := by omega
  have e8 : opc ≠ 0xff := by omega
  simp [decode, e0, e1, e2, e3, e4, e5, e6, e7, e8]

/-- Every opcode with leading nibble 0 is accepted (00CN, 00E0, ..., 00FF or 0NNN). -/
theorem decode_zero (n1 n2 n3 opc : Nat) : decode 0 n1 n2 n3 opc ≠ not_found := by
  simp only [decode, true_and, if_true]
  repeat (first | split | simp)

/-! ## The timer block leaves everything but the timers alone -/

@[simp] theorem tick_timers_memory (ch : chip8_t) : (tick_timers ch).memory = ch.memory := by
  unfold tick_timers; simp only; split_ifs <;> rfl

@[simp] theorem tick_timers_display (ch : chip8_t) : (tick_timers ch).display = ch.display := by
  unfold tick_timers; simp only; split_ifs <;> rfl

@[simp] theorem tick_timers_regs (ch : chip8_t) : (tick_timers ch).regs = ch.regs := by
  unfold tick_timers; simp only; split_ifs <;> rfl

@[simp] theorem tick_timers_i_reg (ch : chip8_t) : (tick_timers ch).i_reg = ch.i_reg := by
  unfold tick_timers; simp only; split_ifs <;> rfl

@[simp] theorem tick_timers_program_counter (ch : chip8_t) :
    (tick_timers ch).program_counter = ch.program_counter := by
  unfold tick_timers; simp only; split_ifs <;> rfl

@[simp] theorem tick_timers_stack_pointer (ch : chip8_t) :
    (tick_timers ch).stack_pointer = ch.stack_pointer := by
  unfold tick_timers; simp only; split_ifs <;> rfl

@[simp] theorem tick_timers_program_size (ch : chip8_t) :
    (tick_timers ch).program_size = ch.program_size := by
  unfold tick_timers; simp only; split_ifs <;> rfl

@[simp] theorem tick_timers_increment_ireg (ch : chip8_t) :
    (tick_timers ch).increment_ireg = ch.increment_ireg := by
  unfold tick_timers; simp only; split_ifs <;> rfl

@[simp] theorem tick_timers_schip_mode (ch : chip8_t) :
    (tick_timers ch).schip_mode = ch.schip_mode := by
  unfold tick_timers; simp only; split_ifs <;> rfl

@[simp] theorem tick_timers_stack (ch : chip8_t) : (tick_timers ch).stack = ch.stack := by
  unfold tick_timers; simp only; split_ifs <;> rfl

@[simp] theorem tick_timers_out_of_bounds (ch : chip8_t) :
    (tick_timers ch).out_of_bounds = ch.out_of_bounds := by
  unfold tick_timers; simp only; split_ifs <;> rfl

@[simp] theorem at_end_tick_timers (ch : chip8_t) : at_end (tick_timers ch) = at_end ch := by
  simp only [at_end, tick_timers_program_counter, tick_timers_program_size]

@[simp] theorem fetch_tick_timers (ch : chip8_t) : fetch (tick_timers ch) = fetch ch := by
  simp only [fetch, tick_timers_program_counter, tick_timers_memory]

/-- A tick that stops at the end-of-program test returns false after the timer block. -/
theorem tick_at_end (ch : chip8_t) (input : Nat → Bool) (rnd : Nat) (h : at_end ch = true) :
    chip8_cpu_tick ch input rnd = (false, tick_timers ch) := by
  simp only [chip8_cpu_tick, at_end_tick_timers, h, if_true]

/-- A tick that passes the end-of-program test runs the handler selected by the fetched
bytes on the state left by the timer block. -/
theorem tick_not_at_end (ch : chip8_t) (input : Nat → Bool) (rnd : Nat) (h : at_end ch = false) :
    chip8_cpu_tick ch input rnd =
      match execute (tick_timers ch) input rnd (opcode_of (fetch ch) &&& 0xfff)
          ((opcode_of (fetch ch) &&& 0xff) % 256) ((fetch ch).2 &&& 0x0f) ((fetch ch).1 &&& 0x0f)
          (((fetch ch).2 &&& 0xf0) >>> 4) (decode_bytes (fetch ch)) with
      | (some b, ch2) => (b, ch2)
      | (none, ch2) => (true, skip_next ch2) := by
  simp only [chip8_cpu_tick, at_end_tick_timers, h, fetch_tick_timers]
  rfl


/-! ## Fields the helpers do not touch -/

/-- A fold whose step keeps a projection keeps it overall. -/
theorem foldl_proj_eq {α β γ : Type} (proj : α → γ) (g : α → β → α)
    (h : ∀ a b, proj (g a b) = proj a) (l : List β) (a : α) :
    proj (l.foldl g a) = proj a := by
  induction l generalizing a with
  | nil => rfl
  | cons b l ih => rw [List.foldl_cons, ih, h]

theorem control_set_reg (ch : chip8_t) (i v : Nat) : control (set_reg ch i v) = control ch := rfl

theorem control_set_pixel (ch : chip8_t) (x y : Nat) (v : Bool) :
    control (chip8_set_pixel ch x y v) = control ch := rfl

theorem control_draw_pixel (sprite cols x y : Nat) (ch : chip8_t) (row col : Nat) :
    control (draw_pixel sprite cols x y ch row col) = control ch := by
  unfold draw_pixel
  simp only
  split_ifs <;> rfl

theorem control_draw_sprite (ch : chip8_t) (sprite n x y : Nat) :
    control (chip8_draw_sprite ch sprite n x y) = control ch := by
  unfold chip8_draw_sprite
  simp only
  rw [foldl_proj_eq control]
  · rfl
  · intro a row
    rw [foldl_proj_eq control]
    intro a2 col
    exact control_draw_pixel _ _ _ _ _ _ _

theorem memory_draw_pixel (sprite cols x y : Nat) (ch : chip8_t) (row col : Nat) :
    (draw_pixel sprite cols x y ch row col).memory = ch.memory := by
  unfold draw_pixel
  simp only
  split_ifs <;> rfl

theorem memory_draw_sprite (ch : chip8_t) (sprite n x y : Nat) :
    (chip8_draw_sprite ch sprite n x y).memory = ch.memory := by
  unfold chip8_draw_sprite
  simp only
  rw [foldl_proj_eq chip8_t.memory]
  intro a row
  rw [foldl_proj_eq chip8_t.memory]
  intro a2 col
  exact memory_draw_pixel _ _ _ _ _ _ _

theorem control_scroll_right (ch : chip8_t) : control (scroll_right ch) = control ch := rfl

theorem control_scroll_left (ch : chip8_t) : control (scroll_left ch) = control ch := rfl

theorem control_scroll_down (ch : chip8_t) (n : Nat) : control (scroll_down ch n) = control ch :=
  rfl

theorem control_store_regs (ch : chip8_t) (x : Nat) : control (store_regs ch x) = control ch := by
  unfold store_regs
  rw [foldl_proj_eq control]
  intro a b; rfl

theorem control_load_regs (ch : chip8_t) (x : Nat) : control (load_regs ch x) = control ch := by
  unfold load_regs
  rw [foldl_proj_eq control]
  intro a b; rfl

theorem timers_of_control {a b : chip8_t} (h : control a = control b) : timers a = timers b := by
  simp only [control, Prod.mk.injEq] at h
  simp only [timers, h]

theorem timers_skip_next (ch : chip8_t) : timers (skip_next ch) = timers ch := rfl

theorem timers_bump_ireg (ch : chip8_t) (x : Nat) : timers (bump_ireg ch x) = timers ch := by
  unfold bump_ireg; split_ifs <;> rfl

theorem timers_stack_set (ch : chip8_t) (k v : Nat) : timers (stack_set ch k v) = timers ch := rfl

/-- No handler other than FX15, FX18, 00FE and 00FF changes a timer, the timer phase or the
display mode. -/
theorem timers_execute (ch : chip8_t) (input : Nat → Bool) (rnd nnn nn n x y : Nat) (op : op_t)
    (h15 : op ≠ op_FX15) (h18 : op ≠ op_FX18) (hfe : op ≠ op_00FE) (hff : op ≠ op_00FF) :
    timers (execute ch input rnd nnn nn n x y op).2 = timers ch := by
  cases op
  case op_FX15 => exact absurd rfl h15
  case op_FX18 => exact absurd rfl h18
  case op_00FE => exact absurd rfl hfe
  case op_00FF => exact absurd rfl hff
  case op_DXYN =>
    simp only [execute]
    split_ifs
    · rfl
    · exact timers_of_control (control_draw_sprite _ _ _ _ _)
  case op_FX55 =>
    simp only [execute, timers_bump_ireg]
    exact timers_of_control (control_store_regs _ _)
  case op_FX65 =>
    simp only [execute, timers_bump_ireg]
    exact timers_of_control (control_load_regs _ _)
  all_goals ((simp only [execute]) <;> (first | rfl | (split_ifs <;> rfl)))

/-- A tick whose instruction is timer-quiet acts on the timer view like the timer block. -/
theorem timers_step (ch : chip8_t) (e : (Nat → Bool) × Nat) (hq : timer_quiet ch) :
    timers (step ch e) = timers (tick_timers ch) := by
  unfold step
  by_cases hend : at_end ch = true
  · rw [tick_at_end ch e.1 e.2 hend]
  · have hend2 : at_end ch = false := by simpa using hend
    have hop : executed_op ch = some (decode_bytes (fetch ch)) := by
      simp only [executed_op, hend2, Bool.false_eq_true, if_false]
    obtain ⟨q1, q2, q3, q4⟩ := hq
    rw [hop] at q1 q2 q3 q4
    have te := timers_execute (tick_timers ch) e.1 e.2 (opcode_of (fetch ch) &&& 0xfff)
      ((opcode_of (fetch ch) &&& 0xff) % 256) ((fetch ch).2 &&& 0x0f) ((fetch ch).1 &&& 0x0f)
      (((fetch ch).2 &&& 0xf0) >>> 4) (decode_bytes (fetch ch))
      (fun h => q1 (congrArg some h)) (fun h => q2 (congrArg some h))
      (fun h => q3 (congrArg some h)) (fun h => q4 (congrArg some h))
    rw [tick_not_at_end ch e.1 e.2 hend2]
    revert te
    generalize execute (tick_timers ch) e.1 e.2 (opcode_of (fetch ch) &&& 0xfff)
      ((opcode_of (fetch ch) &&& 0xff) % 256) ((fetch ch).2 &&& 0x0f) ((fetch ch).1 &&& 0x0f)
      (((fetch ch).2 &&& 0xf0) >>> 4) (decode_bytes (fetch ch)) = r
    intro te
    obtain ⟨ob, c2⟩ := r
    cases ob with
    | none => simpa [timers_skip_next] using te
    | some b => simpa using te


/-! ## Bits of the display plane -/

theorem get_bit_eq (d : Nat → Nat) (ix : Nat) :
    chip8_get_bit d ix = (d (ix / 8)).testBit (7 - ix % 8) := by
  simp only [chip8_get_bit, Nat.testBit, Nat.and_comm]

/-- The byte expression of `chip8_set_bit` sets bit `bit` to `v` and keeps the other bits
below 8. -/
theorem testBit_set_byte (byte bit k : Nat) (v : Bool) (hbit : bit < 8) (hk : k < 8) :
    (((byte &&& (0xffffffff ^^^ (1 <<< bit))) ||| ((if v then 0xffffffff else 0) &&& (1 <<< bit)))
      % 256).testBit k = if k = bit then v else byte.testBit k := by
  have h256 : (256 : Nat) = 2 ^ 8 := by norm_num
  have hk32 : k < 32 := by omega
  have hall : Nat.testBit 4294967295 k = true := by
    have h := Nat.testBit_two_pow_sub_one 32 k
    rw [decide_eq_true hk32] at h
    exact h
  rw [h256, Nat.testBit_mod_two_pow]
  by_cases hkb : k = bit
  · subst hkb
    cases v <;> simp [Nat.one_shiftLeft, Nat.testBit_two_pow, hk, hall]
  · have hbk : ¬ (bit = k) := fun h => hkb h.symm
    cases v <;> simp [Nat.one_shiftLeft, Nat.testBit_two_pow, hk, hall, hkb, hbk]

/-- Reading a bit after `chip8_set_bit`: the written bit has the new value, every other bit
of the plane keeps its value. -/
theorem get_bit_set_bit (d : Nat → Nat) (ix jx : Nat) (v : Bool) :
    chip8_get_bit (chip8_set_bit d ix v) jx = if jx = ix then v else chip8_get_bit d jx := by
  rw [get_bit_eq, get_bit_eq]
  unfold chip8_set_bit upd
  by_cases hb : jx / 8 = ix / 8
  · simp only [hb, if_true]
    rw [testBit_set_byte _ _ _ _ (by omega) (by omega)]
    by_cases hj : jx = ix
    · subst hj; simp
    · have : ¬ (7 - jx % 8 = 7 - ix % 8) := by omega
      simp only [this, hj, if_false]
  · have hj : ¬ (jx = ix) := fun h => hb (by rw [h])
    simp only [hb, hj, if_false]

theorem get_pixel_eq (ch : chip8_t) (x y : Nat) :
    chip8_get_pixel ch x y = chip8_get_bit ch.display (pix ch.schip_mode x y) := by
  unfold chip8_get_pixel pix chip8_get_width chip8_get_height
  cases ch.schip_mode <;> rfl

theorem set_pixel_display (ch : chip8_t) (x y : Nat) (v : Bool) :
    (chip8_set_pixel ch x y v).display = chip8_set_bit ch.display (pix ch.schip_mode x y) v := by
  unfold chip8_set_pixel pix chip8_get_width chip8_get_height
  cases ch.schip_mode <;> rfl


/-! ## Sprite drawing -/

theorem draw_pixel_display (sprite cols x y : Nat) (ch : chip8_t) (cell : Nat × Nat) :
    (draw_pixel sprite cols x y ch cell.1 cell.2).display =
      chip8_set_bit ch.display (cell_ix ch.schip_mode x y cell)
        (xor (chip8_get_bit ch.display (cell_ix ch.schip_mode x y cell))
          (sbit ch.memory sprite cols cell)) := by
  unfold draw_pixel
  simp only [get_pixel_eq, set_pixel_display]
  split_ifs <;> rfl

theorem draw_pixel_regs (sprite cols x y : Nat) (ch : chip8_t) (cell : Nat × Nat) :
    (draw_pixel sprite cols x y ch cell.1 cell.2).regs =
      if (chip8_get_bit ch.display (cell_ix ch.schip_mode x y cell)
          && sbit ch.memory sprite cols cell) = true
      then upd ch.regs 0xf 1 else ch.regs := by
  unfold draw_pixel cell_ix sbit
  simp only [get_pixel_eq]
  by_cases h : (chip8_get_bit ch.display (pix ch.schip_mode (x + cell.2) (y + cell.1))
      && chip8_get_bit (fun k => ch.memory (sprite + k)) (cell.1 * cols + cell.2)) = true
  · rw [if_pos h, if_pos h]; rfl
  · rw [if_neg h, if_neg h]; rfl

theorem draw_pixel_schip_mode (sprite cols x y : Nat) (ch : chip8_t) (row col : Nat) :
    (draw_pixel sprite cols x y ch row col).schip_mode = ch.schip_mode := by
  have h := control_draw_pixel sprite cols x y ch row col
  simp only [control, Prod.mk.injEq] at h
  exact h.2.2.2.1

theorem any_congr_mem {α : Type} (l : List α) (f g : α → Bool)
    (h : ∀ a ∈ l, f a = g a) : l.any f = l.any g := by
  induction l with
  | nil => rfl
  | cons a l ih =>
    rw [List.any_cons, List.any_cons, h a (List.mem_cons_self a l),
      ih (fun b hb => h b (List.mem_cons_of_mem a hb))]

/-- Folding `draw_pixel` over cells that go to pairwise different display bits: every
display bit is XORed with the sprite bit of the cell drawn there (if any), VF becomes 1 as
soon as a cell finds its display bit and its sprite bit both set, and no other register
changes. -/
theorem fold_draw (sprite cols x y : Nat) (m : Bool) (mem : Nat → Nat)
    (l : List (Nat × Nat)) :
    (l.map (cell_ix m x y)).Nodup →
    ∀ ch : chip8_t, ch.schip_mode = m → ch.memory = mem →
      (∀ p, chip8_get_bit
          (l.foldl (fun c cell => draw_pixel sprite cols x y c cell.1 cell.2) ch).display p
        = xor (chip8_get_bit ch.display p)
            (l.any (fun cell => cell_ix m x y cell == p && sbit mem sprite cols cell))) ∧
      ((l.foldl (fun c cell => draw_pixel sprite cols x y c cell.1 cell.2) ch).regs 0xf
        = if l.any (fun cell => chip8_get_bit ch.display (cell_ix m x y cell)
              && sbit mem sprite cols cell) = true
          then 1 else ch.regs 0xf) ∧
      (∀ i, i ≠ 0xf →
        (l.foldl (fun c cell => draw_pixel sprite cols x y c cell.1 cell.2) ch).regs i
          = ch.regs i) := by
  induction l with
  | nil =>
    intro _ ch _ _
    simp
  | cons c l ih =>
    intro hnd ch hm hmem
    rw [List.map_cons, List.nodup_cons] at hnd
    obtain ⟨hnotin, hnd2⟩ := hnd
    have hfresh : ∀ cell ∈ l, cell_ix m x y cell ≠ cell_ix m x y c := by
      intro cell hcell heq
      exact hnotin (heq ▸ List.mem_map_of_mem _ hcell)
    have hm2 : (draw_pixel sprite cols x y ch c.1 c.2).schip_mode = m := by
      rw [draw_pixel_schip_mode, hm]
    have hmem2 : (draw_pixel sprite cols x y ch c.1 c.2).memory = mem := by
      rw [memory_draw_pixel, hmem]
    obtain ⟨i1, i2, i3⟩ := ih hnd2 (draw_pixel sprite cols x y ch c.1 c.2) hm2 hmem2
    have hdisp : ∀ p, chip8_get_bit (draw_pixel sprite cols x y ch c.1 c.2).display p
        = if p = cell_ix m x y c
          then xor (chip8_get_bit ch.display (cell_ix m x y c)) (sbit mem sprite cols c)
          else chip8_get_bit ch.display p := by
      intro p
      rw [draw_pixel_display, get_bit_set_bit, hm, hmem]
    rw [List.foldl_cons]
    refine ⟨?_, ?_, ?_⟩
    · intro p
      rw [i1 p, hdisp p, List.any_cons]
      by_cases hp : p = cell_ix m x y c
      · subst hp
        have hnone : l.any (fun cell => cell_ix m x y cell == cell_ix m x y c
            && sbit mem sprite cols cell) = false := by
          rw [List.any_eq_false]
          intro cell hcell
          have := hfresh cell hcell
          simp [this]
        rw [hnone]
        simp
      · have hp2 : ¬ (cell_ix m x y c = p) := fun h => hp h.symm
        simp [hp, hp2]
    · rw [i2, List.any_cons]
      have hany : l.any (fun cell =>
            chip8_get_bit (draw_pixel sprite cols x y ch c.1 c.2).display (cell_ix m x y cell)
              && sbit mem sprite cols cell)
          = l.any (fun cell => chip8_get_bit ch.display (cell_ix m x y cell)
              && sbit mem sprite cols cell) := by
        apply any_congr_mem
        intro cell hcell
        rw [hdisp, if_neg (hfresh cell hcell)]
      rw [hany, draw_pixel_regs, hm, hmem]
      cases h1 : (chip8_get_bit ch.display (cell_ix m x y c) && sbit mem sprite cols c)
      · rw [Bool.false_or, if_neg (by decide : ¬ (false = true))]
      · rw [Bool.true_or, if_pos rfl, if_pos rfl]
        simp [upd]
    · intro i hi
      rw [i3 i hi, draw_pixel_regs]
      split_ifs
      · simp [upd, hi]
      · rfl


/-- The two nested loops visit the cells of the product list in order. -/
theorem foldl_nested {α : Type} (g : α → Nat → Nat → α) (l1 l2 : List Nat) (a : α) :
    l1.foldl (fun c r => l2.foldl (fun c2 col => g c2 r col) c) a
      = (List.product l1 l2).foldl (fun c cell => g c cell.1 cell.2) a := by
  induction l1 generalizing a with
  | nil => rfl
  | cons r l1 ih =>
    have hp : List.product (r :: l1) l2 = l2.map (Prod.mk r) ++ List.product l1 l2 :=
      List.product_cons r l1 l2
    rw [List.foldl_cons, hp, List.foldl_append, List.foldl_map, ih]

theorem draw_sprite_eq_fold (ch : chip8_t) (sprite n x y : Nat) :
    chip8_draw_sprite ch sprite n x y
      = (sprite_cells n).foldl
          (fun c cell => draw_pixel sprite (sprite_cols n) x y c cell.1 cell.2)
          { ch with regs := upd ch.regs 0xf 0 } := by
  unfold chip8_draw_sprite sprite_cells sprite_rows sprite_cols
  simp only
  rw [foldl_nested (fun c r col => draw_pixel sprite (if n = 0 then 16 else 8) x y c r col)]

theorem mem_sprite_cells (n : Nat) (cell : Nat × Nat) :
    cell ∈ sprite_cells n ↔ cell.1 < sprite_rows n ∧ cell.2 < sprite_cols n := by
  unfold sprite_cells
  obtain ⟨r, c⟩ := cell
  have h : (r, c) ∈ List.product (List.range (sprite_rows n)) (List.range (sprite_cols n))
      ↔ r ∈ List.range (sprite_rows n) ∧ c ∈ List.range (sprite_cols n) := List.mem_product
  rw [h, List.mem_range, List.mem_range]

/-- Two cells of a sprite of at most 16 rows and 16 columns never land on the same display
bit, in either mode. -/
theorem cell_ix_inj (m : Bool) (x y r c r2 c2 : Nat) (hr : r < 16) (hc : c < 16)
    (hr2 : r2 < 16) (hc2 : c2 < 16)
    (h : cell_ix m x y (r, c) = cell_ix m x y (r2, c2)) : r = r2 ∧ c = c2 := by
  unfold cell_ix pix at h
  cases m
  · simp only [Bool.false_eq_true, if_false, DISPLAY_HEIGHT, DISPLAY_WIDTH] at h
    omega
  · simp only [if_true, SDISPLAY_HEIGHT, SDISPLAY_WIDTH] at h
    omega

theorem sprite_rows_le (n : Nat) (hn : n < 16) : sprite_rows n ≤ 16 := by
  unfold sprite_rows; split_ifs <;> omega

theorem sprite_cols_le (n : Nat) : sprite_cols n ≤ 16 := by
  unfold sprite_cols; split_ifs <;> omega

theorem sprite_cells_nodup (m : Bool) (n x y : Nat) (hn : n < 16) :
    ((sprite_cells n).map (cell_ix m x y)).Nodup := by
  apply List.Nodup.map_on
  · intro a ha b hb hab
    rw [mem_sprite_cells] at ha hb
    have hr := sprite_rows_le n hn
    have hc := sprite_cols_le n
    obtain ⟨e1, e2⟩ := cell_ix_inj m x y a.1 a.2 b.1 b.2 (by omega) (by omega) (by omega)
      (by omega) hab
    exact Prod.ext e1 e2
  · exact List.Nodup.product (List.nodup_range (sprite_rows n)) (List.nodup_range (sprite_cols n))

/-- What `chip8_draw_sprite` does, for sprite sizes `n < 16`: every display bit is XORed with
the sprite bit of the cell that lands on it, VF is 1 exactly when some cell found its
display bit and its sprite bit both set, and registers other than VF, the memory and the
display mode are unchanged. -/
theorem draw_sprite_spec (ch : chip8_t) (sprite n x y : Nat) (hn : n < 16) :
    (∀ p, chip8_get_bit (chip8_draw_sprite ch sprite n x y).display p
      = xor (chip8_get_bit ch.display p)
          ((sprite_cells n).any (fun cell => cell_ix ch.schip_mode x y cell == p
            && sbit ch.memory sprite (sprite_cols n) cell))) ∧
    ((chip8_draw_sprite ch sprite n x y).regs 0xf
      = if (sprite_cells n).any (fun cell =>
            chip8_get_bit ch.display (cell_ix ch.schip_mode x y cell)
              && sbit ch.memory sprite (sprite_cols n) cell) = true
        then 1 else 0) ∧
    (∀ i, i ≠ 0xf → (chip8_draw_sprite ch sprite n x y).regs i = ch.regs i) ∧
    (chip8_draw_sprite ch sprite n x y).memory = ch.memory ∧
    (chip8_draw_sprite ch sprite n x y).schip_mode = ch.schip_mode := by
  have hfold := fold_draw sprite (sprite_cols n) x y ch.schip_mode ch.memory (sprite_cells n)
    (sprite_cells_nodup ch.schip_mode n x y hn) { ch with regs := upd ch.regs 0xf 0 } rfl rfl
  rw [← draw_sprite_eq_fold] at hfold
  obtain ⟨f1, f2, f3⟩ := hfold
  refine ⟨f1, ?_, ?_, memory_draw_sprite _ _ _ _ _, ?_⟩
  · rw [f2]
    simp only [upd, if_true]
  · intro i hi
    rw [f3 i hi]
    simp only [upd, hi, if_false]
  · have h := control_draw_sprite ch sprite n x y
    simp only [control, Prod.mk.injEq] at h
    exact h.2.2.2.1


/-! ## Single instructions -/

/-- A tick that passes the end-of-program test and fetches the bytes `b0 b1`: the operands
are `nnn = (256 b0 + b1) % 4096`, `nn = b1`, `n = b1 % 16`, `x = b0 % 16`, `y = b1 / 16`. -/
theorem tick_bytes (ch : chip8_t) (input : Nat → Bool) (rnd b0 b1 : Nat)
    (hend : at_end ch = false) (hf : fetch ch = (b0, b1)) (h0 : b0 < 256) (h1 : b1 < 256) :
    chip8_cpu_tick ch input rnd =
      match execute (tick_timers ch) input rnd ((256 * b0 + b1) % 4096) b1 (b1 % 16) (b0 % 16)
          (b1 / 16) (decode (b0 / 16) (b0 % 16) (b1 / 16) (b1 % 16) (256 * b0 + b1)) with
      | (some b, ch2) => (b, ch2)
      | (none, ch2) => (true, skip_next ch2) := by
  rw [tick_not_at_end ch input rnd hend, hf, decode_bytes_eq b0 b1 h0 h1,
    opcode_of_eq b0 b1 h0 h1, and_fff, and_ff, and_0f, and_0f, nib_hi b1 h1]
  have e : (256 * b0 + b1) % 256 % 256 = b1 := by omega
  rw [e]

theorem tick_6XNN (ch : chip8_t) (input : Nat → Bool) (rnd x nn : Nat)
    (hend : at_end ch = false) (hf : fetch ch = (0x60 + x, nn)) (hx : x < 16) (hnn : nn < 256) :
    chip8_cpu_tick ch input rnd = (true, skip_next (set_reg (tick_timers ch) x nn)) := by
  rw [tick_bytes ch input rnd _ _ hend hf (by omega) hnn]
  have e1 : (0x60 + x) / 16 = 6 := by omega
  have e2 : (0x60 + x) % 16 = x := by omega
  rw [e1, e2, decode_pos 6 _ _ _ _ (by decide) (by omega)]
  have hd : decode 6 0 (nn / 16) (nn % 16) 0x1000 = op_6XNN := by simp [decode]
  rw [hd]
  rfl

theorem tick_FX29 (ch : chip8_t) (input : Nat → Bool) (rnd x : Nat)
    (hend : at_end ch = false) (hf : fetch ch = (0xf0 + x, 0x29)) (hx : x < 16) :
    chip8_cpu_tick ch input rnd
      = (true, skip_next { tick_timers ch with i_reg := (ch.regs x * 5) % 65536 }) := by
  rw [tick_bytes ch input rnd _ _ hend hf (by omega) (by decide)]
  have e1 : (0xf0 + x) / 16 = 15 := by omega
  have e2 : (0xf0 + x) % 16 = x := by omega
  rw [e1, e2, decode_pos 15 _ _ _ _ (by decide) (by omega)]
  have hd : decode 15 0 (0x29 / 16) (0x29 % 16) 0x1000 = op_FX29 := by decide
  rw [hd]
  simp only [execute, tick_timers_regs]

theorem tick_FX30 (ch : chip8_t) (input : Nat → Bool) (rnd x : Nat)
    (hend : at_end ch = false) (hf : fetch ch = (0xf0 + x, 0x30)) (hx : x < 16) :
    chip8_cpu_tick ch input rnd
      = (true, skip_next { tick_timers ch with
          i_reg := (SUPER_DIGITS_OFFSET + ch.regs x * 10) % 65536 }) := by
  rw [tick_bytes ch input rnd _ _ hend hf (by omega) (by decide)]
  have e1 : (0xf0 + x) / 16 = 15 := by omega
  have e2 : (0xf0 + x) % 16 = x := by omega
  rw [e1, e2, decode_pos 15 _ _ _ _ (by decide) (by omega)]
  have hd : decode 15 0 (0x30 / 16) (0x30 % 16) 0x1000 = op_FX30 := by decide
  rw [hd]
  simp only [execute, tick_timers_regs]

theorem tick_DXYN (ch : chip8_t) (input : Nat → Bool) (rnd x y n : Nat)
    (hend : at_end ch = false) (hf : fetch ch = (0xd0 + x, 16 * y + n))
    (hx : x < 16) (hy : y < 16) (hn : n < 16) (hI : ch.i_reg + 256 < 4096) :
    chip8_cpu_tick ch input rnd
      = (true, skip_next (chip8_draw_sprite (tick_timers ch) ch.i_reg n (ch.regs x)
          (ch.regs y))) := by
  rw [tick_bytes ch input rnd _ _ hend hf (by omega) (by omega)]
  have e1 : (0xd0 + x) / 16 = 13 := by omega
  have e2 : (0xd0 + x) % 16 = x := by omega
  have e3 : (16 * y + n) / 16 = y := by omega
  have e4 : (16 * y + n) % 16 = n := by omega
  rw [e1, e2, e3, e4, decode_pos 13 _ _ _ _ (by decide) (by omega)]
  have hd : decode 13 0 y n 0x1000 = op_DXYN := by simp [decode]
  rw [hd]
  have hI2 : ¬ (ch.i_reg + 16 * 16 ≥ MEMORY_SIZE) := by
    simp only [MEMORY_SIZE]; omega
  simp only [execute, tick_timers_regs, tick_timers_i_reg, if_neg hI2]


/-! ## More single instructions -/

/-- DXYN in both cases of its bounds test. -/
theorem tick_DXYN_cases (ch : chip8_t) (input : Nat → Bool) (rnd x y n : Nat)
    (hend : at_end ch = false) (hf : fetch ch = (0xd0 + x, 16 * y + n))
    (hx : x < 16) (hy : y < 16) (hn : n < 16) :
    chip8_cpu_tick ch input rnd
      = if ch.i_reg + 256 ≥ 4096 then (false, tick_timers ch)
        else (true, skip_next (chip8_draw_sprite (tick_timers ch) ch.i_reg n (ch.regs x)
          (ch.regs y))) := by
  by_cases hI : ch.i_reg + 256 ≥ 4096
  · rw [if_pos hI, tick_bytes ch input rnd _ _ hend hf (by omega) (by omega)]
    have e1 : (0xd0 + x) / 16 = 13 := by omega
    have e2 : (0xd0 + x) % 16 = x := by omega
    have e3 : (16 * y + n) / 16 = y := by omega
    have e4 : (16 * y + n) % 16 = n := by omega
    rw [e1, e2, e3, e4, decode_pos 13 _ _ _ _ (by decide) (by omega)]
    have hd : decode 13 0 y n 0x1000 = op_DXYN := by simp [decode]
    rw [hd]
    have hI2 : ch.i_reg + 16 * 16 ≥ MEMORY_SIZE := by
      simp only [MEMORY_SIZE]; omega
    simp only [execute, tick_timers_i_reg, if_pos hI2]
  · rw [if_neg hI]
    exact tick_DXYN ch input rnd x y n hend hf hx hy hn (by omega)


/-! ## Loading and construction -/

/-- C1. For every machine state and every program `P` (a byte sequence whose length fits
`size_t` after adding the load offset), `chip8_load_program` returns true if and only if
`0x200 + L < 0xEA0`; when it returns false the machine state is returned unchanged, so no
byte of `P` has been copied. -/
theorem load_program_succeeds_iff (ch : chip8_t) (P : List Nat)
    (hP : PROGRAM_OFFSET + P.length < SIZE_RANGE) :
    ((chip8_load_program ch P).1 = true ↔ 0x200 + P.length < 0xEA0) ∧
    ((chip8_load_program ch P).1 = false → (chip8_load_program ch P).2 = ch) := by
  have hmod : (PROGRAM_OFFSET + P.length) % SIZE_RANGE = PROGRAM_OFFSET + P.length :=
    Nat.mod_eq_of_lt hP
  unfold chip8_load_program
  simp only [hmod]
  by_cases h : PROGRAM_OFFSET + P.length ≥ STACK_OFFSET
  · simp only [h, if_true]
    simp only [PROGRAM_OFFSET, STACK_OFFSET] at h
    constructor
    · constructor
      · intro hc; cases hc
      · intro hlt; omega
    · intro _; trivial
  · simp only [h, if_false]
    simp only [PROGRAM_OFFSET, STACK_OFFSET] at h
    constructor
    · constructor
      · intro _; omega
      · intro _; trivial
    · intro hc; cases hc

/-- Witness for C1 on a fresh machine and a two-byte program. -/
theorem load_program_succeeds_iff_witness :
    ((chip8_load_program chip8_make [0x60, 0x01]).1 = true ↔ 0x200 + [0x60, 0x01].length < 0xEA0) ∧
    ((chip8_load_program chip8_make [0x60, 0x01]).1 = false →
      (chip8_load_program chip8_make [0x60, 0x01]).2 = chip8_make) :=
  load_program_succeeds_iff chip8_make [0x60, 0x01] (by decide)

/-- C2. For every machine state and every program `P` of length `L` with
`0x200 + L < 0xEA0`, `chip8_load_program` returns true and in the resulting state
`memory[0x200 + i] = P[i]` for every `i < L`, the program counter is `0x200`, the stack
pointer, both timers and the index register are 0, SCHIP mode and the index-increment flag
are false, and the recorded program size is `L`. -/
theorem load_program_effect (ch : chip8_t) (P : List Nat) (hfit : 0x200 + P.length < 0xEA0) :
    (chip8_load_program ch P).1 = true ∧
    (∀ i, (h : i < P.length) → (chip8_load_program ch P).2.memory (0x200 + i) = P[i]) ∧
    (chip8_load_program ch P).2.program_counter = 0x200 ∧
    (chip8_load_program ch P).2.stack_pointer = 0 ∧
    (chip8_load_program ch P).2.delay_timer = 0 ∧
    (chip8_load_program ch P).2.sound_timer = 0 ∧
    (chip8_load_program ch P).2.i_reg = 0 ∧
    (chip8_load_program ch P).2.schip_mode = false ∧
    (chip8_load_program ch P).2.increment_ireg = false ∧
    (chip8_load_program ch P).2.program_size = P.length := by
  have hmod : (PROGRAM_OFFSET + P.length) % SIZE_RANGE = PROGRAM_OFFSET + P.length := by
    apply Nat.mod_eq_of_lt
    simp only [PROGRAM_OFFSET, SIZE_RANGE]; omega
  have hge : ¬ (PROGRAM_OFFSET + P.length ≥ STACK_OFFSET) := by
    simp only [PROGRAM_OFFSET, STACK_OFFSET]; omega
  unfold chip8_load_program
  simp only [hmod, hge, if_false, true_and, and_true]
  intro i hi
  have hin : PROGRAM_OFFSET ≤ 0x200 + i ∧ 0x200 + i < PROGRAM_OFFSET + P.length := by
    simp only [PROGRAM_OFFSET]; omega
  simp only [memcpy, hin, and_self, if_true]
  have hsub : 0x200 + i - PROGRAM_OFFSET = i := by simp only [PROGRAM_OFFSET]; omega
  rw [hsub, List.getD_eq_getElem _ _ hi]

/-- Witness for C2 on a fresh machine and a two-byte program. -/
theorem load_program_effect_witness :
    0x200 + [0x60, 0x01].length < 0xEA0 ∧
    (chip8_load_program chip8_make [0x60, 0x01]).1 = true ∧
    (chip8_load_program chip8_make [0x60, 0x01]).2.memory (0x200 + 1) = 0x01 ∧
    (chip8_load_program chip8_make [0x60, 0x01]).2.program_counter = 0x200 ∧
    (chip8_load_program chip8_make [0x60, 0x01]).2.program_size = 2 :=
  let h := load_program_effect chip8_make [0x60, 0x01] (by decide)
  ⟨by decide, h.1, h.2.1 1 (by decide), h.2.2.1, h.2.2.2.2.2.2.2.2.2⟩


/-- C3 refuted as stated: `reload_state` is reachable (fresh machine, load of 6005, one
tick), the empty program fits, and loading it there leaves V0 = 5 while loading it on a
fresh machine gives V0 = 0, so the two resulting states differ. -/
theorem reload_not_full_reset :
    Reachable reload_state ∧ 0x200 + ([] : List Nat).length < 0xEA0 ∧
    (chip8_load_program reload_state []).1 = true ∧
    (chip8_load_program reload_state []).2.regs 0 = 5 ∧
    (chip8_load_program chip8_make []).2.regs 0 = 0 ∧
    (chip8_load_program reload_state []).2 ≠ (chip8_load_program chip8_make []).2 := by
  have h5 : (chip8_load_program reload_state []).2.regs 0 = 5 := by decide
  have h0 : (chip8_load_program chip8_make []).2.regs 0 = 0 := by decide
  refine ⟨?_, by decide, by decide, h5, h0, ?_⟩
  · exact Reachable.tick _ _ _ (Reachable.load_fresh [0x60, 0x05] (by decide))
  · intro heq
    rw [heq, h0] at h5
    exact absurd h5 (by decide)

/-- C3 as amended. For every machine state `s` and every program `P` that fits, loading `P`
into `s` and loading `P` into a fresh machine both succeed and give states that agree on the
program counter, stack pointer, both timers, the timer phase, the index register, both mode
flags, the program size and the loaded bytes `memory[0x200 .. 0x200 + L)`. -/
theorem reload_resets_control_state (s : chip8_t) (P : List Nat)
    (hfit : 0x200 + P.length < 0xEA0) :
    (chip8_load_program s P).1 = true ∧ (chip8_load_program chip8_make P).1 = true ∧
    (chip8_load_program s P).2.program_counter
      = (chip8_load_program chip8_make P).2.program_counter ∧
    (chip8_load_program s P).2.stack_pointer
      = (chip8_load_program chip8_make P).2.stack_pointer ∧
    (chip8_load_program s P).2.delay_timer = (chip8_load_program chip8_make P).2.delay_timer ∧
    (chip8_load_program s P).2.sound_timer = (chip8_load_program chip8_make P).2.sound_timer ∧
    (chip8_load_program s P).2.timer_counter
      = (chip8_load_program chip8_make P).2.timer_counter ∧
    (chip8_load_program s P).2.i_reg = (chip8_load_program chip8_make P).2.i_reg ∧
    (chip8_load_program s P).2.schip_mode = (chip8_load_program chip8_make P).2.schip_mode ∧
    (chip8_load_program s P).2.increment_ireg
      = (chip8_load_program chip8_make P).2.increment_ireg ∧
    (chip8_load_program s P).2.program_size = (chip8_load_program chip8_make P).2.program_size ∧
    (∀ i, i < P.length → (chip8_load_program s P).2.memory (0x200 + i)
      = (chip8_load_program chip8_make P).2.memory (0x200 + i)) := by
  have hmod : (PROGRAM_OFFSET + P.length) % SIZE_RANGE = PROGRAM_OFFSET + P.length := by
    apply Nat.mod_eq_of_lt
    simp only [PROGRAM_OFFSET, SIZE_RANGE]; omega
  have hge : ¬ (PROGRAM_OFFSET + P.length ≥ STACK_OFFSET) := by
    simp only [PROGRAM_OFFSET, STACK_OFFSET]; omega
  unfold chip8_load_program
  simp only [hmod, hge, if_false, true_and]
  intro i hi
  have hin : PROGRAM_OFFSET ≤ 0x200 + i ∧ 0x200 + i < PROGRAM_OFFSET + P.length := by
    simp only [PROGRAM_OFFSET]; omega
  simp only [memcpy, hin, and_self, if_true]

/-- Witness for the amended C3 at the reachable state `reload_state` and the program 6005. -/
theorem reload_resets_control_state_witness :
    0x200 + [0x60, 0x05].length < 0xEA0 ∧
    (chip8_load_program reload_state [0x60, 0x05]).2.program_counter
      = (chip8_load_program chip8_make [0x60, 0x05]).2.program_counter ∧
    (chip8_load_program reload_state [0x60, 0x05]).2.memory (0x200 + 1)
      = (chip8_load_program chip8_make [0x60, 0x05]).2.memory (0x200 + 1) :=
  let h := reload_resets_control_state reload_state [0x60, 0x05] (by decide)
  ⟨by decide, h.2.2.1, h.2.2.2.2.2.2.2.2.2.2.2 1 (by decide)⟩

/-- The low-resolution glyph table sits at `5 * d`. -/
theorem make_memory_low : ∀ d, d < 16 → (low_glyph d).length = 5 ∧
    ∀ k, k < 5 → chip8_make.memory (5 * d + k) = (low_glyph d).getD k 0 := by
  decide

/-- The high-resolution glyph table sits at `0x50 + 10 * d`. -/
theorem make_memory_high : ∀ d, d < 16 → (high_glyph d).length = 10 ∧
    ∀ k, k < 10 → chip8_make.memory (0x50 + 10 * d + k) = (high_glyph d).getD k 0 := by
  decide

/-- C4. A machine built by `chip8_make` holds the sixteen 5-byte low-resolution glyphs at
`5 * d` and the sixteen 10-byte high-resolution glyphs at `0x50 + 10 * d`, both tables
complete; every memory byte from address 240 on is 0; all registers and all display bytes
are 0; program counter, stack pointer, index register, timers, timer phase and program size
are 0 and both mode flags are false. -/
theorem make_state :
    (∀ d, d < 16 → (low_glyph d).length = 5 ∧
      ∀ k, k < 5 → chip8_make.memory (5 * d + k) = (low_glyph d).getD k 0) ∧
    (∀ d, d < 16 → (high_glyph d).length = 10 ∧
      ∀ k, k < 10 → chip8_make.memory (0x50 + 10 * d + k) = (high_glyph d).getD k 0) ∧
    (∀ a, 240 ≤ a → chip8_make.memory a = 0) ∧
    (∀ i, chip8_make.regs i = 0) ∧
    (∀ b, chip8_make.display b = 0) ∧
    chip8_make.program_counter = 0 ∧ chip8_make.stack_pointer = 0 ∧
    chip8_make.i_reg = 0 ∧ chip8_make.delay_timer = 0 ∧ chip8_make.sound_timer = 0 ∧
    chip8_make.timer_counter = 0 ∧ chip8_make.program_size = 0 ∧
    chip8_make.schip_mode = false ∧ chip8_make.increment_ireg = false := by
  refine ⟨make_memory_low, make_memory_high, ?_, fun _ => rfl, fun _ => rfl,
    rfl, rfl, rfl, rfl, rfl, rfl, rfl, rfl, rfl⟩
  intro a ha
  have h1 : ¬ (SUPER_DIGITS_OFFSET ≤ a ∧ a < SUPER_DIGITS_OFFSET + super_digits.length) := by
    have : super_digits.length = 160 := by decide
    simp only [this, SUPER_DIGITS_OFFSET]; omega
  have h2 : ¬ (0 ≤ a ∧ a < 0 + digits.length) := by
    have : digits.length = 80 := by decide
    simp only [this]; omega
  simp only [chip8_make, memcpy, h1, h2, if_false]

/-- Witness for C4: glyph 3 of either table, read byte by byte from the fresh memory. -/
theorem make_state_witness :
    low_glyph 3 = [0xf0, 0x10, 0xf0, 0x10, 0xf0] ∧ chip8_make.memory (5 * 3 + 1) = 0x10 ∧
    high_glyph 10 = [0x7e, 0xff, 0xc3, 0xc3, 0xc3, 0xff, 0xff, 0xc3, 0xc3, 0xc3] ∧
    chip8_make.memory (0x50 + 10 * 10 + 0) = 0x7e ∧ chip8_make.memory 240 = 0 :=
  ⟨by decide, ((make_state.1 3 (by decide)).2 1 (by decide)).trans (by decide), by decide,
    ((make_state.2.1 10 (by decide)).2 0 (by decide)).trans (by decide),
    make_state.2.2.1 240 (by decide)⟩

/-! ## Jumps, subtraction flags and unknown opcodes -/

/-- The handler for leading nibble 1 is the jump, whatever the other nibbles are. -/
theorem decode_jump (n1 n2 n3 opc : Nat) (ho : 4096 ≤ opc) :
    decode 1 n1 n2 n3 opc = op_1NNN := by
  rw [decode_pos 1 n1 n2 n3 opc (by decide) ho]
  simp [decode]

/-- C8. For every NNN in `0x000..0xFFF` (0 and 1 included): when `chip8_cpu_tick` passes the
end-of-program test and fetches the instruction bytes of 1NNN, it returns true and the
program counter afterwards is exactly NNN; registers, index register, stack pointer, memory
and display are unchanged. -/
theorem jump_sets_pc (ch : chip8_t) (input : Nat → Bool) (rnd NNN : Nat) (hN : NNN < 0x1000)
    (hend : at_end ch = false)
    (hb0 : ch.memory ch.program_counter = 0x10 + NNN / 256)
    (hb1 : ch.memory (ch.program_counter + 1) = NNN % 256) :
    (chip8_cpu_tick ch input rnd).1 = true ∧
    (chip8_cpu_tick ch input rnd).2.program_counter = NNN ∧
    (chip8_cpu_tick ch input rnd).2.regs = ch.regs ∧
    (chip8_cpu_tick ch input rnd).2.i_reg = ch.i_reg ∧
    (chip8_cpu_tick ch input rnd).2.stack_pointer = ch.stack_pointer ∧
    (chip8_cpu_tick ch input rnd).2.memory = ch.memory ∧
    (chip8_cpu_tick ch input rnd).2.display = ch.display := by
  have hf : fetch ch = (0x10 + NNN / 256, NNN % 256) := by
    simp only [fetch, hb0, hb1]
  have h0 : 0x10 + NNN / 256 < 256 := by omega
  have h1 : NNN % 256 < 256 := by omega
  have hop : opcode_of (fetch ch) = 4096 + NNN := by
    rw [hf, opcode_of_eq _ _ h0 h1]; omega
  have hdec : decode_bytes (fetch ch) = op_1NNN := by
    rw [hf, decode_bytes_eq _ _ h0 h1]
    have hn0 : (0x10 + NNN / 256) / 16 = 1 := by omega
    rw [hn0]
    exact decode_jump _ _ _ _ (by omega)
  have hnnn : (4096 + NNN) &&& 0xfff = NNN := by rw [and_fff]; omega
  rw [tick_not_at_end ch input rnd hend, hdec, hop, hnnn]
  simp only [execute, skip_next, tick_timers_regs, tick_timers_i_reg, tick_timers_stack_pointer,
    tick_timers_memory, tick_timers_display, and_true, true_and]
  exact u16_sub_two_add_two NNN (by omega)

/-- Witness for C8: the fresh machine loaded with 1000 jumps to address 0, where the
intermediate `NNN - 2` wraps around 16 bits. -/
theorem jump_sets_pc_witness :
    at_end (chip8_load_program chip8_make [0x10, 0x00]).2 = false ∧
    (chip8_cpu_tick (chip8_load_program chip8_make [0x10, 0x00]).2 (fun _ => false) 0).1 = true ∧
    (chip8_cpu_tick (chip8_load_program chip8_make [0x10, 0x00]).2
      (fun _ => false) 0).2.program_counter = 0 :=
  let h := jump_sets_pc (chip8_load_program chip8_make [0x10, 0x00]).2 (fun _ => false) 0 0
    (by decide) (by decide) (by decide) (by decide)
  ⟨by decide, h.1, h.2.1⟩

/-- C9, the code at the failing input. With V1 = V2 = 7 the subtraction does not borrow,
yet 8125 (and likewise 8127) leaves VF = 0: the flag is computed with a strict `>`. -/
theorem sub_flag_equal_operands :
    (run sub_equal_start [idle, idle]).regs 1 = 7 ∧
    (run sub_equal_start [idle, idle]).regs 2 = 7 ∧
    executed_op (run sub_equal_start [idle, idle]) = some op_8XY5 ∧
    (run sub_equal_start [idle, idle, idle]).regs 0xf = 0 ∧
    (run sub_equal_start [idle, idle, idle]).regs 1 = 0 ∧
    (run subn_equal_start [idle, idle]).regs 1 = 7 ∧
    (run subn_equal_start [idle, idle]).regs 2 = 7 ∧
    executed_op (run subn_equal_start [idle, idle]) = some op_8XY7 ∧
    (run subn_equal_start [idle, idle, idle]).regs 0xf = 0 ∧
    (run subn_equal_start [idle, idle, idle]).regs 1 = 0 := by
  decide

/-- What the 8XY5 and 8XY7 handlers compute for VF when X is not 0xF: 1 exactly when the
minuend is strictly greater than the subtrahend. -/
theorem sub_flag_strict (ch : chip8_t) (input : Nat → Bool) (rnd nnn nn n x y : Nat)
    (hx : x ≠ 0xf) :
    (execute ch input rnd nnn nn n x y op_8XY5).2.regs 0xf
      = (if ch.regs x > ch.regs y then 1 else 0) ∧
    (execute ch input rnd nnn nn n x y op_8XY7).2.regs 0xf
      = (if ch.regs y > ch.regs x then 1 else 0) := by
  have hx2 : ¬ (0xf = x) := fun h => hx h.symm
  simp only [execute, set_reg, upd, hx2, if_false, if_true, and_self]

/-- Witness for the strict-comparison description at V1 = V2 = 7. -/
theorem sub_flag_strict_witness :
    (execute (run sub_equal_start [idle, idle]) (fun _ => false) 0 0x125 0x25 5 1 2
      op_8XY5).2.regs 0xf = 0 :=
  ((sub_flag_strict (run sub_equal_start [idle, idle]) (fun _ => false) 0 0x125 0x25 5 1 2
    (by decide)).1).trans (by decide)

/-- The decoder on nibbles with a non-zero leading nibble agrees with the listed set. -/
theorem decode_not_found_nibbles :
    ∀ n0, n0 < 16 → 0 < n0 → ∀ n2, n2 < 16 → ∀ n3, n3 < 16 →
      (decode n0 0 n2 n3 0x1000 == not_found) = outside_opcode_table (16 * n0) (16 * n2 + n3) := by
  decide!

/-- The final `else` of the dispatch chain is reached exactly for the listed opcodes. -/
theorem decode_bytes_not_found_iff (b0 b1 : Nat) (h0 : b0 < 256) (h1 : b1 < 256) :
    decode_bytes (b0, b1) = not_found ↔ outside_opcode_table b0 b1 = true := by
  rw [decode_bytes_eq b0 b1 h0 h1]
  by_cases hz : b0 / 16 = 0
  · rw [hz]
    have hnot : outside_opcode_table b0 b1 = false := by
      simp [outside_opcode_table, hz]
    simp only [hnot, Bool.false_eq_true, iff_false]
    exact decode_zero _ _ _ _
  · have hpos : 0 < b0 / 16 := Nat.pos_of_ne_zero hz
    rw [decode_pos _ _ _ _ _ hpos (by omega)]
    have key := decode_not_found_nibbles (b0 / 16) (by omega) hpos (b1 / 16) (by omega)
      (b1 % 16) (by omega)
    have hb1 : 16 * (b1 / 16) + b1 % 16 = b1 := Nat.div_add_mod b1 16
    have hout : outside_opcode_table (16 * (b0 / 16)) b1 = outside_opcode_table b0 b1 := by
      have e : 16 * (b0 / 16) / 16 = b0 / 16 := by omega
      simp only [outside_opcode_table, e]
    rw [hb1, hout] at key
    rw [← key]
    simp

/-- C10. When a tick passes the end-of-program test and fetches the bytes `b0 b1`, the
dispatch chain falls through to "opcode not found" if and only if the opcode is one of those
listed as outside the opcode table (every other opcode selects a handler); and for a listed
opcode `chip8_cpu_tick` returns false and leaves the program counter, registers, index
register, stack pointer, memory and display unchanged. -/
theorem unknown_opcode_halts (ch : chip8_t) (input : Nat → Bool) (rnd : Nat)
    (hend : at_end ch = false)
    (h0 : ch.memory ch.program_counter < 256)
    (h1 : ch.memory (ch.program_counter + 1) < 256) :
    (decode_bytes (fetch ch) = not_found ↔
      outside_opcode_table (fetch ch).1 (fetch ch).2 = true) ∧
    (outside_opcode_table (fetch ch).1 (fetch ch).2 = true →
      (chip8_cpu_tick ch input rnd).1 = false ∧
      (chip8_cpu_tick ch input rnd).2.program_counter = ch.program_counter ∧
      (chip8_cpu_tick ch input rnd).2.regs = ch.regs ∧
      (chip8_cpu_tick ch input rnd).2.i_reg = ch.i_reg ∧
      (chip8_cpu_tick ch input rnd).2.stack_pointer = ch.stack_pointer ∧
      (chip8_cpu_tick ch input rnd).2.memory = ch.memory ∧
      (chip8_cpu_tick ch input rnd).2.display = ch.display) := by
  have hiff := decode_bytes_not_found_iff (fetch ch).1 (fetch ch).2 h0 h1
  refine ⟨hiff, ?_⟩
  intro hout
  have hdec : decode_bytes (fetch ch) = not_found := hiff.mpr hout
  rw [tick_not_at_end ch input rnd hend, hdec]
  simp only [execute, tick_timers_regs, tick_timers_i_reg, tick_timers_stack_pointer,
    tick_timers_memory, tick_timers_display, tick_timers_program_counter, and_self]

/-- Witness for C10: the fresh machine loaded with 5121 (5XYN with N = 1) halts on its first
tick with the program counter still at 0x200. -/
theorem unknown_opcode_halts_witness :
    decode_bytes (fetch (chip8_load_program chip8_make [0x51, 0x21]).2) = not_found ∧
    (chip8_cpu_tick (chip8_load_program chip8_make [0x51, 0x21]).2 (fun _ => false) 0).1 = false ∧
    (chip8_cpu_tick (chip8_load_program chip8_make [0x51, 0x21]).2
      (fun _ => false) 0).2.program_counter = 0x200 :=
  let h := unknown_opcode_halts (chip8_load_program chip8_make [0x51, 0x21]).2 (fun _ => false) 0
    (by decide) (by decide) (by decide)
  ⟨h.1.mpr (by decide), (h.2 (by decide)).1, (h.2 (by decide)).2.1⟩

/-! ## Timer cadence -/

/-- No handler changes the timer phase counter. -/
theorem timer_counter_execute (ch : chip8_t) (input : Nat → Bool) (rnd nnn nn n x y : Nat)
    (op : op_t) :
    (execute ch input rnd nnn nn n x y op).2.timer_counter = ch.timer_counter := by
  have of_control : ∀ {a b : chip8_t}, control a = control b →
      a.timer_counter = b.timer_counter := by
    intro a b h
    simp only [control, Prod.mk.injEq] at h
    exact h.2.2.1
  have bump : ∀ (c : chip8_t) (k : Nat), (bump_ireg c k).timer_counter = c.timer_counter := by
    intro c k; unfold bump_ireg; split_ifs <;> rfl
  cases op
  case op_DXYN =>
    simp only [execute]
    split_ifs
    · rfl
    · exact of_control (control_draw_sprite _ _ _ _ _)
  case op_FX55 =>
    simp only [execute, bump]
    exact of_control (control_store_regs _ _)
  case op_FX65 =>
    simp only [execute, bump]
    exact of_control (control_load_regs _ _)
  all_goals ((simp only [execute]) <;> (first | rfl | (split_ifs <;> rfl)))

/-- The timer phase counter after a tick is the one the timer block leaves. -/
theorem timer_counter_step (ch : chip8_t) (e : (Nat → Bool) × Nat) :
    (step ch e).timer_counter = (tick_timers ch).timer_counter := by
  unfold step
  by_cases hend : at_end ch = true
  · rw [tick_at_end ch e.1 e.2 hend]
  · have hend2 : at_end ch = false := by simpa using hend
    have te := timer_counter_execute (tick_timers ch) e.1 e.2 (opcode_of (fetch ch) &&& 0xfff)
      ((opcode_of (fetch ch) &&& 0xff) % 256) ((fetch ch).2 &&& 0x0f) ((fetch ch).1 &&& 0x0f)
      (((fetch ch).2 &&& 0xf0) >>> 4) (decode_bytes (fetch ch))
    rw [tick_not_at_end ch e.1 e.2 hend2]
    revert te
    generalize execute (tick_timers ch) e.1 e.2 (opcode_of (fetch ch) &&& 0xfff)
      ((opcode_of (fetch ch) &&& 0xff) % 256) ((fetch ch).2 &&& 0x0f) ((fetch ch).1 &&& 0x0f)
      (((fetch ch).2 &&& 0xf0) >>> 4) (decode_bytes (fetch ch)) = r
    intro te
    obtain ⟨ob, c2⟩ := r
    cases ob with
    | none => simpa [skip_next] using te
    | some b => simpa using te

/-- The timer block on the timer view: the phase advances, or it restarts and both timers
count down (staying at 0 when they are 0). -/
theorem timers_tick_timers (ch : chip8_t) :
    timers (tick_timers ch) =
      if ch.timer_counter + 1 ≥ 16 ∨ (ch.schip_mode = true ∧ ch.timer_counter + 1 ≥ 8) then
        (ch.delay_timer - 1, ch.sound_timer - 1, 0, ch.schip_mode)
      else (ch.delay_timer, ch.sound_timer, ch.timer_counter + 1, ch.schip_mode) := by
  unfold tick_timers
  simp only
  by_cases hc : ch.timer_counter + 1 ≥ 16 ∨ (ch.schip_mode = true ∧ ch.timer_counter + 1 ≥ 8)
  · simp only [hc, if_true]
    by_cases hd : ch.delay_timer > 0 <;> by_cases hs : ch.sound_timer > 0 <;>
      simp only [hd, hs, if_true, if_false, timers, Prod.mk.injEq, and_true, true_and] <;> omega
  · simp only [hc, if_false, timers]

/-- In every reachable state the timer phase counter lies in `0..15`. -/
theorem reachable_timer_counter (ch : chip8_t) (h : Reachable ch) :
    0 ≤ ch.timer_counter ∧ ch.timer_counter ≤ 15 := by
  have hload : ∀ (c : chip8_t) (P : List Nat), (chip8_load_program c P).1 = true →
      (chip8_load_program c P).2.timer_counter = 0 := by
    intro c P hP
    unfold chip8_load_program at hP ⊢
    by_cases hc : (PROGRAM_OFFSET + P.length) % SIZE_RANGE ≥ STACK_OFFSET
    · simp only [hc, if_true] at hP
      cases hP
    · simp only [hc, if_false]
  induction h with
  | load_fresh P hP => rw [hload _ _ hP]; decide
  | load c P _ hP _ => rw [hload _ _ hP]; decide
  | tick c input rnd _ ih =>
    have hs := timer_counter_step c (input, rnd)
    unfold step at hs
    simp only at hs
    rw [hs]
    have ht := timers_tick_timers c
    by_cases hc : c.timer_counter + 1 ≥ 16 ∨ (c.schip_mode = true ∧ c.timer_counter + 1 ≥ 8)
    · simp only [hc, if_true, timers, Prod.mk.injEq] at ht
      rw [ht.2.2.1]; decide
    · simp only [hc, if_false, timers, Prod.mk.injEq] at ht
      rw [ht.2.2.1]
      have : ¬ (c.timer_counter + 1 ≥ 16) := fun h => hc (Or.inl h)
      omega

theorem run_cons (ch : chip8_t) (e : (Nat → Bool) × Nat) (es : List ((Nat → Bool) × Nat)) :
    run ch (e :: es) = run (step ch e) es := rfl

/-- Normal mode: after `n` timer-quiet ticks from phase `c` the phase is `(c + n) % 16` and
each timer has counted down `(c + n) / 16` times, stopping at 0. -/
theorem run_timers_normal (es : List ((Nat → Bool) × Nat)) :
    ∀ ch : chip8_t, ch.schip_mode = false → 0 ≤ ch.timer_counter → ch.timer_counter ≤ 15 →
      (∀ k, k < es.length → timer_quiet (run ch (es.take k))) →
      timers (run ch es) =
        (ch.delay_timer - ((ch.timer_counter + es.length) / 16).toNat,
         ch.sound_timer - ((ch.timer_counter + es.length) / 16).toNat,
         (ch.timer_counter + es.length) % 16, false) := by
  induction es with
  | nil =>
    intro ch hm h0 h15 _
    have e1 : ((ch.timer_counter + ([] : List ((Nat → Bool) × Nat)).length) / 16).toNat = 0 := by
      simp only [List.length_nil]; omega
    have e2 : (ch.timer_counter + ([] : List ((Nat → Bool) × Nat)).length) % 16
        = ch.timer_counter := by
      simp only [List.length_nil]; omega
    rw [e1, e2]
    simp only [run, List.foldl_nil, timers, hm, Nat.sub_zero]
  | cons e es ih =>
    intro ch hm h0 h15 hq
    have hq0 : timer_quiet ch := hq 0 (by simp)
    have hst := (timers_step ch e hq0).trans (timers_tick_timers ch)
    have hq2 : ∀ k, k < es.length → timer_quiet (run (step ch e) (es.take k)) := by
      intro k hk
      have := hq (k + 1) (by simp only [List.length_cons]; omega)
      simpa [List.take_succ_cons, run_cons] using this
    rw [run_cons]
    by_cases hc : ch.timer_counter + 1 ≥ 16
    · have hcc : ch.timer_counter + 1 ≥ 16 ∨ (ch.schip_mode = true ∧ ch.timer_counter + 1 ≥ 8) :=
        Or.inl hc
      simp only [hcc, if_true, timers, Prod.mk.injEq] at hst
      obtain ⟨hd, hs, ht, hmode⟩ := hst
      rw [ih (step ch e) (hmode.trans hm) (by rw [ht]) (by rw [ht]; decide) hq2, hd, hs, ht]
      simp only [List.length_cons, Prod.mk.injEq, and_true]
      push_cast
      refine ⟨?_, ?_, ?_⟩ <;> omega
    · have hcc : ¬ (ch.timer_counter + 1 ≥ 16 ∨
          (ch.schip_mode = true ∧ ch.timer_counter + 1 ≥ 8)) := by
        simp only [hm, Bool.false_eq_true, false_and, or_false]; exact hc
      simp only [hcc, if_false, timers, Prod.mk.injEq] at hst
      obtain ⟨hd, hs, ht, hmode⟩ := hst
      rw [ih (step ch e) (hmode.trans hm) (by rw [ht]; omega) (by rw [ht]; omega) hq2, hd, hs, ht]
      simp only [List.length_cons, Prod.mk.injEq, and_true]
      push_cast
      refine ⟨?_, ?_, ?_⟩ <;> omega

/-- SCHIP mode: the phase restarts as soon as it reaches 8, so a phase above 7 behaves like 7;
after `n` timer-quiet ticks each timer has counted down `(min c 7 + n) / 8` times. -/
theorem run_timers_schip (es : List ((Nat → Bool) × Nat)) :
    ∀ ch : chip8_t, ch.schip_mode = true → 0 ≤ ch.timer_counter →
      (∀ k, k < es.length → timer_quiet (run ch (es.take k))) →
      (run ch es).delay_timer
        = ch.delay_timer - ((min ch.timer_counter 7 + es.length) / 8).toNat ∧
      (run ch es).sound_timer
        = ch.sound_timer - ((min ch.timer_counter 7 + es.length) / 8).toNat ∧
      min (run ch es).timer_counter 7 = (min ch.timer_counter 7 + es.length) % 8 ∧
      0 ≤ (run ch es).timer_counter ∧ (run ch es).schip_mode = true := by
  induction es with
  | nil =>
    intro ch hm h0 _
    simp only [run, List.foldl_nil, List.length_nil, hm, and_true]
    refine ⟨?_, ?_, ?_, h0⟩ <;> omega
  | cons e es ih =>
    intro ch hm h0 hq
    have hq0 : timer_quiet ch := hq 0 (by simp)
    have hst := (timers_step ch e hq0).trans (timers_tick_timers ch)
    have hq2 : ∀ k, k < es.length → timer_quiet (run (step ch e) (es.take k)) := by
      intro k hk
      have := hq (k + 1) (by simp only [List.length_cons]; omega)
      simpa [List.take_succ_cons, run_cons] using this
    rw [run_cons]
    by_cases hc : ch.timer_counter + 1 ≥ 8
    · have hcc : ch.timer_counter + 1 ≥ 16 ∨ (ch.schip_mode = true ∧ ch.timer_counter + 1 ≥ 8) :=
        Or.inr ⟨hm, hc⟩
      simp only [hcc, if_true, timers, Prod.mk.injEq] at hst
      obtain ⟨hd, hs, ht, hmode⟩ := hst
      obtain ⟨i1, i2, i3, i4, i5⟩ := ih (step ch e) (hmode.trans hm) (by rw [ht]) hq2
      rw [i1, i2, i3, hd, hs, ht]
      simp only [List.length_cons]
      push_cast
      refine ⟨?_, ?_, ?_, i4, i5⟩ <;> omega
    · have hcc : ¬ (ch.timer_counter + 1 ≥ 16 ∨
          (ch.schip_mode = true ∧ ch.timer_counter + 1 ≥ 8)) := by
        intro h
        rcases h with h | h
        · omega
        · exact hc h.2
      simp only [hcc, if_false, timers, Prod.mk.injEq] at hst
      obtain ⟨hd, hs, ht, hmode⟩ := hst
      obtain ⟨i1, i2, i3, i4, i5⟩ := ih (step ch e) (hmode.trans hm) (by rw [ht]; omega) hq2
      rw [i1, i2, i3, hd, hs, ht]
      simp only [List.length_cons]
      push_cast
      refine ⟨?_, ?_, ?_, i4, i5⟩ <;> omega

theorem run_take_take (s : chip8_t) (es : List ((Nat → Bool) × Nat)) (j k : Nat) (h : j ≤ k) :
    run s ((es.take k).take j) = run s (es.take j) := by
  rw [List.take_take, Nat.min_eq_left h]


/-! ## Register transfer loops -/

/-- The FX55 loop run for `i = 0 .. n - 1`: the `n` bytes at `I` receive the registers
`V0 .. V(n-1)`; the registers and the index register are untouched, and an access outside
`memory` is recorded exactly when the last index `I + n - 1` is `MEMORY_SIZE` or more. -/
theorem store_loop (ch : chip8_t) :
    ∀ n : Nat,
      (∀ a, ((List.range n).foldl store_reg ch).memory a
        = if ch.i_reg ≤ a ∧ a < ch.i_reg + n then ch.regs (a - ch.i_reg) else ch.memory a) ∧
      ((List.range n).foldl store_reg ch).regs = ch.regs ∧
      ((List.range n).foldl store_reg ch).i_reg = ch.i_reg ∧
      ((List.range n).foldl store_reg ch).out_of_bounds
        = (ch.out_of_bounds || decide (0 < n ∧ MEMORY_SIZE < ch.i_reg + n)) := by
  intro n
  induction n with
  | zero =>
    refine ⟨?_, rfl, rfl, ?_⟩
    · intro a
      rw [if_neg (by omega)]
      rfl
    · simp
  | succ n ih =>
    obtain ⟨i1, i2, i3, i4⟩ := ih
    rw [List.range_succ, List.foldl_append, List.foldl_cons, List.foldl_nil]
    refine ⟨?_, i2, i3, ?_⟩
    · intro a
      simp only [store_reg, upd, i1, i2, i3]
      by_cases ha : a = ch.i_reg + n
      · rw [if_pos ha, if_pos (by omega)]
        have e : a - ch.i_reg = n := by omega
        rw [e]
      · rw [if_neg ha]
        by_cases hin : ch.i_reg ≤ a ∧ a < ch.i_reg + n
        · rw [if_pos hin, if_pos (by omega)]
        · rw [if_neg hin, if_neg (by omega)]
    · simp only [store_reg, i3, i4, outside, MEMORY_SIZE]
      cases ch.out_of_bounds
      · rw [Bool.eq_iff_iff]
        simp only [Bool.false_or, Bool.or_eq_true, Bool.and_eq_true, decide_eq_true_eq]
        omega
      · simp

/-- The FX65 loop run for `i = 0 .. n - 1`: the registers `V0 .. V(n-1)` receive the `n`
bytes at `I`; the other registers, the memory and the index register are untouched, and an
access outside `memory` is recorded exactly when the last index is `MEMORY_SIZE` or more. -/
theorem load_loop (ch : chip8_t) :
    ∀ n : Nat,
      (∀ i, ((List.range n).foldl load_reg ch).regs i
        = if i < n then ch.memory (ch.i_reg + i) else ch.regs i) ∧
      ((List.range n).foldl load_reg ch).memory = ch.memory ∧
      ((List.range n).foldl load_reg ch).i_reg = ch.i_reg ∧
      ((List.range n).foldl load_reg ch).out_of_bounds
        = (ch.out_of_bounds || decide (0 < n ∧ MEMORY_SIZE < ch.i_reg + n)) := by
  intro n
  induction n with
  | zero =>
    refine ⟨?_, rfl, rfl, ?_⟩
    · intro i
      rw [if_neg (by omega)]
      rfl
    · simp
  | succ n ih =>
    obtain ⟨i1, i2, i3, i4⟩ := ih
    rw [List.range_succ, List.foldl_append, List.foldl_cons, List.foldl_nil]
    refine ⟨?_, i2, i3, ?_⟩
    · intro i
      simp only [load_reg, upd, i1, i2, i3]
      by_cases hi : i = n
      · rw [if_pos hi, if_pos (by omega), hi]
      · rw [if_neg hi]
        by_cases hin : i < n
        · rw [if_pos hin, if_pos (by omega)]
        · rw [if_neg hin, if_neg (by omega)]
    · simp only [load_reg, i3, i4, outside, MEMORY_SIZE]
      cases ch.out_of_bounds
      · rw [Bool.eq_iff_iff]
        simp only [Bool.false_or, Bool.or_eq_true, Bool.and_eq_true, decide_eq_true_eq]
        omega
      · simp

/-- The FX55 loop records an access outside `memory` exactly when `I + X` is outside. -/
theorem out_of_bounds_store_regs (ch : chip8_t) (x : Nat) :
    (store_regs ch x).out_of_bounds = (ch.out_of_bounds || outside (ch.i_reg + x)) := by
  unfold store_regs
  rw [(store_loop ch (x + 1)).2.2.2]
  simp only [outside, MEMORY_SIZE]
  cases ch.out_of_bounds
  · rw [Bool.eq_iff_iff]
    simp only [Bool.false_or, decide_eq_true_eq]
    omega
  · simp

/-- The FX65 loop records an access outside `memory` exactly when `I + X` is outside. -/
theorem out_of_bounds_load_regs (ch : chip8_t) (x : Nat) :
    (load_regs ch x).out_of_bounds = (ch.out_of_bounds || outside (ch.i_reg + x)) := by
  unfold load_regs
  rw [(load_loop ch (x + 1)).2.2.2]
  simp only [outside, MEMORY_SIZE]
  cases ch.out_of_bounds
  · rw [Bool.eq_iff_iff]
    simp only [Bool.false_or, decide_eq_true_eq]
    omega
  · simp

/-! ## What a tick leaves of a field -/

/-- A field that `program_counter += 2` does not touch has, after a tick that passes the
end-of-program test, the value the handler leaves. -/
theorem proj_step {γ : Type} (proj : chip8_t → γ) (hs : ∀ c, proj (skip_next c) = proj c)
    (ch : chip8_t) (e : (Nat → Bool) × Nat) (hend : at_end ch = false) :
    proj (step ch e)
      = proj (execute (tick_timers ch) e.1 e.2 (opcode_of (fetch ch) &&& 0xfff)
          ((opcode_of (fetch ch) &&& 0xff) % 256) ((fetch ch).2 &&& 0x0f)
          ((fetch ch).1 &&& 0x0f) (((fetch ch).2 &&& 0xf0) >>> 4)
          (decode_bytes (fetch ch))).2 := by
  unfold step
  rw [tick_not_at_end ch e.1 e.2 hend]
  generalize execute (tick_timers ch) e.1 e.2 (opcode_of (fetch ch) &&& 0xfff)
    ((opcode_of (fetch ch) &&& 0xff) % 256) ((fetch ch).2 &&& 0x0f) ((fetch ch).1 &&& 0x0f)
    (((fetch ch).2 &&& 0xf0) >>> 4) (decode_bytes (fetch ch)) = r
  obtain ⟨ob, c2⟩ := r
  cases ob with
  | none => exact hs c2
  | some b => rfl

theorem step_at_end (ch : chip8_t) (e : (Nat → Bool) × Nat) (hend : at_end ch = true) :
    step ch e = tick_timers ch := by
  unfold step
  rw [tick_at_end ch e.1 e.2 hend]

theorem executed_op_none (ch : chip8_t) (h : executed_op ch = none) : at_end ch = true := by
  unfold executed_op at h
  cases hend : at_end ch
  · rw [hend] at h
    simp at h
  · rfl

theorem executed_op_some (ch : chip8_t) (op : op_t) (h : executed_op ch = some op) :
    at_end ch = false ∧ decode_bytes (fetch ch) = op := by
  unfold executed_op at h
  cases hend : at_end ch
  · rw [hend] at h
    simp only [Bool.false_eq_true, if_false, Option.some.injEq] at h
    exact ⟨rfl, h⟩
  · rw [hend] at h
    simp at h

/-! ## The `stack` member -/

theorem stack_draw_sprite (ch : chip8_t) (sprite n x y : Nat) :
    (chip8_draw_sprite ch sprite n x y).stack = ch.stack := by
  unfold chip8_draw_sprite
  simp only
  rw [foldl_proj_eq chip8_t.stack]
  intro a row
  rw [foldl_proj_eq chip8_t.stack]
  intro a2 col
  unfold draw_pixel
  simp only
  split_ifs <;> rfl

theorem stack_bump_ireg (c : chip8_t) (k : Nat) : (bump_ireg c k).stack = c.stack := by
  unfold bump_ireg; split_ifs <;> rfl

/-- No handler assigns the member `stack`. -/
theorem stack_execute (ch : chip8_t) (input : Nat → Bool) (rnd nnn nn n x y : Nat)
    (op : op_t) :
    (execute ch input rnd nnn nn n x y op).2.stack = ch.stack := by
  cases op
  case op_DXYN =>
    simp only [execute]
    split_ifs
    · rfl
    · exact stack_draw_sprite _ _ _ _ _
  case op_FX55 =>
    simp only [execute, stack_bump_ireg]
    unfold store_regs
    rw [foldl_proj_eq chip8_t.stack]
    intro a b; rfl
  case op_FX65 =>
    simp only [execute, stack_bump_ireg]
    unfold load_regs
    rw [foldl_proj_eq chip8_t.stack]
    intro a b; rfl
  all_goals ((simp only [execute]) <;> (first | rfl | (split_ifs <;> rfl)))

/-- No tick changes the member `stack`. -/
theorem stack_step (ch : chip8_t) (e : (Nat → Bool) × Nat) : (step ch e).stack = ch.stack := by
  cases hend : at_end ch
  · rw [proj_step chip8_t.stack (fun _ => rfl) ch e hend, stack_execute, tick_timers_stack]
  · rw [step_at_end ch e hend, tick_timers_stack]

theorem stack_load_program (c0 : chip8_t) (P : List Nat) :
    (chip8_load_program c0 P).2.stack = c0.stack ∧
    (chip8_load_program c0 P).2.out_of_bounds = c0.out_of_bounds := by
  unfold chip8_load_program
  simp only
  split_ifs <;> exact ⟨rfl, rfl⟩

/-! ## Accesses outside `memory` -/

theorem out_of_bounds_draw_sprite (ch : chip8_t) (sprite n x y : Nat) :
    (chip8_draw_sprite ch sprite n x y).out_of_bounds = ch.out_of_bounds := by
  unfold chip8_draw_sprite
  simp only
  rw [foldl_proj_eq chip8_t.out_of_bounds]
  intro a row
  rw [foldl_proj_eq chip8_t.out_of_bounds]
  intro a2 col
  unfold draw_pixel
  simp only
  split_ifs <;> rfl

theorem out_of_bounds_bump_ireg (c : chip8_t) (k : Nat) :
    (bump_ireg c k).out_of_bounds = c.out_of_bounds := by
  unfold bump_ireg; split_ifs <;> rfl

/-- What each handler does to the record of accesses outside `memory`: 2NNN adds the
store into slot `stack_pointer + 1`, 00EE the read of slot `stack_pointer`, FX55 and FX65
the index `I + X`; no other handler touches it. -/
theorem out_of_bounds_execute (ch : chip8_t) (input : Nat → Bool) (rnd nnn nn n x y : Nat)
    (op : op_t) :
    (execute ch input rnd nnn nn n x y op).2.out_of_bounds
      = (ch.out_of_bounds ||
          match op with
          | op_2NNN => outside (ch.stack + 2 * ((ch.stack_pointer + 1) % 256) + 1)
          | op_00EE => outside (ch.stack + 2 * ch.stack_pointer + 1)
          | op_FX55 => outside (ch.i_reg + x)
          | op_FX65 => outside (ch.i_reg + x)
          | _ => false) := by
  cases op
  case op_DXYN =>
    simp only [execute, Bool.or_false]
    split_ifs
    · rfl
    · exact out_of_bounds_draw_sprite _ _ _ _ _
  case op_FX55 =>
    simp only [execute, out_of_bounds_bump_ireg, out_of_bounds_store_regs]
  case op_FX65 =>
    simp only [execute, out_of_bounds_bump_ireg, out_of_bounds_load_regs]
  case op_2NNN =>
    simp only [execute, stack_set]
  case op_00EE =>
    simp only [execute, stack_load_pc]
  all_goals ((simp only [execute, Bool.or_false]) <;> (first | rfl | (split_ifs <;> rfl)))

/-- The record after a tick. -/
theorem out_of_bounds_step (ch : chip8_t) (e : (Nat → Bool) × Nat) :
    (step ch e).out_of_bounds
      = (ch.out_of_bounds ||
          match executed_op ch with
          | some op_2NNN => outside (ch.stack + 2 * ((ch.stack_pointer + 1) % 256) + 1)
          | some op_00EE => outside (ch.stack + 2 * ch.stack_pointer + 1)
          | some op_FX55 => outside (ch.i_reg + ((fetch ch).1 &&& 0x0f))
          | some op_FX65 => outside (ch.i_reg + ((fetch ch).1 &&& 0x0f))
          | _ => false) := by
  cases hend : at_end ch
  · have hop : executed_op ch = some (decode_bytes (fetch ch)) := by
      simp only [executed_op, hend, Bool.false_eq_true, if_false]
    rw [proj_step chip8_t.out_of_bounds (fun _ => rfl) ch e hend, out_of_bounds_execute, hop,
      tick_timers_out_of_bounds, tick_timers_stack, tick_timers_stack_pointer,
      tick_timers_i_reg]
    cases decode_bytes (fetch ch) <;> rfl
  · have hop : executed_op ch = none := by
      simp only [executed_op, hend, if_true]
    rw [step_at_end ch e hend, hop, tick_timers_out_of_bounds, Bool.or_false]

/-- Once an access has left `memory` the record stays. -/
theorem out_of_bounds_step_mono (ch : chip8_t) (e : (Nat → Bool) × Nat)
    (h : ch.out_of_bounds = true) : (step ch e).out_of_bounds = true := by
  rw [out_of_bounds_step, h, Bool.true_or]

theorem out_of_bounds_run_mono (es : List ((Nat → Bool) × Nat)) :
    ∀ s : chip8_t, s.out_of_bounds = true → (run s es).out_of_bounds = true := by
  induction es with
  | nil => intro s h; exact h
  | cons e es ih =>
    intro s h
    rw [run_cons]
    exact ih _ (out_of_bounds_step_mono s e h)

theorem run_take_drop (s : chip8_t) (es : List ((Nat → Bool) × Nat)) (k : Nat) :
    run (run s (es.take k)) (es.drop k) = run s es := by
  unfold run
  rw [← List.foldl_append, List.take_append_drop]

/-- A run that ends with no access outside `memory` had none at any earlier point. -/
theorem out_of_bounds_run_prefix (s : chip8_t) (es : List ((Nat → Bool) × Nat))
    (h : (run s es).out_of_bounds = false) (k : Nat) :
    (run s (es.take k)).out_of_bounds = false := by
  cases hk : (run s (es.take k)).out_of_bounds
  · rfl
  · have := out_of_bounds_run_mono (es.drop k) _ hk
    rw [run_take_drop, h] at this
    cases this


/-- The timer cadence on runs that stay inside `memory`. From every reachable state, over 16
consecutive ticks started in normal mode (8 consecutive ticks started in SCHIP mode),
whatever each call returns, if none of the executed instructions is FX15, FX18, 00FE or
00FF and no access has left `memory` by the end of the window, then the delay timer ends
at `max (d - 1) 0` and the sound timer at `max (s - 1) 0` (truncated subtraction);
throughout the window the mode is unchanged, neither timer rises above its starting value,
so no timer wraps below 0, and no access has left `memory`. -/
theorem timer_cadence (s : chip8_t) (es : List ((Nat → Bool) × Nat)) (hr : Reachable s)
    (hlen : es.length = if s.schip_mode = true then 8 else 16)
    (hq : ∀ k, k < es.length → timer_quiet (run s (es.take k)))
    (hin : (run s es).out_of_bounds = false) :
    (run s es).delay_timer = s.delay_timer - 1 ∧
    (run s es).sound_timer = s.sound_timer - 1 ∧
    (∀ k, k ≤ es.length →
      (run s (es.take k)).schip_mode = s.schip_mode ∧
      (run s (es.take k)).delay_timer ≤ s.delay_timer ∧
      (run s (es.take k)).sound_timer ≤ s.sound_timer ∧
      (run s (es.take k)).out_of_bounds = false) := by
  have hpre : ∀ k, (run s (es.take k)).out_of_bounds = false :=
    out_of_bounds_run_prefix s es hin
  obtain ⟨h0, h15⟩ := reachable_timer_counter s hr
  have hqk : ∀ k, k ≤ es.length → ∀ j, j < (es.take k).length →
      timer_quiet (run s ((es.take k).take j)) := by
    intro k hk j hj
    have hjk : j < k := by
      rw [List.length_take] at hj; omega
    rw [run_take_take s es j k (by omega)]
    exact hq j (by omega)
  by_cases hm : s.schip_mode = true
  · simp only [hm, if_true] at hlen
    obtain ⟨a1, a2, _, _, _⟩ := run_timers_schip es s hm h0 hq
    refine ⟨?_, ?_, ?_⟩
    · rw [a1, hlen]; push_cast; omega
    · rw [a2, hlen]; push_cast; omega
    · intro k hk
      obtain ⟨b1, b2, _, _, b5⟩ := run_timers_schip (es.take k) s hm h0 (hqk k hk)
      rw [b1, b2, b5, hm]
      refine ⟨rfl, ?_, ?_, hpre k⟩ <;> omega
  · have hm2 : s.schip_mode = false := by simpa using hm
    simp only [hm, if_false] at hlen
    have a := run_timers_normal es s hm2 h0 h15 hq
    simp only [timers, Prod.mk.injEq] at a
    obtain ⟨a1, a2, _, _⟩ := a
    refine ⟨?_, ?_, ?_⟩
    · rw [a1, hlen]; push_cast; omega
    · rw [a2, hlen]; push_cast; omega
    · intro k hk
      have b := run_timers_normal (es.take k) s hm2 h0 h15 (hqk k hk)
      simp only [timers, Prod.mk.injEq] at b
      obtain ⟨b1, b2, _, b4⟩ := b
      rw [b1, b2, b4, hm2]
      refine ⟨rfl, ?_, ?_, hpre k⟩ <;> omega

/-- The cadence on the program 6005 F015 F018 0000 ...: after the three setting
instructions both timers hold 5; sixteen further ticks in normal mode execute only 0000,
stay inside `memory`, and leave both timers at 4. -/
theorem timer_cadence_witness :
    Reachable timer_start ∧ timer_start.schip_mode = false ∧ timer_start.delay_timer = 5 ∧
    (∀ k, k < 16 → timer_quiet (run timer_start ((List.replicate 16 idle).take k))) ∧
    (run timer_start (List.replicate 16 idle)).out_of_bounds = false ∧
    (run timer_start (List.replicate 16 idle)).delay_timer = 4 ∧
    (run timer_start (List.replicate 16 idle)).sound_timer = 4 :=
  have hr : Reachable timer_start :=
    Reachable.tick _ _ _ (Reachable.tick _ _ _ (Reachable.tick _ _ _
      (Reachable.load_fresh timer_program (by decide))))
  have hq : ∀ k, k < 16 → timer_quiet (run timer_start ((List.replicate 16 idle).take k)) := by
    decide!
  have hin : (run timer_start (List.replicate 16 idle)).out_of_bounds = false := by decide!
  let h := timer_cadence timer_start (List.replicate 16 idle) hr (by decide!) hq hin
  ⟨hr, by decide!, by decide!, hq, hin, h.1.trans (by decide!), h.2.1.trans (by decide!)⟩

/-- C7, the code at the failing input. The sixteen-instruction program 60FF AFFF F01E F01E
F01E F01E 6022 F01E 602A F055 0000 ... loads with both timers at 0 in normal mode, and
sixteen ticks from the loaded state form a window the claim covers: every tick returns
true, none executes FX15, FX18, 00FE or 00FF, and the mode stays normal. The tenth tick
executes F055 with I = 5149 and V0 = 42 and stores 42 at index 5149 of the 4096-byte array
`memory`, an access outside the array. In `struct chip8` the members behind `memory` are
`stack` (8 bytes), `display` (1024), `regs` (16), `i_reg` (2), `program_counter` (2) and
`stack_pointer` (1), so byte 5149 from the start of `memory` is `delay_timer`. -/
theorem timer_window_store_past_memory :
    (chip8_load_program chip8_make timer_store_program).1 = true ∧
    Reachable timer_store_start ∧
    timer_store_start.delay_timer = 0 ∧ timer_store_start.sound_timer = 0 ∧
    (∀ k, k < 16 →
      timer_quiet (run timer_store_start ((List.replicate 16 idle).take k)) ∧
      (run timer_store_start ((List.replicate 16 idle).take k)).schip_mode = false ∧
      (chip8_cpu_tick (run timer_store_start ((List.replicate 16 idle).take k))
        idle.1 idle.2).1 = true) ∧
    executed_op (run timer_store_start (List.replicate 9 idle)) = some op_FX55 ∧
    fetch (run timer_store_start (List.replicate 9 idle)) = (0xF0, 0x55) ∧
    (run timer_store_start (List.replicate 9 idle)).i_reg = 5149 ∧
    (run timer_store_start (List.replicate 9 idle)).regs 0 = 42 ∧
    (run timer_store_start (List.replicate 9 idle)).out_of_bounds = false ∧
    MEMORY_SIZE + 8 + DISPLAY_SIZE + NUM_REGS + 2 + 2 + 1 = 5149 ∧
    (run timer_store_start (List.replicate 10 idle)).memory 5149 = 42 ∧
    (run timer_store_start (List.replicate 10 idle)).out_of_bounds = true ∧
    (run timer_store_start (List.replicate 16 idle)).out_of_bounds = true := by
  refine ⟨by decide, Reachable.load_fresh _ (by decide), by decide, by decide, by decide!,
    by decide!, by decide!, by decide!, by decide!, by decide!, by decide, by decide!,
    by decide!, by decide!⟩

theorem pix_mod (m : Bool) (x y : Nat) :
    pix m (x % (if m then SDISPLAY_WIDTH else DISPLAY_WIDTH))
      (y % (if m then SDISPLAY_HEIGHT else DISPLAY_HEIGHT)) = pix m x y := by
  unfold pix
  rw [Nat.mod_mod, Nat.mod_mod]

theorem width_eq (ch : chip8_t) :
    chip8_get_width ch = if ch.schip_mode then SDISPLAY_WIDTH else DISPLAY_WIDTH := rfl

theorem height_eq (ch : chip8_t) :
    chip8_get_height ch = if ch.schip_mode then SDISPLAY_HEIGHT else DISPLAY_HEIGHT := rfl

theorem width_pos (m : Bool) : 0 < (if m then SDISPLAY_WIDTH else DISPLAY_WIDTH) := by
  cases m <;> decide

theorem height_pos (m : Bool) : 0 < (if m then SDISPLAY_HEIGHT else DISPLAY_HEIGHT) := by
  cases m <;> decide

/-- The second of two identical draws finds a set display bit under a set sprite bit exactly
when the first draw switched some pixel of the screen from off to on. -/
theorem second_draw_collides_iff (ch : chip8_t) (sprite n x y : Nat) (hn : n < 16) :
    ((sprite_cells n).any (fun cell =>
        chip8_get_bit (chip8_draw_sprite ch sprite n x y).display (cell_ix ch.schip_mode x y cell)
          && sbit ch.memory sprite (sprite_cols n) cell) = true)
    ↔ ∃ px py, px < chip8_get_width ch ∧ py < chip8_get_height ch ∧
        chip8_get_pixel ch px py = false ∧
        chip8_get_pixel (chip8_draw_sprite ch sprite n x y) px py = true := by
  obtain ⟨s1, _, _, _, smode⟩ := draw_sprite_spec ch sprite n x y hn
  constructor
  · intro h
    rw [List.any_eq_true] at h
    obtain ⟨cell, hcell, hc⟩ := h
    rw [Bool.and_eq_true] at hc
    obtain ⟨hb1, hsb⟩ := hc
    have hany : (sprite_cells n).any (fun c2 =>
        cell_ix ch.schip_mode x y c2 == cell_ix ch.schip_mode x y cell
          && sbit ch.memory sprite (sprite_cols n) c2) = true := by
      rw [List.any_eq_true]
      exact ⟨cell, hcell, by simp [hsb]⟩
    have hb0 : chip8_get_bit ch.display (cell_ix ch.schip_mode x y cell) = false := by
      have h1 := s1 (cell_ix ch.schip_mode x y cell)
      rw [hany, hb1] at h1
      cases hv : chip8_get_bit ch.display (cell_ix ch.schip_mode x y cell)
      · rfl
      · rw [hv] at h1; cases h1
    refine ⟨(x + cell.2) % chip8_get_width ch, (y + cell.1) % chip8_get_height ch,
      Nat.mod_lt _ (by rw [width_eq]; exact width_pos _),
      Nat.mod_lt _ (by rw [height_eq]; exact height_pos _), ?_, ?_⟩
    · rw [get_pixel_eq, width_eq, height_eq, pix_mod]
      exact hb0
    · rw [get_pixel_eq, smode, width_eq, height_eq, pix_mod]
      exact hb1
  · intro h
    obtain ⟨px, py, _, _, h0, h1⟩ := h
    rw [get_pixel_eq] at h0
    rw [get_pixel_eq, smode, s1, h0, Bool.false_xor, List.any_eq_true] at h1
    obtain ⟨cell, hcell, hc⟩ := h1
    rw [Bool.and_eq_true, beq_iff_eq] at hc
    obtain ⟨hix, hsb⟩ := hc
    rw [List.any_eq_true]
    refine ⟨cell, hcell, ?_⟩
    have hb1 := s1 (cell_ix ch.schip_mode x y cell)
    have hany : (sprite_cells n).any (fun c2 =>
        cell_ix ch.schip_mode x y c2 == cell_ix ch.schip_mode x y cell
          && sbit ch.memory sprite (sprite_cols n) c2) = true := by
      rw [List.any_eq_true]
      exact ⟨cell, hcell, by simp [hsb]⟩
    rw [hany, hix, h0] at hb1
    rw [hix, hb1, hsb]
    rfl

/-- C6. Drawing the same sprite twice at the same place (sprite size `n` in `0..15`, any
display content, either mode, any coordinates, any sprite bytes): the second draw restores
every bit of the display plane, hence every pixel, to its value before the first draw; and
the second draw leaves VF = 1 exactly when the first draw switched at least one pixel of the
screen from off to on, and VF = 0 otherwise. -/
theorem draw_twice_restores (ch : chip8_t) (sprite n x y : Nat) (hn : n < 16) :
    (∀ p, chip8_get_bit
        (chip8_draw_sprite (chip8_draw_sprite ch sprite n x y) sprite n x y).display p
      = chip8_get_bit ch.display p) ∧
    (∀ px py, chip8_get_pixel
        (chip8_draw_sprite (chip8_draw_sprite ch sprite n x y) sprite n x y) px py
      = chip8_get_pixel ch px py) ∧
    ((chip8_draw_sprite (chip8_draw_sprite ch sprite n x y) sprite n x y).regs 0xf = 1 ↔
      ∃ px py, px < chip8_get_width ch ∧ py < chip8_get_height ch ∧
        chip8_get_pixel ch px py = false ∧
        chip8_get_pixel (chip8_draw_sprite ch sprite n x y) px py = true) ∧
    ((chip8_draw_sprite (chip8_draw_sprite ch sprite n x y) sprite n x y).regs 0xf = 0 ↔
      ¬ ∃ px py, px < chip8_get_width ch ∧ py < chip8_get_height ch ∧
        chip8_get_pixel ch px py = false ∧
        chip8_get_pixel (chip8_draw_sprite ch sprite n x y) px py = true) := by
  obtain ⟨s1, _, _, smem, smode⟩ := draw_sprite_spec ch sprite n x y hn
  obtain ⟨t1, t2, _, _, tmode⟩ :=
    draw_sprite_spec (chip8_draw_sprite ch sprite n x y) sprite n x y hn
  rw [smem, smode] at t1 t2
  rw [smode] at tmode
  have hbits : ∀ p, chip8_get_bit
      (chip8_draw_sprite (chip8_draw_sprite ch sprite n x y) sprite n x y).display p
      = chip8_get_bit ch.display p := by
    intro p
    rw [t1 p, s1 p]
    generalize chip8_get_bit ch.display p = a
    generalize (sprite_cells n).any (fun cell => cell_ix ch.schip_mode x y cell == p
      && sbit ch.memory sprite (sprite_cols n) cell) = b
    cases a <;> cases b <;> rfl
  have hiff := second_draw_collides_iff ch sprite n x y hn
  refine ⟨hbits, ?_, ?_, ?_⟩
  · intro px py
    rw [get_pixel_eq, get_pixel_eq, tmode, hbits]
  · rw [t2, ← hiff]
    split_ifs with hc
    · simp [hc]
    · simp [hc]
  · rw [t2, ← hiff]
    split_ifs with hc
    · simp [hc]
    · simp [hc]

/-- Witness for C6: glyph 0 drawn twice at (0, 0) on a fresh machine; the first draw turns
pixel (0, 0) on, so the second draw reports VF = 1 and the screen is blank again. -/
theorem draw_twice_restores_witness :
    (5 : Nat) < 16 ∧
    chip8_get_pixel chip8_make 0 0 = false ∧
    chip8_get_pixel (chip8_draw_sprite chip8_make 0 5 0 0) 0 0 = true ∧
    chip8_get_pixel (chip8_draw_sprite (chip8_draw_sprite chip8_make 0 5 0 0) 0 5 0 0) 0 0
      = false ∧
    (chip8_draw_sprite (chip8_draw_sprite chip8_make 0 5 0 0) 0 5 0 0).regs 0xf = 1 :=
  let h := draw_twice_restores chip8_make 0 5 0 0 (by decide)
  have h0 : chip8_get_pixel chip8_make 0 0 = false := by decide
  have h1 : chip8_get_pixel (chip8_draw_sprite chip8_make 0 5 0 0) 0 0 = true := by decide!
  ⟨by decide, h0, h1, (h.2.1 0 0).trans h0,
    h.2.2.1.mpr ⟨0, 0, by decide, by decide, h0, h1⟩⟩


/-! ## Drawing the built-in glyphs -/

theorem get_bit_blank (d : Nat → Nat) (h : ∀ b, d b = 0) (p : Nat) :
    chip8_get_bit d p = false := by
  rw [get_bit_eq, h]
  exact Nat.zero_testBit _

/-- Drawing an `n`-row sprite (`0 < n < 16`) at (0, 0) on a blank low-resolution screen:
pixel `(c, r)` of the 64x32 screen shows bit `7 - c` of sprite byte `r` inside the 8-by-`n`
area and is off elsewhere, and VF is 0. -/
theorem draw_origin_blank (ch : chip8_t) (sprite n : Nat) (hn0 : 0 < n) (hn : n < 16)
    (hmode : ch.schip_mode = false) (hblank : ∀ b, ch.display b = 0) :
    (∀ c r, c < 64 → r < 32 →
      chip8_get_pixel (chip8_draw_sprite ch sprite n 0 0) c r
        = (decide (c < 8 ∧ r < n) && (ch.memory (sprite + r)).testBit (7 - c))) ∧
    (chip8_draw_sprite ch sprite n 0 0).regs 0xf = 0 := by
  obtain ⟨s1, s2, _, _, smode⟩ := draw_sprite_spec ch sprite n 0 0 hn
  have hrows : sprite_rows n = n := by
    unfold sprite_rows; rw [if_neg (by omega)]
  have hcols : sprite_cols n = 8 := by
    unfold sprite_cols; rw [if_neg (by omega)]
  have hix : ∀ cell ∈ sprite_cells n, cell_ix false 0 0 cell = cell.1 * 64 + cell.2 := by
    intro cell hcell
    rw [mem_sprite_cells, hrows, hcols] at hcell
    unfold cell_ix pix
    simp only [Bool.false_eq_true, if_false, DISPLAY_HEIGHT, DISPLAY_WIDTH, Nat.zero_add]
    rw [Nat.mod_eq_of_lt (by omega : cell.1 < 32), Nat.mod_eq_of_lt (by omega : cell.2 < 64)]
  constructor
  · intro c r hc hr
    have hp : pix false c r = r * 64 + c := by
      unfold pix
      simp only [Bool.false_eq_true, if_false, DISPLAY_HEIGHT, DISPLAY_WIDTH]
      rw [Nat.mod_eq_of_lt hr, Nat.mod_eq_of_lt hc]
    rw [get_pixel_eq, smode, s1, hmode, get_bit_blank _ hblank, Bool.false_xor, hp, hcols]
    rw [Bool.eq_iff_iff, List.any_eq_true, Bool.and_eq_true, decide_eq_true_iff]
    constructor
    · rintro ⟨cell, hcell, hc2⟩
      rw [Bool.and_eq_true, beq_iff_eq, hix cell hcell] at hc2
      rw [mem_sprite_cells, hrows, hcols] at hcell
      obtain ⟨he, hsb⟩ := hc2
      have hr2 : cell.1 = r := by omega
      have hc3 : cell.2 = c := by omega
      refine ⟨⟨by omega, by omega⟩, ?_⟩
      unfold sbit at hsb
      rw [get_bit_eq, hr2, hc3] at hsb
      have e1 : (r * 8 + c) / 8 = r := by omega
      have e2 : (r * 8 + c) % 8 = c := by omega
      rw [e1, e2] at hsb
      exact hsb
    · rintro ⟨⟨hc8, hrn⟩, hb⟩
      have hmem : (r, c) ∈ sprite_cells n := by
        rw [mem_sprite_cells, hrows, hcols]; exact ⟨hrn, hc8⟩
      refine ⟨(r, c), hmem, ?_⟩
      rw [Bool.and_eq_true, beq_iff_eq, hix _ hmem]
      refine ⟨rfl, ?_⟩
      unfold sbit
      rw [get_bit_eq]
      have e1 : (r * 8 + c) / 8 = r := by omega
      have e2 : (r * 8 + c) % 8 = c := by omega
      simp only [e1, e2]
      exact hb
  · rw [s2]
    have hnone : (sprite_cells n).any (fun cell =>
        chip8_get_bit ch.display (cell_ix ch.schip_mode 0 0 cell)
          && sbit ch.memory sprite (sprite_cols n) cell) = false := by
      rw [List.any_eq_false]
      intro cell _
      rw [get_bit_blank _ hblank]
      simp
    rw [hnone]
    rfl

theorem glyph_bit_eq (byte c : Nat) : glyph_bit byte c = byte.testBit (7 - c) := by
  unfold glyph_bit
  rw [Nat.testBit_to_div_mod]


/-- The first two ticks of a glyph program `60 d  F0 k  ..` whose second instruction sets
the index register to `I` from V0: both return true and leave the program counter at 0x204,
V0 = d, the other registers 0, the display blank and the memory as loaded. -/
theorem glyph_setup (P : List Nat) (d k n I : Nat) (hP : P = [0x60, d, 0xF0, k, 0xD1, n])
    (hd : d < 16)
    (hI : ∀ (ch : chip8_t) (input : Nat → Bool) (rnd : Nat), at_end ch = false →
      fetch ch = (0xf0 + 0, k) → ch.regs 0 = d →
      chip8_cpu_tick ch input rnd = (true, skip_next { tick_timers ch with i_reg := I }))
    (e1 e2 : (Nat → Bool) × Nat) :
    (chip8_cpu_tick (chip8_load_program chip8_make P).2 e1.1 e1.2).1 = true ∧
    (chip8_cpu_tick (run (chip8_load_program chip8_make P).2 [e1]) e2.1 e2.2).1 = true ∧
    (run (chip8_load_program chip8_make P).2 [e1, e2]).program_counter = 0x204 ∧
    (run (chip8_load_program chip8_make P).2 [e1, e2]).program_size = 6 ∧
    (run (chip8_load_program chip8_make P).2 [e1, e2]).memory
      = memcpy chip8_make.memory 0x200 P 6 ∧
    (run (chip8_load_program chip8_make P).2 [e1, e2]).i_reg = I ∧
    (run (chip8_load_program chip8_make P).2 [e1, e2]).regs 1 = 0 ∧
    (run (chip8_load_program chip8_make P).2 [e1, e2]).regs 2 = 0 ∧
    (∀ b, (run (chip8_load_program chip8_make P).2 [e1, e2]).display b = 0) ∧
    (run (chip8_load_program chip8_make P).2 [e1, e2]).schip_mode = false := by
  subst hP
  generalize hs0 : (chip8_load_program chip8_make [0x60, d, 0xF0, k, 0xD1, n]).2 = s0
  have h0pc : s0.program_counter = 0x200 := by rw [← hs0]; rfl
  have h0size : s0.program_size = 6 := by rw [← hs0]; rfl
  have h0mem : s0.memory = memcpy chip8_make.memory 0x200 [0x60, d, 0xF0, k, 0xD1, n] 6 := by
    rw [← hs0]; rfl
  have h0regs : s0.regs = fun _ => 0 := by rw [← hs0]; rfl
  have h0disp : s0.display = fun _ => 0 := by rw [← hs0]; rfl
  have h0mode : s0.schip_mode = false := by rw [← hs0]; rfl
  have hend0 : at_end s0 = false := by
    unfold at_end; rw [h0pc, h0size]; decide
  have hf0 : fetch s0 = (0x60 + 0, d) := by
    unfold fetch; rw [h0pc, h0mem]; rfl
  have t1 := tick_6XNN s0 e1.1 e1.2 0 d hend0 hf0 (by decide) (by omega)
  have hrun1 : run s0 [e1] = skip_next (set_reg (tick_timers s0) 0 d) := by
    show (chip8_cpu_tick s0 e1.1 e1.2).2 = _
    rw [t1]
  generalize hs1 : skip_next (set_reg (tick_timers s0) 0 d) = s1 at t1 hrun1
  have h1pc : s1.program_counter = 0x202 := by
    rw [← hs1]; simp only [skip_next, set_reg, tick_timers_program_counter, h0pc]
  have h1size : s1.program_size = 6 := by
    rw [← hs1]; simp only [skip_next, set_reg, tick_timers_program_size, h0size]
  have h1mem : s1.memory = memcpy chip8_make.memory 0x200 [0x60, d, 0xF0, k, 0xD1, n] 6 := by
    rw [← hs1]; simp only [skip_next, set_reg, tick_timers_memory, h0mem]
  have h1regs : s1.regs = upd (fun _ => 0) 0 d := by
    rw [← hs1]; simp only [skip_next, set_reg, tick_timers_regs, h0regs]
  have h1disp : s1.display = fun _ => 0 := by
    rw [← hs1]; simp only [skip_next, set_reg, tick_timers_display, h0disp]
  have h1mode : s1.schip_mode = false := by
    rw [← hs1]; simp only [skip_next, set_reg, tick_timers_schip_mode, h0mode]
  have hend1 : at_end s1 = false := by
    unfold at_end; rw [h1pc, h1size]; decide
  have hf1 : fetch s1 = (0xf0 + 0, k) := by
    unfold fetch; rw [h1pc, h1mem]; rfl
  have t2 := hI s1 e2.1 e2.2 hend1 hf1 (by rw [h1regs]; rfl)
  have hrun2 : run s0 [e1, e2] = skip_next { tick_timers s1 with i_reg := I } := by
    show (chip8_cpu_tick (run s0 [e1]) e2.1 e2.2).2 = _
    rw [hrun1, t2]
  rw [hrun1, hrun2, t1, t2]
  refine ⟨rfl, rfl, ?_, ?_, ?_, rfl, ?_, ?_, ?_, ?_⟩
  · simp only [skip_next, tick_timers_program_counter, h1pc]
  · simp only [skip_next, tick_timers_program_size, h1size]
  · simp only [skip_next, tick_timers_memory, h1mem]
  · simp only [skip_next, tick_timers_regs, h1regs]; rfl
  · simp only [skip_next, tick_timers_regs, h1regs]; rfl
  · intro b; simp only [skip_next, tick_timers_display, h1disp]
  · simp only [skip_next, tick_timers_schip_mode, h1mode]


/-- The third tick of a glyph program `60 d  F0 k  D1 2n` draws `n` rows of the bytes at `I`
at (0, 0) on the blank screen. -/
theorem glyph_draw_tick (P : List Nat) (d k n I : Nat)
    (hP : P = [0x60, d, 0xF0, k, 0xD1, 16 * 2 + n]) (hd : d < 16)
    (hn0 : 0 < n) (hn : n < 16) (hIb : I + 16 ≤ 0x200)
    (hI : ∀ (ch : chip8_t) (input : Nat → Bool) (rnd : Nat), at_end ch = false →
      fetch ch = (0xf0 + 0, k) → ch.regs 0 = d →
      chip8_cpu_tick ch input rnd = (true, skip_next { tick_timers ch with i_reg := I }))
    (e1 e2 e3 : (Nat → Bool) × Nat) :
    (chip8_cpu_tick (run (chip8_load_program chip8_make P).2 [e1, e2]) e3.1 e3.2).1 = true ∧
    (∀ c r, c < 64 → r < 32 →
      chip8_get_pixel (run (chip8_load_program chip8_make P).2 [e1, e2, e3]) c r
        = (decide (c < 8 ∧ r < n) && (chip8_make.memory (I + r)).testBit (7 - c))) ∧
    (run (chip8_load_program chip8_make P).2 [e1, e2, e3]).regs 0xf = 0 := by
  obtain ⟨_, _, hpc, hsize, hmem, hireg, hr1, hr2, hdisp, hmode⟩ :=
    glyph_setup P d k (16 * 2 + n) I hP hd hI e1 e2
  generalize hs2 : run (chip8_load_program chip8_make P).2 [e1, e2] = s2 at *
  have hrun3 : run (chip8_load_program chip8_make P).2 [e1, e2, e3]
      = (chip8_cpu_tick s2 e3.1 e3.2).2 := by
    rw [← hs2]; rfl
  have hend : at_end s2 = false := by
    unfold at_end; rw [hpc, hsize]; decide
  have hf : fetch s2 = (0xd0 + 1, 16 * 2 + n) := by
    unfold fetch; rw [hpc, hmem, hP]; rfl
  have t3 := tick_DXYN s2 e3.1 e3.2 1 2 n hend hf (by decide) (by decide) hn
    (by rw [hireg]; omega)
  rw [hr1, hr2, hireg] at t3
  rw [hrun3, t3]
  obtain ⟨g1, g2⟩ := draw_origin_blank (tick_timers s2) I n hn0 hn
    (by rw [tick_timers_schip_mode, hmode]) (by intro b; rw [tick_timers_display, hdisp b])
  refine ⟨rfl, ?_, ?_⟩
  · intro c r hc hr
    have hskip : chip8_get_pixel (skip_next (chip8_draw_sprite (tick_timers s2) I n 0 0)) c r
        = chip8_get_pixel (chip8_draw_sprite (tick_timers s2) I n 0 0) c r := rfl
    simp only [hskip]
    rw [g1 c r hc hr, tick_timers_memory, hmem]
    by_cases hin : c < 8 ∧ r < n
    · have hlow : memcpy chip8_make.memory 0x200 P 6 (I + r) = chip8_make.memory (I + r) := by
        unfold memcpy
        rw [if_neg (by omega)]
      rw [hlow]
    · rw [decide_eq_false hin, Bool.false_and, Bool.false_and]
  · exact g2


/-- C5. For every digit `d` in `0..15` and whatever the keyboard snapshots and `rand()` values
are: on a fresh machine loaded with `60 d  F0 29  D1 25`, the load succeeds, three ticks all
return true, and afterwards pixel `(c, r)` of the 64x32 screen is bit `7 - c` of byte `r` of
the built-in low-resolution glyph of `d` for `c < 8`, `r < 5` and is off everywhere else,
and VF = 0.  Likewise with `60 d  F0 30  D1 2A` the screen shows exactly the 8x10
high-resolution glyph of `d`. -/
theorem glyph_programs_draw (d : Nat) (hd : d < 16) (e1 e2 e3 : (Nat → Bool) × Nat) :
    ((chip8_load_program chip8_make (low_glyph_program d)).1 = true ∧
      (chip8_cpu_tick (chip8_load_program chip8_make (low_glyph_program d)).2 e1.1 e1.2).1
        = true ∧
      (chip8_cpu_tick (run (chip8_load_program chip8_make (low_glyph_program d)).2 [e1])
        e2.1 e2.2).1 = true ∧
      (chip8_cpu_tick (run (chip8_load_program chip8_make (low_glyph_program d)).2 [e1, e2])
        e3.1 e3.2).1 = true ∧
      (∀ c r, c < 64 → r < 32 →
        chip8_get_pixel
            (run (chip8_load_program chip8_make (low_glyph_program d)).2 [e1, e2, e3]) c r
          = (decide (c < 8 ∧ r < 5) && glyph_bit ((low_glyph d).getD r 0) c)) ∧
      (run (chip8_load_program chip8_make (low_glyph_program d)).2 [e1, e2, e3]).regs 0xf = 0) ∧
    ((chip8_load_program chip8_make (high_glyph_program d)).1 = true ∧
      (chip8_cpu_tick (chip8_load_program chip8_make (high_glyph_program d)).2 e1.1 e1.2).1
        = true ∧
      (chip8_cpu_tick (run (chip8_load_program chip8_make (high_glyph_program d)).2 [e1])
        e2.1 e2.2).1 = true ∧
      (chip8_cpu_tick (run (chip8_load_program chip8_make (high_glyph_program d)).2 [e1, e2])
        e3.1 e3.2).1 = true ∧
      (∀ c r, c < 64 → r < 32 →
        chip8_get_pixel
            (run (chip8_load_program chip8_make (high_glyph_program d)).2 [e1, e2, e3]) c r
          = (decide (c < 8 ∧ r < 10) && glyph_bit ((high_glyph d).getD r 0) c)) ∧
      (run (chip8_load_program chip8_make (high_glyph_program d)).2 [e1, e2, e3]).regs 0xf
        = 0) := by
  have hIlow : ∀ (ch : chip8_t) (input : Nat → Bool) (rnd : Nat), at_end ch = false →
      fetch ch = (0xf0 + 0, 0x29) → ch.regs 0 = d →
      chip8_cpu_tick ch input rnd = (true, skip_next { tick_timers ch with i_reg := 5 * d }) := by
    intro ch input rnd hend hf hr
    rw [tick_FX29 ch input rnd 0 hend hf (by decide), hr]
    have e : d * 5 % 65536 = 5 * d := by omega
    rw [e]
  have hIhigh : ∀ (ch : chip8_t) (input : Nat → Bool) (rnd : Nat), at_end ch = false →
      fetch ch = (0xf0 + 0, 0x30) → ch.regs 0 = d →
      chip8_cpu_tick ch input rnd
        = (true, skip_next { tick_timers ch with i_reg := 0x50 + 10 * d }) := by
    intro ch input rnd hend hf hr
    rw [tick_FX30 ch input rnd 0 hend hf (by decide), hr]
    have e : (SUPER_DIGITS_OFFSET + d * 10) % 65536 = 0x50 + 10 * d := by
      simp only [SUPER_DIGITS_OFFSET]; omega
    rw [e]
  constructor
  · obtain ⟨a1, a2, _⟩ := glyph_setup (low_glyph_program d) d 0x29 (16 * 2 + 5) (5 * d) rfl hd
      hIlow e1 e2
    obtain ⟨b1, b2, b3⟩ := glyph_draw_tick (low_glyph_program d) d 0x29 5 (5 * d) rfl hd
      (by decide) (by decide) (by omega) hIlow e1 e2 e3
    refine ⟨rfl, a1, a2, b1, ?_, b3⟩
    intro c r hc hr
    rw [b2 c r hc hr]
    by_cases hin : c < 8 ∧ r < 5
    · rw [(make_memory_low d hd).2 r hin.2, glyph_bit_eq]
    · rw [decide_eq_false hin, Bool.false_and, Bool.false_and]
  · obtain ⟨a1, a2, _⟩ := glyph_setup (high_glyph_program d) d 0x30 (16 * 2 + 10) (0x50 + 10 * d)
      rfl hd hIhigh e1 e2
    obtain ⟨b1, b2, b3⟩ := glyph_draw_tick (high_glyph_program d) d 0x30 10 (0x50 + 10 * d) rfl
      hd (by decide) (by decide) (by omega) hIhigh e1 e2 e3
    refine ⟨rfl, a1, a2, b1, ?_, b3⟩
    intro c r hc hr
    rw [b2 c r hc hr]
    by_cases hin : c < 8 ∧ r < 10
    · rw [(make_memory_high d hd).2 r hin.2, glyph_bit_eq]
    · rw [decide_eq_false hin, Bool.false_and, Bool.false_and]

/-- Witness for C5 at digit 3 with no key pressed: the top row of the low-resolution glyph
is `0xf0`, so pixel (0, 0) is on and pixel (4, 0) is off; the top row of the high-resolution
glyph is `0xff`, so pixel (7, 0) is on. -/
theorem glyph_programs_draw_witness :
    (3 : Nat) < 16 ∧
    chip8_get_pixel
      (run (chip8_load_program chip8_make (low_glyph_program 3)).2 [idle, idle, idle]) 0 0
      = true ∧
    chip8_get_pixel
      (run (chip8_load_program chip8_make (low_glyph_program 3)).2 [idle, idle, idle]) 4 0
      = false ∧
    chip8_get_pixel
      (run (chip8_load_program chip8_make (high_glyph_program 3)).2 [idle, idle, idle]) 7 0
      = true ∧
    (run (chip8_load_program chip8_make (low_glyph_program 3)).2 [idle, idle, idle]).regs 0xf
      = 0 :=
  let h := glyph_programs_draw 3 (by decide) idle idle idle
  ⟨by decide, (h.1.2.2.2.2.1 0 0 (by decide) (by decide)).trans (by decide),
    (h.1.2.2.2.2.1 4 0 (by decide) (by decide)).trans (by decide),
    (h.2.2.2.2.2.1 7 0 (by decide) (by decide)).trans (by decide),
    h.1.2.2.2.2.2⟩


/-! ## Bounds of the sprite read, end of program -/

/-- The sprite bit of a cell is read from the memory byte at `sprite_byte_addr`. -/
theorem sbit_reads (mem : Nat → Nat) (sprite cols : Nat) (cell : Nat × Nat) :
    sbit mem sprite cols cell
      = (mem (sprite_byte_addr sprite cols cell)).testBit (7 - (cell.1 * cols + cell.2) % 8) := by
  unfold sbit sprite_byte_addr
  rw [get_bit_eq]

/-- C11. For every state in which `chip8_cpu_tick` executes DXYN: if the index register plus
the sprite byte count (`N`, or 32 when `N = 0`) exceeds 4096, the tick returns false and
changes neither the display nor any register, VF included; and whenever the tick returns
true, that is, whenever the draw is performed, every sprite byte it reads (the byte at
`sprite_byte_addr` for each sprite cell) lies at an address below 4096. -/
theorem draw_past_memory_halts (ch : chip8_t) (input : Nat → Bool) (rnd x y n : Nat)
    (hend : at_end ch = false) (hf : fetch ch = (0xd0 + x, 16 * y + n))
    (hx : x < 16) (hy : y < 16) (hn : n < 16) :
    (ch.i_reg + sprite_byte_count n > 4096 →
      (chip8_cpu_tick ch input rnd).1 = false ∧
      (chip8_cpu_tick ch input rnd).2.display = ch.display ∧
      (chip8_cpu_tick ch input rnd).2.regs = ch.regs) ∧
    ((chip8_cpu_tick ch input rnd).1 = true →
      (chip8_cpu_tick ch input rnd).2
        = skip_next (chip8_draw_sprite (tick_timers ch) ch.i_reg n (ch.regs x) (ch.regs y)) ∧
      ∀ cell ∈ sprite_cells n,
        sprite_byte_addr ch.i_reg (sprite_cols n) cell < 4096 ∧
        sbit ch.memory ch.i_reg (sprite_cols n) cell
          = (ch.memory (sprite_byte_addr ch.i_reg (sprite_cols n) cell)).testBit
              (7 - (cell.1 * sprite_cols n + cell.2) % 8)) := by
  have ht := tick_DXYN_cases ch input rnd x y n hend hf hx hy hn
  constructor
  · intro hover
    have hI : ch.i_reg + 256 ≥ 4096 := by
      unfold sprite_byte_count at hover
      split_ifs at hover <;> omega
    rw [ht, if_pos hI]
    exact ⟨rfl, tick_timers_display ch, tick_timers_regs ch⟩
  · intro htrue
    by_cases hI : ch.i_reg + 256 ≥ 4096
    · rw [ht, if_pos hI] at htrue
      cases htrue
    · rw [ht, if_neg hI]
      refine ⟨rfl, ?_⟩
      intro cell hcell
      refine ⟨?_, sbit_reads _ _ _ _⟩
      rw [mem_sprite_cells] at hcell
      unfold sprite_byte_addr
      unfold sprite_rows sprite_cols at hcell
      unfold sprite_cols
      by_cases hn0 : n = 0
      · simp only [hn0, if_true] at hcell ⊢
        omega
      · simp only [hn0, if_false] at hcell ⊢
        omega

/-- Witness for C11: with I = 0xFFF the instruction D005 would read bytes 0xFFF..0x1003, and
the tick returns false with display and registers untouched. -/
theorem draw_past_memory_halts_witness :
    at_end draw_oob_state = false ∧ fetch draw_oob_state = (0xd0 + 0, 16 * 0 + 5) ∧
    draw_oob_state.i_reg + sprite_byte_count 5 > 4096 ∧
    (chip8_cpu_tick draw_oob_state (fun _ => false) 0).1 = false ∧
    (chip8_cpu_tick draw_oob_state (fun _ => false) 0).2.regs = draw_oob_state.regs :=
  let h := draw_past_memory_halts draw_oob_state (fun _ => false) 0 0 0 5 (by decide!) (by decide!)
    (by decide) (by decide) (by decide)
  ⟨by decide!, by decide!, by decide!, (h.1 (by decide!)).1, (h.1 (by decide!)).2.2⟩


/-- For a 16-bit program counter at or above 0x200 the end-of-program test compares
`PC - 0x200 + 1` with the program size without wrapping. -/
theorem at_end_iff (ch : chip8_t) (hpc : 0x200 ≤ ch.program_counter)
    (hpc16 : ch.program_counter < 65536) :
    at_end ch = true ↔ ch.program_counter + 1 ≥ 0x200 + ch.program_size := by
  unfold at_end
  rw [decide_eq_true_iff]
  simp only [PROGRAM_OFFSET, SIZE_RANGE]
  have e : (((ch.program_counter : Int) - ((0x200 : Nat) : Int) + 1) % ((2 ^ 64 : Nat) : Int)).toNat
      = ch.program_counter - 0x200 + 1 := by
    omega
  rw [e]
  omega

/-- C12. For a machine with a loaded program of length `L` (the recorded program size) and a
16-bit program counter `PC >= 0x200` with `PC + 1 >= 0x200 + L`, `chip8_cpu_tick` returns
false without executing anything: registers, index register, program counter, stack
pointer, memory, display and both mode flags are unchanged (only the timer block has run).
In particular, after loading a program of length 0 or 1 the first tick returns false. -/
theorem end_of_program_halts (ch : chip8_t) (input : Nat → Bool) (rnd : Nat)
    (hpc : 0x200 ≤ ch.program_counter) (hpc16 : ch.program_counter < 65536)
    (hoff : ch.program_counter + 1 ≥ 0x200 + ch.program_size) :
    ((chip8_cpu_tick ch input rnd).1 = false ∧
      (chip8_cpu_tick ch input rnd).2.regs = ch.regs ∧
      (chip8_cpu_tick ch input rnd).2.i_reg = ch.i_reg ∧
      (chip8_cpu_tick ch input rnd).2.program_counter = ch.program_counter ∧
      (chip8_cpu_tick ch input rnd).2.stack_pointer = ch.stack_pointer ∧
      (chip8_cpu_tick ch input rnd).2.memory = ch.memory ∧
      (chip8_cpu_tick ch input rnd).2.display = ch.display ∧
      (chip8_cpu_tick ch input rnd).2.schip_mode = ch.schip_mode ∧
      (chip8_cpu_tick ch input rnd).2.increment_ireg = ch.increment_ireg) ∧
    (∀ (c0 : chip8_t) (P : List Nat), P.length ≤ 1 →
      (chip8_load_program c0 P).1 = true ∧
      (chip8_cpu_tick (chip8_load_program c0 P).2 input rnd).1 = false) := by
  constructor
  · have hend : at_end ch = true := (at_end_iff ch hpc hpc16).mpr hoff
    rw [tick_at_end ch input rnd hend]
    exact ⟨rfl, tick_timers_regs ch, tick_timers_i_reg ch, tick_timers_program_counter ch,
      tick_timers_stack_pointer ch, tick_timers_memory ch, tick_timers_display ch,
      tick_timers_schip_mode ch, tick_timers_increment_ireg ch⟩
  · intro c0 P hP
    have hmod : (PROGRAM_OFFSET + P.length) % SIZE_RANGE = PROGRAM_OFFSET + P.length := by
      apply Nat.mod_eq_of_lt
      simp only [PROGRAM_OFFSET, SIZE_RANGE]; omega
    have hge : ¬ (PROGRAM_OFFSET + P.length ≥ STACK_OFFSET) := by
      simp only [PROGRAM_OFFSET, STACK_OFFSET]; omega
    have hload : chip8_load_program c0 P = (true,
        { c0 with
          memory := memcpy c0.memory PROGRAM_OFFSET P P.length
          program_size := P.length
          i_reg := 0
          program_counter := PROGRAM_OFFSET
          stack_pointer := 0
          delay_timer := 0
          sound_timer := 0
          increment_ireg := false
          schip_mode := false
          timer_counter := 0 }) := by
      unfold chip8_load_program
      simp only [hmod, hge, if_false]
    rw [hload]
    refine ⟨rfl, ?_⟩
    rw [tick_at_end]
    apply (at_end_iff _ (by simp) (by simp)).mpr
    simp only [PROGRAM_OFFSET]
    omega

/-- Witness for C12: the fresh machine loaded with the one-instruction program 6005 has run
off the end after one tick; the second tick returns false and V0 keeps its value 5. -/
theorem end_of_program_halts_witness :
    0x200 ≤ reload_state.program_counter ∧
    reload_state.program_counter + 1 ≥ 0x200 + reload_state.program_size ∧
    (chip8_cpu_tick reload_state (fun _ => false) 0).1 = false ∧
    (chip8_cpu_tick reload_state (fun _ => false) 0).2.regs 0 = 5 :=
  let h := end_of_program_halts reload_state (fun _ => false) 0 (by decide!) (by decide!)
    (by decide!)
  ⟨by decide!, by decide!, h.1.1, (congrFun h.1.2.1 0).trans (by decide!)⟩


/-! ## Unchecked register transfers -/

/-- C13, the code at the failing input. After 6107 AFFF the machine is in a reachable state
with stack pointer 0 and I = 0xFFF; the next tick executes F155, uses the memory indices
0xFFF and 0x1000, returns true, and the byte at index 4096, one past the end of the 4096-byte
array, has changed from 0 to 7.  Likewise F165 after AFFF uses index 4096 for a read and
returns true. -/
theorem store_regs_past_memory :
    Reachable (run store_oob_start [idle, idle]) ∧
    (run store_oob_start [idle, idle]).stack_pointer = 0 ∧
    (run store_oob_start [idle, idle]).i_reg = 0xFFF ∧
    executed_op (run store_oob_start [idle, idle]) = some op_FX55 ∧
    reg_transfer_addrs (run store_oob_start [idle, idle]) 1 = [0xFFF, 0x1000] ∧
    (run store_oob_start [idle, idle]).memory 4096 = 0 ∧
    (chip8_cpu_tick (run store_oob_start [idle, idle]) (fun _ => false) 0).1 = true ∧
    (chip8_cpu_tick (run store_oob_start [idle, idle]) (fun _ => false) 0).2.memory 4096 = 7 ∧
    Reachable (run load_oob_start [idle]) ∧
    executed_op (run load_oob_start [idle]) = some op_FX65 ∧
    reg_transfer_addrs (run load_oob_start [idle]) 1 = [0xFFF, 0x1000] ∧
    (chip8_cpu_tick (run load_oob_start [idle]) (fun _ => false) 0).1 = true := by
  refine ⟨?_, by decide!, by decide!, by decide!, by decide!, by decide!, by decide!, by decide!,
    ?_, by decide!, by decide!, by decide!⟩
  · exact Reachable.tick _ _ _ (Reachable.tick _ _ _
      (Reachable.load_fresh [0x61, 0x07, 0xAF, 0xFF, 0xF1, 0x55] (by decide)))
  · exact Reachable.tick _ _ _ (Reachable.load_fresh [0xAF, 0xFF, 0xF1, 0x65] (by decide))

/-! ## Subtraction results -/

/-- C15, the code at the failing input. With V1 = 10 and VF = 3, 81F5 writes the flag 1 into
VF first and then subtracts the flag, leaving V1 = 9 where `(10 - 3) mod 256 = 7`; 81F7
writes the flag 0 and leaves V1 = `(0 - 10) mod 256 = 246` where `(3 - 10) mod 256 = 249`. -/
theorem sub_with_vf_operand :
    (run sub_vf_start [idle, idle]).regs 1 = 10 ∧
    (run sub_vf_start [idle, idle]).regs 0xf = 3 ∧
    executed_op (run sub_vf_start [idle, idle]) = some op_8XY5 ∧
    (run sub_vf_start [idle, idle, idle]).regs 1 = 9 ∧
    (run subn_vf_start [idle, idle]).regs 1 = 10 ∧
    (run subn_vf_start [idle, idle]).regs 0xf = 3 ∧
    executed_op (run subn_vf_start [idle, idle]) = some op_8XY7 ∧
    (run subn_vf_start [idle, idle, idle]).regs 1 = 246 := by
  decide!

/-- What the 8XY5 and 8XY7 handlers leave in VX when neither X nor Y is 0xF: the difference
of the old register values modulo 256. -/
theorem sub_result_plain (ch : chip8_t) (input : Nat → Bool) (rnd nnn nn n x y : Nat)
    (hx : x ≠ 0xf) (hy : y ≠ 0xf) :
    (execute ch input rnd nnn nn n x y op_8XY5).2.regs x
      = u8 ((ch.regs x : Int) - (ch.regs y : Int)) ∧
    (execute ch input rnd nnn nn n x y op_8XY7).2.regs x
      = u8 ((ch.regs y : Int) - (ch.regs x : Int)) := by
  simp only [execute, set_reg, upd, hx, hy, if_false, if_true, and_self]

/-- Witness for the plain subtraction at V1 = V2 = 7. -/
theorem sub_result_plain_witness :
    (execute (run sub_equal_start [idle, idle]) (fun _ => false) 0 0x125 0x25 5 1 2
      op_8XY5).2.regs 1 = 0 :=
  ((sub_result_plain (run sub_equal_start [idle, idle]) (fun _ => false) 0 0x125 0x25 5 1 2
    (by decide) (by decide)).1).trans (by decide!)



/-! ## Sprite compositing by DXYN -/

/-- A cell lands on the screen pixel `(px, py)` exactly when its wrapped coordinates are
`px` and `py`. -/
theorem cell_ix_eq_pix_iff (m : Bool) (vx vy r c px py : Nat)
    (hpx : px < (if m then SDISPLAY_WIDTH else DISPLAY_WIDTH))
    (hpy : py < (if m then SDISPLAY_HEIGHT else DISPLAY_HEIGHT)) :
    cell_ix m vx vy (r, c) = pix m px py ↔
      (vx + c) % (if m then SDISPLAY_WIDTH else DISPLAY_WIDTH) = px ∧
      (vy + r) % (if m then SDISPLAY_HEIGHT else DISPLAY_HEIGHT) = py := by
  unfold cell_ix pix
  cases m
  · simp only [Bool.false_eq_true, if_false, DISPLAY_HEIGHT, DISPLAY_WIDTH] at hpx hpy ⊢
    omega
  · simp only [if_true, SDISPLAY_HEIGHT, SDISPLAY_WIDTH] at hpx hpy ⊢
    omega

theorem sbit_eq_sprite_bit_at (ch : chip8_t) (n r c : Nat) :
    sbit ch.memory ch.i_reg (sprite_cols n) (r, c) = sprite_bit_at ch n r c := by
  unfold sbit sprite_bit_at
  rw [get_bit_eq]

/-- C14. DXYN with `I + 256 < 4096`, in either mode: the tick returns true; the sprite
positions `(r, c)` land on pairwise different pixels; for every pixel `(px, py)` of the
screen, if the sprite position `(r, c)` has `(vx + c) mod w = px` and `(vy + r) mod h = py`
the pixel becomes its old value XOR `s(r, c)`, and if no sprite position lands there it is
unchanged; VF is 1 if some set sprite bit landed on a pixel that was on, and 0 otherwise. -/
theorem draw_composites (ch : chip8_t) (input : Nat → Bool) (rnd x y n : Nat)
    (hend : at_end ch = false) (hf : fetch ch = (0xd0 + x, 16 * y + n))
    (hx : x < 16) (hy : y < 16) (hn : n < 16) (hI : ch.i_reg + 256 < 4096) :
    (chip8_cpu_tick ch input rnd).1 = true ∧
    (∀ r c r2 c2, r < sprite_rows n → c < sprite_cols n → r2 < sprite_rows n →
      c2 < sprite_cols n →
      (ch.regs x + c) % chip8_get_width ch = (ch.regs x + c2) % chip8_get_width ch →
      (ch.regs y + r) % chip8_get_height ch = (ch.regs y + r2) % chip8_get_height ch →
      r = r2 ∧ c = c2) ∧
    (∀ px py, px < chip8_get_width ch → py < chip8_get_height ch →
      (∀ r c, r < sprite_rows n → c < sprite_cols n →
        (ch.regs x + c) % chip8_get_width ch = px →
        (ch.regs y + r) % chip8_get_height ch = py →
        chip8_get_pixel (chip8_cpu_tick ch input rnd).2 px py
          = xor (chip8_get_pixel ch px py) (sprite_bit_at ch n r c)) ∧
      ((∀ r c, r < sprite_rows n → c < sprite_cols n →
          ¬ ((ch.regs x + c) % chip8_get_width ch = px ∧
             (ch.regs y + r) % chip8_get_height ch = py)) →
        chip8_get_pixel (chip8_cpu_tick ch input rnd).2 px py = chip8_get_pixel ch px py)) ∧
    ((chip8_cpu_tick ch input rnd).2.regs 0xf = 1 ↔
      ∃ r c, r < sprite_rows n ∧ c < sprite_cols n ∧ sprite_bit_at ch n r c = true ∧
        chip8_get_pixel ch ((ch.regs x + c) % chip8_get_width ch)
          ((ch.regs y + r) % chip8_get_height ch) = true) ∧
    ((chip8_cpu_tick ch input rnd).2.regs 0xf = 0 ↔
      ¬ ∃ r c, r < sprite_rows n ∧ c < sprite_cols n ∧ sprite_bit_at ch n r c = true ∧
        chip8_get_pixel ch ((ch.regs x + c) % chip8_get_width ch)
          ((ch.regs y + r) % chip8_get_height ch) = true) := by
  have ht := tick_DXYN ch input rnd x y n hend hf hx hy hn hI
  obtain ⟨s1, s2, _, _, smode⟩ :=
    draw_sprite_spec (tick_timers ch) ch.i_reg n (ch.regs x) (ch.regs y) hn
  rw [tick_timers_schip_mode] at smode
  simp only [tick_timers_display, tick_timers_schip_mode, tick_timers_memory] at s1 s2
  have hrows := sprite_rows_le n hn
  have hcols := sprite_cols_le n
  have hpixel : ∀ px py, chip8_get_pixel (chip8_cpu_tick ch input rnd).2 px py
      = xor (chip8_get_pixel ch px py)
          ((sprite_cells n).any (fun cell =>
            cell_ix ch.schip_mode (ch.regs x) (ch.regs y) cell == pix ch.schip_mode px py
              && sbit ch.memory ch.i_reg (sprite_cols n) cell)) := by
    intro px py
    rw [ht]
    have hskip : chip8_get_pixel (skip_next (chip8_draw_sprite (tick_timers ch) ch.i_reg n
        (ch.regs x) (ch.regs y))) px py
        = chip8_get_pixel (chip8_draw_sprite (tick_timers ch) ch.i_reg n
            (ch.regs x) (ch.regs y)) px py := rfl
    simp only [hskip]
    rw [get_pixel_eq, smode, s1, get_pixel_eq]
  have hvf : (chip8_cpu_tick ch input rnd).2.regs 0xf
      = if (sprite_cells n).any (fun cell =>
            chip8_get_bit ch.display (cell_ix ch.schip_mode (ch.regs x) (ch.regs y) cell)
              && sbit ch.memory ch.i_reg (sprite_cols n) cell) = true
        then 1 else 0 := by
    rw [ht]
    exact s2
  have hcoll : ((sprite_cells n).any (fun cell =>
        chip8_get_bit ch.display (cell_ix ch.schip_mode (ch.regs x) (ch.regs y) cell)
          && sbit ch.memory ch.i_reg (sprite_cols n) cell) = true)
      ↔ ∃ r c, r < sprite_rows n ∧ c < sprite_cols n ∧ sprite_bit_at ch n r c = true ∧
          chip8_get_pixel ch ((ch.regs x + c) % chip8_get_width ch)
            ((ch.regs y + r) % chip8_get_height ch) = true := by
    rw [List.any_eq_true]
    constructor
    · rintro ⟨cell, hcell, hc⟩
      rw [mem_sprite_cells] at hcell
      rw [Bool.and_eq_true] at hc
      refine ⟨cell.1, cell.2, hcell.1, hcell.2, ?_, ?_⟩
      · rw [← sbit_eq_sprite_bit_at]; exact hc.2
      · rw [get_pixel_eq, width_eq, height_eq, pix_mod]; exact hc.1
    · rintro ⟨r, c, hr, hc, hs, hp⟩
      refine ⟨(r, c), (mem_sprite_cells n (r, c)).mpr ⟨hr, hc⟩, ?_⟩
      rw [Bool.and_eq_true, sbit_eq_sprite_bit_at]
      rw [get_pixel_eq, width_eq, height_eq, pix_mod] at hp
      exact ⟨hp, hs⟩
  refine ⟨by rw [ht], ?_, ?_, ?_, ?_⟩
  · intro r c r2 c2 hr hc hr2 hc2 e1 e2
    apply cell_ix_inj ch.schip_mode (ch.regs x) (ch.regs y) r c r2 c2 (by omega) (by omega)
      (by omega) (by omega)
    unfold cell_ix pix
    rw [width_eq] at e1
    rw [height_eq] at e2
    simp only
    rw [e1, e2]
  · intro px py hpx hpy
    rw [width_eq] at hpx
    rw [height_eq] at hpy
    constructor
    · intro r c hr hc e1 e2
      rw [hpixel]
      congr 1
      rw [← sbit_eq_sprite_bit_at, Bool.eq_iff_iff, List.any_eq_true]
      have hland : cell_ix ch.schip_mode (ch.regs x) (ch.regs y) (r, c)
          = pix ch.schip_mode px py :=
        (cell_ix_eq_pix_iff _ _ _ _ _ _ _ hpx hpy).mpr ⟨e1, e2⟩
      constructor
      · rintro ⟨cell, hcell, hcc⟩
        rw [Bool.and_eq_true, beq_iff_eq] at hcc
        rw [mem_sprite_cells] at hcell
        obtain ⟨q1, q2⟩ := cell_ix_inj ch.schip_mode (ch.regs x) (ch.regs y) cell.1 cell.2 r c
          (by omega) (by omega) (by omega) (by omega) (hcc.1.trans hland.symm)
        have hcell_eq : cell = (r, c) := Prod.ext q1 q2
        rw [← hcell_eq]
        exact hcc.2
      · intro hs
        refine ⟨(r, c), (mem_sprite_cells n (r, c)).mpr ⟨hr, hc⟩, ?_⟩
        rw [Bool.and_eq_true, beq_iff_eq]
        exact ⟨hland, hs⟩
    · intro hnone
      rw [hpixel]
      have hfalse : (sprite_cells n).any (fun cell =>
          cell_ix ch.schip_mode (ch.regs x) (ch.regs y) cell == pix ch.schip_mode px py
            && sbit ch.memory ch.i_reg (sprite_cols n) cell) = false := by
        rw [List.any_eq_false]
        intro cell hcell hcc
        rw [Bool.and_eq_true, beq_iff_eq] at hcc
        rw [mem_sprite_cells] at hcell
        have := (cell_ix_eq_pix_iff ch.schip_mode (ch.regs x) (ch.regs y) cell.1 cell.2 px py
          hpx hpy).mp hcc.1
        rw [← width_eq, ← height_eq] at this
        exact hnone cell.1 cell.2 hcell.1 hcell.2 this
      rw [hfalse, Bool.xor_false]
  · rw [hvf, ← hcoll]
    split_ifs with hc
    · simp [hc]
    · simp [hc]
  · rw [hvf, ← hcoll]
    split_ifs with hc
    · simp [hc]
    · simp [hc]

/-- Witness for C14: glyph 0 is on screen and D015 draws it again at the same place; sprite
position (0, 0) is set and lands on the lit pixel (0, 0), so VF = 1 and the pixel goes off. -/
theorem draw_composites_witness :
    at_end overlap_state = false ∧ fetch overlap_state = (0xd0 + 0, 16 * 1 + 5) ∧
    overlap_state.i_reg + 256 < 4096 ∧
    (chip8_cpu_tick overlap_state (fun _ => false) 0).1 = true ∧
    (chip8_cpu_tick overlap_state (fun _ => false) 0).2.regs 0xf = 1 ∧
    chip8_get_pixel (chip8_cpu_tick overlap_state (fun _ => false) 0).2 0 0 = false :=
  let h := draw_composites overlap_state (fun _ => false) 0 0 1 5 (by decide!) (by decide!)
    (by decide) (by decide) (by decide) (by decide!)
  ⟨by decide!, by decide!, by decide!, h.1,
    h.2.2.2.1.mpr ⟨0, 0, by decide, by decide, by decide!, by decide!⟩,
    ((h.2.2.1 0 0 (by decide!) (by decide!)).1 0 0 (by decide) (by decide) (by decide!)
      (by decide!)).trans (by decide!)⟩



/-! ## Scrolling -/

theorem tick_00CN (ch : chip8_t) (input : Nat → Bool) (rnd n : Nat)
    (hend : at_end ch = false) (hf : fetch ch = (0x00, 0xc0 + n)) (hn : n < 16) :
    chip8_cpu_tick ch input rnd = (true, skip_next (scroll_down (tick_timers ch) n)) := by
  rw [tick_bytes ch input rnd _ _ hend hf (by decide) (by omega)]
  have e3 : (0xc0 + n) / 16 = 12 := by omega
  have e4 : (0xc0 + n) % 16 = n := by omega
  rw [e3, e4]
  have hd : decode (0x00 / 16) (0x00 % 16) 12 n (256 * 0x00 + (0xc0 + n)) = op_00CN := by
    simp [decode]
  rw [hd]
  rfl

theorem tick_00FB (ch : chip8_t) (input : Nat → Bool) (rnd : Nat)
    (hend : at_end ch = false) (hf : fetch ch = (0x00, 0xfb)) :
    chip8_cpu_tick ch input rnd = (true, skip_next (scroll_right (tick_timers ch))) := by
  rw [tick_bytes ch input rnd _ _ hend hf (by decide) (by decide)]
  have hd : decode (0x00 / 16) (0x00 % 16) (0xfb / 16) (0xfb % 16) (256 * 0x00 + 0xfb)
      = op_00FB := by decide
  rw [hd]
  rfl

theorem tick_00FC (ch : chip8_t) (input : Nat → Bool) (rnd : Nat)
    (hend : at_end ch = false) (hf : fetch ch = (0x00, 0xfc)) :
    chip8_cpu_tick ch input rnd = (true, skip_next (scroll_left (tick_timers ch))) := by
  rw [tick_bytes ch input rnd _ _ hend hf (by decide) (by decide)]
  have hd : decode (0x00 / 16) (0x00 % 16) (0xfc / 16) (0xfc % 16) (256 * 0x00 + 0xfc)
      = op_00FC := by decide
  rw [hd]
  rfl

/-- Pixel `(x, y)` of the screen after `scroll_down`: the old pixel `n` rows above, or off in
the top `n` rows. -/
theorem scroll_down_pixel (ch : chip8_t) (n x y : Nat) (hn : n < 16)
    (hx : x < chip8_get_width ch) (hy : y < chip8_get_height ch) :
    chip8_get_pixel (scroll_down ch n) x y
      = if n ≤ y then chip8_get_pixel ch x (y - n) else false := by
  rw [get_pixel_eq, get_pixel_eq, get_bit_eq, get_bit_eq]
  have hmode : (scroll_down ch n).schip_mode = ch.schip_mode := rfl
  rw [hmode]
  rw [width_eq] at hx
  rw [height_eq] at hy
  simp only [scroll_down, pix, memset, memmove, width_eq, height_eq]
  cases hm : ch.schip_mode
  · simp only [hm, Bool.false_eq_true, if_false, DISPLAY_HEIGHT, DISPLAY_WIDTH] at hx hy ⊢
    rw [Nat.mod_eq_of_lt hx, Nat.mod_eq_of_lt hy]
    by_cases hny : n ≤ y
    · rw [if_pos hny, Nat.mod_eq_of_lt (by omega : y - n < 32)]
      have c1 : ¬ (0 ≤ (y * 64 + x) / 8 ∧ (y * 64 + x) / 8 < 0 + 64 / 8 * n) := by omega
      have c2 : 64 / 8 * n ≤ (y * 64 + x) / 8 ∧
          (y * 64 + x) / 8 < 64 / 8 * n + (32 - n) * (64 / 8) := by omega
      rw [if_neg c1, if_pos c2]
      have e1 : 0 + ((y * 64 + x) / 8 - 64 / 8 * n) = ((y - n) * 64 + x) / 8 := by omega
      have e2 : (y * 64 + x) % 8 = ((y - n) * 64 + x) % 8 := by omega
      rw [e1, e2]
    · rw [if_neg hny]
      have c1 : 0 ≤ (y * 64 + x) / 8 ∧ (y * 64 + x) / 8 < 0 + 64 / 8 * n := by omega
      rw [if_pos c1]
      exact Nat.zero_testBit _
  · simp only [hm, if_true, SDISPLAY_HEIGHT, SDISPLAY_WIDTH] at hx hy ⊢
    rw [Nat.mod_eq_of_lt hx, Nat.mod_eq_of_lt hy]
    by_cases hny : n ≤ y
    · rw [if_pos hny, Nat.mod_eq_of_lt (by omega : y - n < 64)]
      have c1 : ¬ (0 ≤ (y * 128 + x) / 8 ∧ (y * 128 + x) / 8 < 0 + 128 / 8 * n) := by omega
      have c2 : 128 / 8 * n ≤ (y * 128 + x) / 8 ∧
          (y * 128 + x) / 8 < 128 / 8 * n + (64 - n) * (128 / 8) := by omega
      rw [if_neg c1, if_pos c2]
      have e1 : 0 + ((y * 128 + x) / 8 - 128 / 8 * n) = ((y - n) * 128 + x) / 8 := by omega
      have e2 : (y * 128 + x) % 8 = ((y - n) * 128 + x) % 8 := by omega
      rw [e1, e2]
    · rw [if_neg hny]
      have c1 : 0 ≤ (y * 128 + x) / 8 ∧ (y * 128 + x) / 8 < 0 + 128 / 8 * n := by omega
      rw [if_pos c1]
      exact Nat.zero_testBit _


/-- C17. 00CN for every `N` in `0..15`, in either mode with width `w` and height `h`: the
tick returns true, and afterwards pixel `(x, y)` equals the old pixel `(x, y - N)` for every
`x < w` and `N <= y < h`, and every pixel of the top `N` rows is off. -/
theorem scroll_down_rows (ch : chip8_t) (input : Nat → Bool) (rnd n : Nat)
    (hend : at_end ch = false) (hf : fetch ch = (0x00, 0xc0 + n)) (hn : n < 16) :
    (chip8_cpu_tick ch input rnd).1 = true ∧
    (∀ x y, x < chip8_get_width ch → y < chip8_get_height ch →
      (n ≤ y → chip8_get_pixel (chip8_cpu_tick ch input rnd).2 x y
        = chip8_get_pixel ch x (y - n)) ∧
      (y < n → chip8_get_pixel (chip8_cpu_tick ch input rnd).2 x y = false)) := by
  rw [tick_00CN ch input rnd n hend hf hn]
  refine ⟨rfl, ?_⟩
  intro x y hx hy
  have hskip : chip8_get_pixel (skip_next (scroll_down (tick_timers ch) n)) x y
      = chip8_get_pixel (scroll_down (tick_timers ch) n) x y := rfl
  have hw : chip8_get_width (tick_timers ch) = chip8_get_width ch := by
    rw [width_eq, width_eq, tick_timers_schip_mode]
  have hh : chip8_get_height (tick_timers ch) = chip8_get_height ch := by
    rw [height_eq, height_eq, tick_timers_schip_mode]
  have hold : ∀ a b, chip8_get_pixel (tick_timers ch) a b = chip8_get_pixel ch a b := by
    intro a b
    rw [get_pixel_eq, get_pixel_eq, tick_timers_display, tick_timers_schip_mode]
  simp only [hskip]
  rw [scroll_down_pixel (tick_timers ch) n x y hn (by rw [hw]; exact hx) (by rw [hh]; exact hy)]
  constructor
  · intro hny
    rw [if_pos hny, hold]
  · intro hyn
    rw [if_neg (by omega)]

/-- Witness for C17: with glyph 0 at the top left, 00C2 moves the lit pixel (0, 0) to
(0, 2) and leaves (0, 0) off. -/
theorem scroll_down_rows_witness :
    at_end scroll_down_state = false ∧ fetch scroll_down_state = (0x00, 0xc0 + 2) ∧
    chip8_get_pixel scroll_down_state 0 0 = true ∧
    (chip8_cpu_tick scroll_down_state (fun _ => false) 0).1 = true ∧
    chip8_get_pixel (chip8_cpu_tick scroll_down_state (fun _ => false) 0).2 0 2 = true ∧
    chip8_get_pixel (chip8_cpu_tick scroll_down_state (fun _ => false) 0).2 0 0 = false :=
  let h := scroll_down_rows scroll_down_state (fun _ => false) 0 2 (by decide!) (by decide!)
    (by decide)
  ⟨by decide!, by decide!, by decide!, h.1,
    ((h.2 0 2 (by decide!) (by decide!)).1 (by decide)).trans (by decide!),
    (h.2 0 0 (by decide!) (by decide!)).2 (by decide)⟩


/-- C16, the code at the failing input. Pixels 60..63 of row 0 are lit and row 1 is blank;
00FB returns true and afterwards pixels 0..3 of row 1 are lit: the local `byte` of the 00FB
branch is declared before the row loop and carries the last four pixels of each row into
the next row. -/
theorem scroll_right_crosses_rows :
    Reachable scroll_right_state ∧
    executed_op scroll_right_state = some op_00FB ∧
    scroll_right_state.schip_mode = false ∧
    chip8_get_pixel scroll_right_state 60 0 = true ∧
    chip8_get_pixel scroll_right_state 63 0 = true ∧
    chip8_get_pixel scroll_right_state 0 1 = false ∧
    chip8_get_pixel scroll_right_state 3 1 = false ∧
    (chip8_cpu_tick scroll_right_state (fun _ => false) 0).1 = true ∧
    chip8_get_pixel (chip8_cpu_tick scroll_right_state (fun _ => false) 0).2 0 1 = true ∧
    chip8_get_pixel (chip8_cpu_tick scroll_right_state (fun _ => false) 0).2 1 1 = true ∧
    chip8_get_pixel (chip8_cpu_tick scroll_right_state (fun _ => false) 0).2 2 1 = true ∧
    chip8_get_pixel (chip8_cpu_tick scroll_right_state (fun _ => false) 0).2 3 1 = true := by
  refine ⟨?_, by decide!, by decide!, by decide!, by decide!, by decide!, by decide!, by decide!,
    by decide!, by decide!, by decide!, by decide!⟩
  exact Reachable.tick _ _ _ (Reachable.tick _ _ _
    (Reachable.load_fresh [0x60, 0x3C, 0xD0, 0x11, 0x00, 0xFB] (by decide)))


theorem testBit_f0 : ∀ j, j < 8 → Nat.testBit 0xf0 j = decide (4 ≤ j) := by decide

theorem testBit_0f : ∀ j, j < 8 → Nat.testBit 0xf j = decide (j < 4) := by decide

/-- Bits of the byte stored by 00FC: the upper four come from the low nibble of the current
byte, the lower four from the high nibble of the byte to the right. -/
theorem testBit_left_byte (cur nxt j : Nat) (hj : j < 8) :
    (left_byte cur nxt).testBit j
      = if 4 ≤ j then cur.testBit (j - 4) else nxt.testBit (j + 4) := by
  unfold left_byte
  have h256 : (256 : Nat) = 2 ^ 8 := by norm_num
  rw [h256, Nat.testBit_mod_two_pow, Nat.testBit_or, Nat.testBit_and, Nat.testBit_and,
    Nat.testBit_shiftLeft, Nat.testBit_shiftRight, testBit_f0 j hj, testBit_0f j hj]
  by_cases h4 : 4 ≤ j
  · have h4b : ¬ (j < 4) := by omega
    simp [hj, h4, h4b]
  · have h4b : j < 4 := by omega
    simp [hj, h4, h4b, Nat.add_comm]

theorem scroll_left_step_eq (row_len row : Nat) (st : (Nat → Nat) × Nat) (i : Nat) :
    scroll_left_step row_len row st i
      = (upd st.1 (row_len * row + i) (left_byte (st.1 (row_len * row + i)) st.2),
          st.1 (row_len * row + i)) := rfl

/-- The inner 00FC loop over the first `n` bytes of a row, visited from the right with
incoming carry `b`: byte `i` becomes `left_byte` of itself and its right neighbour (the
carry for the last one); bytes outside the visited range are untouched. -/
theorem scroll_left_row (row_len row : Nat) :
    ∀ (n : Nat) (d : Nat → Nat) (b : Nat),
      (∀ i, i < n →
        ((List.range n).reverse.foldl (scroll_left_step row_len row) (d, b)).1
            (row_len * row + i)
          = left_byte (d (row_len * row + i))
              (if i + 1 < n then d (row_len * row + i + 1) else b)) ∧
      (∀ a, (a < row_len * row ∨ row_len * row + n ≤ a) →
        ((List.range n).reverse.foldl (scroll_left_step row_len row) (d, b)).1 a = d a) := by
  intro n
  induction n with
  | zero =>
    intro d b
    constructor
    · intro i hi; omega
    · intro a _; rfl
  | succ n ih =>
    intro d b
    rw [List.range_succ, List.reverse_append, List.reverse_singleton, List.singleton_append,
      List.foldl_cons, scroll_left_step_eq]
    obtain ⟨i1, i2⟩ := ih (upd d (row_len * row + n) (left_byte (d (row_len * row + n)) b))
      (d (row_len * row + n))
    constructor
    · intro i hi
      by_cases hin : i < n
      · rw [i1 i hin]
        have e1 : upd d (row_len * row + n) (left_byte (d (row_len * row + n)) b)
            (row_len * row + i) = d (row_len * row + i) := by
          unfold upd; rw [if_neg (by omega)]
        rw [e1]
        by_cases hlast : i + 1 < n
        · rw [if_pos hlast, if_pos (by omega)]
          have e2 : upd d (row_len * row + n) (left_byte (d (row_len * row + n)) b)
              (row_len * row + i + 1) = d (row_len * row + i + 1) := by
            unfold upd; rw [if_neg (by omega)]
          rw [e2]
        · rw [if_neg hlast, if_pos (by omega)]
          have e3 : i + 1 = n := by omega
          rw [← e3]
          rfl
      · have e : i = n := by omega
        subst e
        rw [i2 _ (Or.inr (by omega)), if_neg (by omega)]
        unfold upd
        rw [if_pos rfl]
    · intro a ha
      rw [i2 a (by omega)]
      unfold upd
      rw [if_neg (by omega)]


/-- The outer 00FC loop over the first `k` rows: every byte of those rows becomes
`left_byte` of itself and its right neighbour in the same row (0 for the last byte of a
row); later bytes are untouched. -/
theorem scroll_left_rows (row_len : Nat) (d0 : Nat → Nat) :
    ∀ k : Nat,
      (∀ row i, row < k → i < row_len →
        ((List.range k).foldl
            (fun d row => ((List.range row_len).reverse.foldl
              (scroll_left_step row_len row) (d, 0)).1) d0) (row_len * row + i)
          = left_byte (d0 (row_len * row + i))
              (if i + 1 < row_len then d0 (row_len * row + i + 1) else 0)) ∧
      (∀ a, row_len * k ≤ a →
        ((List.range k).foldl
            (fun d row => ((List.range row_len).reverse.foldl
              (scroll_left_step row_len row) (d, 0)).1) d0) a = d0 a) := by
  intro k
  induction k with
  | zero =>
    constructor
    · intro row i hrow; omega
    · intro a _; rfl
  | succ k ih =>
    obtain ⟨i1, i2⟩ := ih
    rw [List.range_succ, List.foldl_append, List.foldl_cons, List.foldl_nil]
    generalize hdk : (List.range k).foldl
      (fun d row => ((List.range row_len).reverse.foldl
        (scroll_left_step row_len row) (d, 0)).1) d0 = dk at i1 i2 ⊢
    obtain ⟨r1, r2⟩ := scroll_left_row row_len k row_len dk 0
    have hmul : row_len * (k + 1) = row_len * k + row_len := Nat.mul_succ _ _
    constructor
    · intro row i hrow hi
      by_cases hlt : row < k
      · have hle : row_len * (row + 1) ≤ row_len * k := Nat.mul_le_mul_left _ (by omega)
        rw [Nat.mul_succ] at hle
        rw [r2 _ (Or.inl (by omega))]
        exact i1 row i hlt hi
      · have e : row = k := by omega
        subst e
        rw [r1 i hi, i2 _ (by omega)]
        by_cases hlast : i + 1 < row_len
        · rw [if_pos hlast, if_pos hlast, i2 _ (by omega)]
        · rw [if_neg hlast, if_neg hlast]
    · intro a ha
      rw [r2 a (Or.inr (by omega)), i2 a (by omega)]

/-- Pixel `(x, y)` of the screen after `scroll_left`: the old pixel four columns to the
right, or off in the last four columns. -/
theorem scroll_left_pixel (ch : chip8_t) (x y : Nat)
    (hx : x < chip8_get_width ch) (hy : y < chip8_get_height ch) :
    chip8_get_pixel (scroll_left ch) x y
      = if x + 4 < chip8_get_width ch then chip8_get_pixel ch (x + 4) y else false := by
  rw [get_pixel_eq, get_pixel_eq, get_bit_eq, get_bit_eq]
  have hmode : (scroll_left ch).schip_mode = ch.schip_mode := rfl
  have hdisp : (scroll_left ch).display
      = (List.range (chip8_get_height ch)).foldl
          (fun d row => ((List.range (chip8_get_width ch / 8)).reverse.foldl
            (scroll_left_step (chip8_get_width ch / 8) row) (d, 0)).1) ch.display := rfl
  rw [hmode, hdisp]
  obtain ⟨r1, _⟩ := scroll_left_rows (chip8_get_width ch / 8) ch.display (chip8_get_height ch)
  rw [width_eq] at hx r1 ⊢
  rw [height_eq] at hy r1 ⊢
  unfold pix
  cases hm : ch.schip_mode
  · simp only [hm, Bool.false_eq_true, if_false, DISPLAY_HEIGHT, DISPLAY_WIDTH] at hx hy r1 ⊢
    rw [Nat.mod_eq_of_lt hx, Nat.mod_eq_of_lt hy]
    have hidx : (y * 64 + x) / 8 = 64 / 8 * y + x / 8 := by omega
    rw [hidx, r1 y (x / 8) hy (by omega), testBit_left_byte _ _ _ (by omega)]
    by_cases hbit : (y * 64 + x) % 8 < 4
    · rw [if_pos (by omega), if_pos (by omega), Nat.mod_eq_of_lt (by omega : x + 4 < 64)]
      have e1 : (y * 64 + (x + 4)) / 8 = 64 / 8 * y + x / 8 := by omega
      have e2 : 7 - (y * 64 + x) % 8 - 4 = 7 - (y * 64 + (x + 4)) % 8 := by omega
      rw [e1, e2]
    · rw [if_neg (by omega)]
      by_cases hlast : x + 4 < 64
      · rw [if_pos hlast, if_pos (by omega), Nat.mod_eq_of_lt hlast]
        have e1 : (y * 64 + (x + 4)) / 8 = 64 / 8 * y + x / 8 + 1 := by omega
        have e2 : 7 - (y * 64 + x) % 8 + 4 = 7 - (y * 64 + (x + 4)) % 8 := by omega
        rw [e1, e2]
      · rw [if_neg hlast, if_neg (by omega)]
        exact Nat.zero_testBit _
  · simp only [hm, if_true, SDISPLAY_HEIGHT, SDISPLAY_WIDTH] at hx hy r1 ⊢
    rw [Nat.mod_eq_of_lt hx, Nat.mod_eq_of_lt hy]
    have hidx : (y * 128 + x) / 8 = 128 / 8 * y + x / 8 := by omega
    rw [hidx, r1 y (x / 8) hy (by omega), testBit_left_byte _ _ _ (by omega)]
    by_cases hbit : (y * 128 + x) % 8 < 4
    · rw [if_pos (by omega), if_pos (by omega), Nat.mod_eq_of_lt (by omega : x + 4 < 128)]
      have e1 : (y * 128 + (x + 4)) / 8 = 128 / 8 * y + x / 8 := by omega
      have e2 : 7 - (y * 128 + x) % 8 - 4 = 7 - (y * 128 + (x + 4)) % 8 := by omega
      rw [e1, e2]
    · rw [if_neg (by omega)]
      by_cases hlast : x + 4 < 128
      · rw [if_pos hlast, if_pos (by omega), Nat.mod_eq_of_lt hlast]
        have e1 : (y * 128 + (x + 4)) / 8 = 128 / 8 * y + x / 8 + 1 := by omega
        have e2 : 7 - (y * 128 + x) % 8 + 4 = 7 - (y * 128 + (x + 4)) % 8 := by omega
        rw [e1, e2]
      · rw [if_neg hlast, if_neg (by omega)]
        exact Nat.zero_testBit _


/-- C18. 00FC in either mode with width `w` and height `h`: the tick returns true, and
afterwards, for every `y < h`, pixel `(x, y)` equals the old pixel `(x + 4, y)` for
`x < w - 4`, and the four rightmost pixels (`x >= w - 4`) of every row are off. -/
theorem scroll_left_columns (ch : chip8_t) (input : Nat → Bool) (rnd : Nat)
    (hend : at_end ch = false) (hf : fetch ch = (0x00, 0xfc)) :
    (chip8_cpu_tick ch input rnd).1 = true ∧
    (∀ x y, x < chip8_get_width ch → y < chip8_get_height ch →
      (x + 4 < chip8_get_width ch →
        chip8_get_pixel (chip8_cpu_tick ch input rnd).2 x y = chip8_get_pixel ch (x + 4) y) ∧
      (chip8_get_width ch ≤ x + 4 →
        chip8_get_pixel (chip8_cpu_tick ch input rnd).2 x y = false)) := by
  rw [tick_00FC ch input rnd hend hf]
  refine ⟨rfl, ?_⟩
  intro x y hx hy
  have hskip : chip8_get_pixel (skip_next (scroll_left (tick_timers ch))) x y
      = chip8_get_pixel (scroll_left (tick_timers ch)) x y := rfl
  have hw : chip8_get_width (tick_timers ch) = chip8_get_width ch := by
    rw [width_eq, width_eq, tick_timers_schip_mode]
  have hh : chip8_get_height (tick_timers ch) = chip8_get_height ch := by
    rw [height_eq, height_eq, tick_timers_schip_mode]
  have hold : ∀ a b, chip8_get_pixel (tick_timers ch) a b = chip8_get_pixel ch a b := by
    intro a b
    rw [get_pixel_eq, get_pixel_eq, tick_timers_display, tick_timers_schip_mode]
  simp only [hskip]
  rw [scroll_left_pixel (tick_timers ch) x y (by rw [hw]; exact hx) (by rw [hh]; exact hy), hw]
  constructor
  · intro hlt
    rw [if_pos hlt, hold]
  · intro hge
    rw [if_neg (by omega)]

/-- Witness for C18: with glyph 0 at (8, 0), 00FC moves the lit pixel (8, 0) to (4, 0), and
pixel (60, 0) in the last four columns is off. -/
theorem scroll_left_columns_witness :
    at_end scroll_left_state = false ∧ fetch scroll_left_state = (0x00, 0xfc) ∧
    chip8_get_pixel scroll_left_state 8 0 = true ∧
    (chip8_cpu_tick scroll_left_state (fun _ => false) 0).1 = true ∧
    chip8_get_pixel (chip8_cpu_tick scroll_left_state (fun _ => false) 0).2 4 0 = true ∧
    chip8_get_pixel (chip8_cpu_tick scroll_left_state (fun _ => false) 0).2 60 0 = false :=
  let h := scroll_left_columns scroll_left_state (fun _ => false) 0 (by decide!) (by decide!)
  ⟨by decide!, by decide!, by decide!, h.1,
    ((h.2 4 0 (by decide!) (by decide!)).1 (by decide!)).trans (by decide!),
    (h.2 60 0 (by decide!) (by decide!)).2 (by decide!)⟩


/-! ## Calls and returns -/

theorem tick_2NNN (ch : chip8_t) (input : Nat → Bool) (rnd NNN : Nat)
    (hend : at_end ch = false) (hf : fetch ch = (0x20 + NNN / 256, NNN % 256))
    (hN : NNN < 0x1000) :
    chip8_cpu_tick ch input rnd
      = (true, skip_next
          { stack_set { tick_timers ch with stack_pointer := (ch.stack_pointer + 1) % 256 }
              ((ch.stack_pointer + 1) % 256) ch.program_counter with
            program_counter := u16 ((NNN : Int) - 2) }) := by
  rw [tick_bytes ch input rnd _ _ hend hf (by omega) (by omega)]
  have e1 : (0x20 + NNN / 256) / 16 = 2 := by omega
  have e5 : (256 * (0x20 + NNN / 256) + NNN % 256) % 4096 = NNN := by omega
  rw [e1, e5, decode_pos 2 _ _ _ _ (by decide) (by omega)]
  have hd : decode 2 0 (NNN % 256 / 16) (NNN % 256 % 16) 0x1000 = op_2NNN := by simp [decode]
  rw [hd]
  simp only [execute, tick_timers_stack_pointer, tick_timers_program_counter]

theorem tick_00EE (ch : chip8_t) (input : Nat → Bool) (rnd : Nat)
    (hend : at_end ch = false) (hf : fetch ch = (0x00, 0xee)) :
    chip8_cpu_tick ch input rnd
      = (true, skip_next
          { stack_load_pc (tick_timers ch) ch.stack_pointer with
            stack_pointer := u8 ((ch.stack_pointer : Int) - 1) }) := by
  rw [tick_bytes ch input rnd _ _ hend hf (by decide) (by decide)]
  have hd : decode (0x00 / 16) (0x00 % 16) (0xee / 16) (0xee % 16) (256 * 0x00 + 0xee)
      = op_00EE := by decide
  rw [hd]
  simp only [execute, tick_timers_stack_pointer, stack_load_pc]


theorem reachable_run (s : chip8_t) (hs : Reachable s) (es : List ((Nat → Bool) × Nat)) :
    Reachable (run s es) := by
  induction es generalizing s with
  | nil => exact hs
  | cons e es ih => exact ih (step s e) (Reachable.tick s e.1 e.2 hs)

/-- The call/return round trip on an intact machine. For every state in which no access
has left `memory` and `stack` points at `memory + STACK_OFFSET`, with stack pointer
`sp < 175` and a loaded program that fits, whose instruction at `PC = p` is 2NNN and whose
instruction at NNN is 00EE, both inside the program: two ticks both return true; after the
first the program counter is NNN, the stack pointer is `sp + 1` and stack slot `sp + 1`,
the bytes `memory[0xEA0 + 2 (sp + 1)]` and the next, holds `p`; after the second the
program counter is `p + 2` and the stack pointer is `sp` again; registers, index register
and display are unchanged throughout and neither tick accesses a byte outside `memory`. -/
theorem call_return_round_trip (ch : chip8_t) (i1 i2 : Nat → Bool) (r1 r2 NNN : Nat)
    (hst : ch.stack = STACK_OFFSET) (hin : ch.out_of_bounds = false)
    (hsp : ch.stack_pointer < 175)
    (hL : 0x200 + ch.program_size < 0xEA0)
    (hp1 : 0x200 ≤ ch.program_counter)
    (hp2 : ch.program_counter + 1 < 0x200 + ch.program_size)
    (hN : NNN < 0x1000)
    (hcall : fetch ch = (0x20 + NNN / 256, NNN % 256))
    (hN1 : 0x200 ≤ NNN) (hN2 : NNN + 1 < 0x200 + ch.program_size)
    (hret : ch.memory NNN = 0x00 ∧ ch.memory (NNN + 1) = 0xee) :
    (chip8_cpu_tick ch i1 r1).1 = true ∧
    (chip8_cpu_tick ch i1 r1).2.program_counter = NNN ∧
    (chip8_cpu_tick ch i1 r1).2.stack_pointer = ch.stack_pointer + 1 ∧
    (chip8_cpu_tick ch i1 r1).2.memory (STACK_OFFSET + 2 * (ch.stack_pointer + 1))
        + 256 * (chip8_cpu_tick ch i1 r1).2.memory
            (STACK_OFFSET + 2 * (ch.stack_pointer + 1) + 1) = ch.program_counter ∧
    (chip8_cpu_tick ch i1 r1).2.regs = ch.regs ∧
    (chip8_cpu_tick ch i1 r1).2.i_reg = ch.i_reg ∧
    (chip8_cpu_tick ch i1 r1).2.display = ch.display ∧
    (chip8_cpu_tick ch i1 r1).2.out_of_bounds = false ∧
    (chip8_cpu_tick (chip8_cpu_tick ch i1 r1).2 i2 r2).1 = true ∧
    (chip8_cpu_tick (chip8_cpu_tick ch i1 r1).2 i2 r2).2.program_counter
      = ch.program_counter + 2 ∧
    (chip8_cpu_tick (chip8_cpu_tick ch i1 r1).2 i2 r2).2.stack_pointer = ch.stack_pointer ∧
    (chip8_cpu_tick (chip8_cpu_tick ch i1 r1).2 i2 r2).2.regs = ch.regs ∧
    (chip8_cpu_tick (chip8_cpu_tick ch i1 r1).2 i2 r2).2.i_reg = ch.i_reg ∧
    (chip8_cpu_tick (chip8_cpu_tick ch i1 r1).2 i2 r2).2.display = ch.display ∧
    (chip8_cpu_tick (chip8_cpu_tick ch i1 r1).2 i2 r2).2.out_of_bounds = false := by
  have hend : at_end ch = false := by
    cases h : at_end ch
    · rfl
    · have := (at_end_iff ch hp1 (by omega)).mp h
      omega
  have t1 := tick_2NNN ch i1 r1 NNN hend hcall hN
  generalize hs1 : (chip8_cpu_tick ch i1 r1).2 = s1
  rw [t1] at hs1
  have hspmod : (ch.stack_pointer + 1) % 256 = ch.stack_pointer + 1 := by omega
  have h1pc : s1.program_counter = NNN := by
    rw [← hs1]
    exact u16_sub_two_add_two NNN (by omega)
  have h1sp : s1.stack_pointer = ch.stack_pointer + 1 := by
    rw [← hs1]
    simp only [skip_next, stack_set, hspmod]
  have h1size : s1.program_size = ch.program_size := by
    rw [← hs1]
    simp only [skip_next, stack_set, tick_timers_program_size]
  have h1stack : s1.stack = STACK_OFFSET := by
    rw [← hs1]
    simp only [skip_next, stack_set, tick_timers_stack]
    exact hst
  have h1mem : s1.memory
      = upd (upd ch.memory (STACK_OFFSET + 2 * (ch.stack_pointer + 1))
            (ch.program_counter % 256))
          (STACK_OFFSET + 2 * (ch.stack_pointer + 1) + 1) (ch.program_counter / 256 % 256) := by
    rw [← hs1]
    simp only [skip_next, stack_set, hspmod, tick_timers_memory, tick_timers_stack, hst]
  have h1regs : s1.regs = ch.regs := by
    rw [← hs1]
    simp only [skip_next, stack_set, tick_timers_regs]
  have h1ireg : s1.i_reg = ch.i_reg := by
    rw [← hs1]
    simp only [skip_next, stack_set, tick_timers_i_reg]
  have h1disp : s1.display = ch.display := by
    rw [← hs1]
    simp only [skip_next, stack_set, tick_timers_display]
  have h1in : s1.out_of_bounds = false := by
    rw [← hs1]
    simp only [skip_next, stack_set, hspmod, tick_timers_out_of_bounds, tick_timers_stack, hst,
      hin, Bool.false_or, outside, STACK_OFFSET, MEMORY_SIZE, decide_eq_false_iff_not]
    omega
  have hslot : s1.memory (STACK_OFFSET + 2 * (ch.stack_pointer + 1))
      + 256 * s1.memory (STACK_OFFSET + 2 * (ch.stack_pointer + 1) + 1)
        = ch.program_counter := by
    rw [h1mem]
    unfold upd
    rw [if_neg (by omega), if_pos rfl, if_pos rfl]
    omega
  have hend1 : at_end s1 = false := by
    cases h : at_end s1
    · rfl
    · have := (at_end_iff s1 (by rw [h1pc]; exact hN1) (by rw [h1pc]; omega)).mp h
      rw [h1pc, h1size] at this
      omega
  have hf1 : fetch s1 = (0x00, 0xee) := by
    unfold fetch
    rw [h1pc, h1mem]
    unfold upd
    simp only [STACK_OFFSET]
    rw [if_neg (by omega), if_neg (by omega), if_neg (by omega), if_neg (by omega),
      hret.1, hret.2]
  have t2 := tick_00EE s1 i2 r2 hend1 hf1
  rw [t1, t2]
  refine ⟨rfl, ?_, ?_, ?_, ?_, ?_, ?_, ?_, rfl, ?_, ?_, ?_, ?_, ?_, ?_⟩
  · exact h1pc
  · exact h1sp
  · exact hslot
  · exact h1regs
  · exact h1ireg
  · exact h1disp
  · exact h1in
  · simp only [skip_next, stack_load_pc, stack_get, tick_timers_memory, tick_timers_stack]
    rw [h1sp, h1stack, hslot]
    omega
  · simp only [skip_next]
    rw [h1sp]
    unfold u8
    omega
  · simp only [skip_next, stack_load_pc, tick_timers_regs]
    exact h1regs
  · simp only [skip_next, stack_load_pc, tick_timers_i_reg]
    exact h1ireg
  · simp only [skip_next, stack_load_pc, tick_timers_display]
    exact h1disp
  · simp only [skip_next, stack_load_pc, tick_timers_out_of_bounds, tick_timers_stack, h1in,
      h1stack, h1sp, Bool.false_or, outside, STACK_OFFSET, MEMORY_SIZE,
      decide_eq_false_iff_not]
    omega

/-- The round trip on the fresh machine loaded with 2204 0000 00EE: the call goes to 0x204
and the return comes back to 0x202 with the stack pointer at 0 again. -/
theorem call_return_round_trip_witness :
    call_start.stack_pointer < 175 ∧ fetch call_start = (0x20 + 0x204 / 256, 0x204 % 256) ∧
    (chip8_cpu_tick call_start (fun _ => false) 0).1 = true ∧
    (chip8_cpu_tick call_start (fun _ => false) 0).2.program_counter = 0x204 ∧
    (chip8_cpu_tick call_start (fun _ => false) 0).2.stack_pointer = 1 ∧
    (chip8_cpu_tick (chip8_cpu_tick call_start (fun _ => false) 0).2
      (fun _ => false) 0).2.program_counter = 0x202 ∧
    (chip8_cpu_tick (chip8_cpu_tick call_start (fun _ => false) 0).2
      (fun _ => false) 0).2.stack_pointer = 0 :=
  let h := call_return_round_trip call_start (fun _ => false) (fun _ => false) 0 0 0x204
    (by decide) (by decide)
    (by decide!) (by decide!) (by decide!) (by decide!) (by decide) (by decide!) (by decide)
    (by decide!) (by decide!)
  ⟨by decide!, by decide!, h.1, h.2.1, h.2.2.1.trans (by decide!),
    h.2.2.2.2.2.2.2.2.2.1.trans (by decide!), h.2.2.2.2.2.2.2.2.2.2.1.trans (by decide!)⟩

/-- C19, the code at the failing input. The program 6001 AFFF F01E 6007 F055 220E 0000 00EE
loads, and its first five ticks return true. The fifth executes F055 with I = 0x1000 and
V0 = 7: it stores 7 at index 4096, the first byte behind the 4096-byte array `memory`,
which in `struct chip8` is the low byte of the pointer member `stack`. The state reached
is one the claim covers: stack pointer 0, the instruction at PC = 0x20A is the call 220E
and the instruction at 0x20E is 00EE, both inside the 16-byte program. -/
theorem call_after_store_past_memory :
    (chip8_load_program chip8_make
      [0x60, 0x01, 0xAF, 0xFF, 0xF0, 0x1E, 0x60, 0x07, 0xF0, 0x55, 0x22, 0x0E, 0x00, 0x00,
        0x00, 0xEE]).1 = true ∧
    Reachable (run call_store_start [idle, idle, idle, idle, idle]) ∧
    executed_op (run call_store_start [idle, idle, idle, idle]) = some op_FX55 ∧
    (run call_store_start [idle, idle, idle, idle]).i_reg = 4096 ∧
    (run call_store_start [idle, idle, idle, idle]).regs 0 = 7 ∧
    (run call_store_start [idle, idle, idle, idle]).out_of_bounds = false ∧
    (chip8_cpu_tick (run call_store_start [idle, idle, idle, idle]) idle.1 idle.2).1 = true ∧
    (run call_store_start [idle, idle, idle, idle, idle]).memory 4096 = 7 ∧
    (run call_store_start [idle, idle, idle, idle, idle]).out_of_bounds = true ∧
    (run call_store_start [idle, idle, idle, idle, idle]).stack_pointer = 0 ∧
    (run call_store_start [idle, idle, idle, idle, idle]).program_counter = 0x20A ∧
    executed_op (run call_store_start [idle, idle, idle, idle, idle]) = some op_2NNN ∧
    fetch (run call_store_start [idle, idle, idle, idle, idle]) = (0x22, 0x0E) ∧
    (run call_store_start [idle, idle, idle, idle, idle]).memory 0x20E = 0x00 ∧
    (run call_store_start [idle, idle, idle, idle, idle]).memory 0x20F = 0xEE ∧
    0x20F < 0x200 + (run call_store_start [idle, idle, idle, idle, idle]).program_size := by
  refine ⟨by decide, ?_, by decide!, by decide!, by decide!, by decide!, by decide!, by decide!,
    by decide!, by decide!, by decide!, by decide!, by decide!, by decide!, by decide!,
    by decide!⟩
  exact reachable_run _ (Reachable.load_fresh _ (by decide)) _


/-! ## The stack pointer -/

/-- Only 2NNN and 00EE change the stack pointer. -/
theorem stack_pointer_execute (ch : chip8_t) (input : Nat → Bool) (rnd nnn nn n x y : Nat)
    (op : op_t) (h2 : op ≠ op_2NNN) (hee : op ≠ op_00EE) :
    (execute ch input rnd nnn nn n x y op).2.stack_pointer = ch.stack_pointer := by
  have of_control : ∀ {a b : chip8_t}, control a = control b →
      a.stack_pointer = b.stack_pointer := by
    intro a b h
    simp only [control, Prod.mk.injEq] at h
    exact h.2.2.2.2.2.2.2.1
  have bump : ∀ (c : chip8_t) (k : Nat), (bump_ireg c k).stack_pointer = c.stack_pointer := by
    intro c k; unfold bump_ireg; split_ifs <;> rfl
  cases op
  case op_2NNN => exact absurd rfl h2
  case op_00EE => exact absurd rfl hee
  case op_DXYN =>
    simp only [execute]
    split_ifs
    · rfl
    · exact of_control (control_draw_sprite _ _ _ _ _)
  case op_FX55 =>
    simp only [execute, bump]
    exact of_control (control_store_regs _ _)
  case op_FX65 =>
    simp only [execute, bump]
    exact of_control (control_load_regs _ _)
  all_goals ((simp only [execute]) <;> (first | rfl | (split_ifs <;> rfl)))

/-- The stack pointer after a tick: incremented modulo 256 by 2NNN, decremented modulo 256 by
00EE, unchanged by every other tick. -/
theorem stack_pointer_step (ch : chip8_t) (e : (Nat → Bool) × Nat) :
    (step ch e).stack_pointer =
      match executed_op ch with
      | some op_2NNN => (ch.stack_pointer + 1) % 256
      | some op_00EE => u8 ((ch.stack_pointer : Int) - 1)
      | _ => ch.stack_pointer := by
  unfold step
  by_cases hend : at_end ch = true
  · have hop : executed_op ch = none := by
      simp only [executed_op, hend, if_true]
    rw [tick_at_end ch e.1 e.2 hend, hop, tick_timers_stack_pointer]
  · have hend2 : at_end ch = false := by simpa using hend
    have hop : executed_op ch = some (decode_bytes (fetch ch)) := by
      simp only [executed_op, hend2, Bool.false_eq_true, if_false]
    rw [hop, tick_not_at_end ch e.1 e.2 hend2]
    by_cases h2 : decode_bytes (fetch ch) = op_2NNN
    · rw [h2]
      simp only [execute, skip_next, stack_set, tick_timers_stack_pointer]
    · by_cases hee : decode_bytes (fetch ch) = op_00EE
      · rw [hee]
        simp only [execute, skip_next, stack_load_pc, tick_timers_stack_pointer]
      · have te := stack_pointer_execute (tick_timers ch) e.1 e.2
          (opcode_of (fetch ch) &&& 0xfff) ((opcode_of (fetch ch) &&& 0xff) % 256)
          ((fetch ch).2 &&& 0x0f) ((fetch ch).1 &&& 0x0f) (((fetch ch).2 &&& 0xf0) >>> 4)
          (decode_bytes (fetch ch)) h2 hee
        rw [tick_timers_stack_pointer] at te
        have hmatch : (match some (decode_bytes (fetch ch)) with
            | some op_2NNN => (ch.stack_pointer + 1) % 256
            | some op_00EE => u8 ((ch.stack_pointer : Int) - 1)
            | _ => ch.stack_pointer) = ch.stack_pointer := by
          generalize decode_bytes (fetch ch) = op at h2 hee
          cases op <;> first | rfl | exact absurd rfl h2 | exact absurd rfl hee
        rw [hmatch]
        revert te
        generalize execute (tick_timers ch) e.1 e.2 (opcode_of (fetch ch) &&& 0xfff)
          ((opcode_of (fetch ch) &&& 0xff) % 256) ((fetch ch).2 &&& 0x0f)
          ((fetch ch).1 &&& 0x0f) (((fetch ch).2 &&& 0xf0) >>> 4)
          (decode_bytes (fetch ch)) = r
        intro te
        obtain ⟨ob, c2⟩ := r
        cases ob with
        | none => simpa [skip_next] using te
        | some b => simpa using te


/-- A guarded tick from a stack pointer within capacity leaves it within capacity. -/
theorem stack_pointer_step_guarded (ch : chip8_t) (e : (Nat → Bool) × Nat)
    (hsp : ch.stack_pointer ≤ 175) (hg : stack_guard ch) :
    (step ch e).stack_pointer ≤ 175 := by
  rw [stack_pointer_step]
  obtain ⟨g1, g2⟩ := hg
  cases hop : executed_op ch with
  | none => exact hsp
  | some op =>
    rw [hop] at g1 g2
    cases op
    case op_2NNN =>
      have := g1 rfl
      show (ch.stack_pointer + 1) % 256 ≤ 175
      omega
    case op_00EE =>
      have := g2 rfl
      show u8 ((ch.stack_pointer : Int) - 1) ≤ 175
      unfold u8
      omega
    all_goals exact hsp

/-- Under the guard the slot a tick accesses lies inside the call-stack region. -/
theorem slot_used_in_region (ch : chip8_t) (hsp : ch.stack_pointer ≤ 175)
    (hg : stack_guard ch) (slot : Nat) (hs : stack_slot_used ch = some slot) :
    slot_in_region slot := by
  unfold stack_slot_used at hs
  obtain ⟨g1, g2⟩ := hg
  unfold slot_in_region
  simp only [STACK_OFFSET, MEMORY_SIZE]
  cases hop : executed_op ch with
  | none => rw [hop] at hs; cases hs
  | some op =>
    rw [hop] at hs g1 g2
    cases op
    case op_2NNN =>
      have := g1 rfl
      simp only [Option.some.injEq] at hs
      omega
    case op_00EE =>
      simp only [Option.some.injEq] at hs
      omega
    all_goals cases hs

theorem run_stack_pointer_guarded (es : List ((Nat → Bool) × Nat)) :
    ∀ s : chip8_t, s.stack_pointer ≤ 175 →
      (∀ k, k < es.length → stack_guard (run s (es.take k))) →
      ∀ k, k ≤ es.length → (run s (es.take k)).stack_pointer ≤ 175 := by
  induction es with
  | nil =>
    intro s hs _ k _
    simpa [run] using hs
  | cons e es ih =>
    intro s hs hg k hk
    cases k with
    | zero => simpa [run] using hs
    | succ k =>
      have hg0 : stack_guard s := by simpa [run] using hg 0 (by simp)
      have hstep := stack_pointer_step_guarded s e hs hg0
      have hg2 : ∀ j, j < es.length → stack_guard (run (step s e) (es.take j)) := by
        intro j hj
        have := hg (j + 1) (by simp only [List.length_cons]; omega)
        simpa [List.take_succ_cons, run_cons] using this
      have := ih (step s e) hstep hg2 k (by simp only [List.length_cons] at hk; omega)
      simpa [List.take_succ_cons, run_cons] using this

/-- C20 refuted as stated. The one-instruction program 2200 calls itself: after 176 ticks
from a successful load the stack pointer is 176, above the capacity 175, and the 176th
tick writes stack slot 176, whose bytes are memory indices 4096 and 4097, outside the
region `[0xEA0, 0x1000)`.  A lone 00EE wraps the stack pointer from 0 to 255 in one tick. -/
theorem stack_pointer_leaves_capacity :
    (chip8_load_program chip8_make [0x22, 0x00]).1 = true ∧
    Reachable (run rec_start (List.replicate 176 idle)) ∧
    (run rec_start (List.replicate 176 idle)).stack_pointer = 176 ∧
    ¬ (run rec_start (List.replicate 176 idle)).stack_pointer ≤ 175 ∧
    stack_slot_used (run rec_start (List.replicate 175 idle)) = some 176 ∧
    ¬ slot_in_region 176 ∧
    (chip8_load_program chip8_make [0x00, 0xEE]).1 = true ∧
    (run return_start [idle]).stack_pointer = 255 := by
  have hsp : (run rec_start (List.replicate 176 idle)).stack_pointer = 176 := by decide!
  refine ⟨by decide, ?_, hsp, ?_, by decide!, by decide, by decide, by decide!⟩
  · exact reachable_run _ (Reachable.load_fresh [0x22, 0x00] (by decide)) _
  · rw [hsp]; decide

/-- A tick that keeps both guards, started with `stack` at `memory + STACK_OFFSET`, the
stack pointer within capacity and no access outside `memory` so far, makes none. -/
theorem out_of_bounds_step_guarded (ch : chip8_t) (e : (Nat → Bool) × Nat)
    (hst : ch.stack = STACK_OFFSET) (hin : ch.out_of_bounds = false)
    (hsp : ch.stack_pointer ≤ 175) (hg : stack_guard ch) (ht : transfer_guard ch) :
    (step ch e).out_of_bounds = false := by
  rw [out_of_bounds_step, hin, hst, Bool.false_or]
  obtain ⟨g1, g2⟩ := hg
  unfold transfer_guard at ht
  cases hop : executed_op ch with
  | none => rfl
  | some op =>
    rw [hop] at g1 g2 ht
    cases op
    case op_2NNN =>
      have := g1 rfl
      simp only [outside, STACK_OFFSET, MEMORY_SIZE, decide_eq_false_iff_not]
      omega
    case op_00EE =>
      simp only [outside, STACK_OFFSET, MEMORY_SIZE, decide_eq_false_iff_not]
      omega
    case op_FX55 =>
      have := ht (Or.inl rfl)
      simp only [outside, MEMORY_SIZE, decide_eq_false_iff_not] at this ⊢
      omega
    case op_FX65 =>
      have := ht (Or.inr rfl)
      simp only [outside, MEMORY_SIZE, decide_eq_false_iff_not] at this ⊢
      omega
    all_goals rfl

/-- Along a run that keeps both guards the stack pointer stays within capacity, `stack`
keeps pointing at `memory + STACK_OFFSET` and no access leaves `memory`. -/
theorem run_guarded (es : List ((Nat → Bool) × Nat)) :
    ∀ s : chip8_t, s.stack = STACK_OFFSET → s.out_of_bounds = false → s.stack_pointer ≤ 175 →
      (∀ k, k < es.length →
        stack_guard (run s (es.take k)) ∧ transfer_guard (run s (es.take k))) →
      ∀ k, k ≤ es.length →
        (run s (es.take k)).stack_pointer ≤ 175 ∧
        (run s (es.take k)).stack = STACK_OFFSET ∧
        (run s (es.take k)).out_of_bounds = false := by
  induction es with
  | nil =>
    intro s hst hin hs _ k _
    simpa [run] using ⟨hs, hst, hin⟩
  | cons e es ih =>
    intro s hst hin hs hg k hk
    cases k with
    | zero => simpa [run] using ⟨hs, hst, hin⟩
    | succ k =>
      have hg0 : stack_guard s ∧ transfer_guard s := by simpa [run] using hg 0 (by simp)
      have hstep := stack_pointer_step_guarded s e hs hg0.1
      have hin1 := out_of_bounds_step_guarded s e hst hin hs hg0.1 hg0.2
      have hst1 : (step s e).stack = STACK_OFFSET := (stack_step s e).trans hst
      have hg2 : ∀ j, j < es.length →
          stack_guard (run (step s e) (es.take j)) ∧
          transfer_guard (run (step s e) (es.take j)) := by
        intro j hj
        have := hg (j + 1) (by simp only [List.length_cons]; omega)
        simpa [List.take_succ_cons, run_cons] using this
      have := ih (step s e) hst1 hin1 hstep hg2 k
        (by simp only [List.length_cons] at hk; omega)
      simpa [List.take_succ_cons, run_cons] using this

/-- The memory a call leaves: the return address in the two bytes of slot
`stack_pointer + 1`, low byte first, every other byte as before. -/
theorem memory_step_call (ch : chip8_t) (e : (Nat → Bool) × Nat)
    (hop : executed_op ch = some op_2NNN) :
    (step ch e).memory
      = upd (upd ch.memory (ch.stack + 2 * ((ch.stack_pointer + 1) % 256))
            (ch.program_counter % 256))
          (ch.stack + 2 * ((ch.stack_pointer + 1) % 256) + 1)
          (ch.program_counter / 256 % 256) := by
  obtain ⟨hend, hd⟩ := executed_op_some ch _ hop
  rw [proj_step chip8_t.memory (fun _ => rfl) ch e hend, hd]
  simp only [execute, stack_set, tick_timers_memory, tick_timers_stack,
    tick_timers_stack_pointer, tick_timers_program_counter]

/-- The program counter a return leaves: the 16-bit value in the two bytes of slot
`stack_pointer`, plus 2; the memory is as before. -/
theorem step_return (ch : chip8_t) (e : (Nat → Bool) × Nat)
    (hop : executed_op ch = some op_00EE) :
    (step ch e).program_counter
      = (ch.memory (ch.stack + 2 * ch.stack_pointer)
          + 256 * ch.memory (ch.stack + 2 * ch.stack_pointer + 1) + 2) % 65536 ∧
    (step ch e).memory = ch.memory := by
  obtain ⟨hend, hd⟩ := executed_op_some ch _ hop
  constructor
  · unfold step
    rw [tick_not_at_end ch e.1 e.2 hend, hd]
    simp only [execute, skip_next, stack_load_pc, stack_get, tick_timers_memory,
      tick_timers_stack, tick_timers_stack_pointer]
  · rw [proj_step chip8_t.memory (fun _ => rfl) ch e hend, hd]
    simp only [execute, stack_load_pc, tick_timers_memory]

/-- C20 as amended. Start from a successful load on a machine whose `stack` points at
`memory + STACK_OFFSET` and on which no access has left `memory`, and run any sequence of
ticks in which every 2NNN finds the stack pointer below 175, every 00EE finds it at least
1, and every FX55 or FX65 finds `I + X < 4096`. Then in every state of the run the stack
pointer is at most 175, `stack` still points at `memory + STACK_OFFSET` and no access has
left `memory`; and every tick of the run uses a stack slot inside `[0xEA0, 0x1000)` only:
a 2NNN writes the return address into the two bytes `0xEA0 + 2 (sp + 1)` and the next,
both below 0x1000, and changes no other memory byte, and a 00EE takes the program counter
from the two bytes `0xEA0 + 2 sp` and the next, both below 0x1000. -/
theorem stack_pointer_within_capacity (c0 : chip8_t) (P : List Nat)
    (es : List ((Nat → Bool) × Nat))
    (hst : c0.stack = STACK_OFFSET) (hin : c0.out_of_bounds = false)
    (hload : (chip8_load_program c0 P).1 = true)
    (hg : ∀ k, k < es.length →
      stack_guard (run (chip8_load_program c0 P).2 (es.take k)) ∧
      transfer_guard (run (chip8_load_program c0 P).2 (es.take k))) :
    ∀ k, k ≤ es.length →
      (run (chip8_load_program c0 P).2 (es.take k)).stack_pointer ≤ 175 ∧
      (run (chip8_load_program c0 P).2 (es.take k)).stack = STACK_OFFSET ∧
      (run (chip8_load_program c0 P).2 (es.take k)).out_of_bounds = false ∧
      (k < es.length →
        (∀ slot, stack_slot_used (run (chip8_load_program c0 P).2 (es.take k)) = some slot →
          slot_in_region slot) ∧
        (executed_op (run (chip8_load_program c0 P).2 (es.take k)) = some op_2NNN →
          ∀ e : (Nat → Bool) × Nat,
            STACK_OFFSET + 2 *
              ((run (chip8_load_program c0 P).2 (es.take k)).stack_pointer + 1) + 1
              < MEMORY_SIZE ∧
            (step (run (chip8_load_program c0 P).2 (es.take k)) e).memory
              = upd (upd (run (chip8_load_program c0 P).2 (es.take k)).memory
                  (STACK_OFFSET + 2 *
                    ((run (chip8_load_program c0 P).2 (es.take k)).stack_pointer + 1))
                  ((run (chip8_load_program c0 P).2 (es.take k)).program_counter % 256))
                (STACK_OFFSET + 2 *
                    ((run (chip8_load_program c0 P).2 (es.take k)).stack_pointer + 1) + 1)
                ((run (chip8_load_program c0 P).2 (es.take k)).program_counter / 256 % 256) ∧
            (step (run (chip8_load_program c0 P).2 (es.take k)) e).out_of_bounds = false) ∧
        (executed_op (run (chip8_load_program c0 P).2 (es.take k)) = some op_00EE →
          ∀ e : (Nat → Bool) × Nat,
            STACK_OFFSET + 2 * (run (chip8_load_program c0 P).2 (es.take k)).stack_pointer + 1
              < MEMORY_SIZE ∧
            (step (run (chip8_load_program c0 P).2 (es.take k)) e).program_counter
              = ((run (chip8_load_program c0 P).2 (es.take k)).memory
                    (STACK_OFFSET + 2 *
                      (run (chip8_load_program c0 P).2 (es.take k)).stack_pointer)
                  + 256 * (run (chip8_load_program c0 P).2 (es.take k)).memory
                    (STACK_OFFSET + 2 *
                      (run (chip8_load_program c0 P).2 (es.take k)).stack_pointer + 1)
                  + 2) % 65536 ∧
            (step (run (chip8_load_program c0 P).2 (es.take k)) e).out_of_bounds = false)) := by
  have h0 : (chip8_load_program c0 P).2.stack_pointer ≤ 175 := by
    unfold chip8_load_program at hload ⊢
    by_cases hc : (PROGRAM_OFFSET + P.length) % SIZE_RANGE ≥ STACK_OFFSET
    · simp only [hc, if_true] at hload
      cases hload
    · simp only [hc, if_false]
      omega
  have hst0 : (chip8_load_program c0 P).2.stack = STACK_OFFSET :=
    (stack_load_program c0 P).1.trans hst
  have hin0 : (chip8_load_program c0 P).2.out_of_bounds = false :=
    (stack_load_program c0 P).2.trans hin
  intro k hk
  obtain ⟨hsp, hstk, hink⟩ := run_guarded es _ hst0 hin0 h0 hg k hk
  refine ⟨hsp, hstk, hink, ?_⟩
  intro hlt
  obtain ⟨g1, g2⟩ := hg k hlt
  generalize run (chip8_load_program c0 P).2 (es.take k) = s at hsp hstk hink g1 g2
  refine ⟨fun slot hs => slot_used_in_region s hsp g1 slot hs, ?_, ?_⟩
  · intro hop e
    have hlow := g1.1 hop
    have hmod : (s.stack_pointer + 1) % 256 = s.stack_pointer + 1 := by omega
    refine ⟨?_, ?_, out_of_bounds_step_guarded s e hstk hink hsp g1 g2⟩
    · simp only [STACK_OFFSET, MEMORY_SIZE]
      omega
    · rw [memory_step_call s e hop, hstk, hmod]
  · intro hop e
    refine ⟨?_, ?_, out_of_bounds_step_guarded s e hstk hink hsp g1 g2⟩
    · simp only [STACK_OFFSET, MEMORY_SIZE]
      omega
    · rw [(step_return s e hop).1, hstk]

/-- Witness for the amended C20: the program 2204 0000 00EE run for two ticks (a call at
stack pointer 0, a return at stack pointer 1) keeps both guards; the call writes the return
address 0x200 into the bytes 0xEA2 and 0xEA3 of slot 1 and no access leaves `memory`. -/
theorem stack_pointer_within_capacity_witness :
    (chip8_load_program chip8_make [0x22, 0x04, 0x00, 0x00, 0x00, 0xEE]).1 = true ∧
    (∀ k, k < 2 →
      stack_guard (run (chip8_load_program chip8_make [0x22, 0x04, 0x00, 0x00, 0x00, 0xEE]).2
        ([idle, idle].take k)) ∧
      transfer_guard
        (run (chip8_load_program chip8_make [0x22, 0x04, 0x00, 0x00, 0x00, 0xEE]).2
          ([idle, idle].take k))) ∧
    stack_slot_used (chip8_load_program chip8_make [0x22, 0x04, 0x00, 0x00, 0x00, 0xEE]).2
      = some 1 ∧
    (run (chip8_load_program chip8_make [0x22, 0x04, 0x00, 0x00, 0x00, 0xEE]).2
      ([idle, idle].take 1)).stack_pointer ≤ 175 ∧
    slot_in_region 1 ∧
    (run (chip8_load_program chip8_make [0x22, 0x04, 0x00, 0x00, 0x00, 0xEE]).2
      ([idle, idle].take 2)).out_of_bounds = false ∧
    (step (chip8_load_program chip8_make [0x22, 0x04, 0x00, 0x00, 0x00, 0xEE]).2 idle).memory
      0xEA2 = 0x00 ∧
    (step (chip8_load_program chip8_make [0x22, 0x04, 0x00, 0x00, 0x00, 0xEE]).2 idle).memory
      0xEA3 = 0x02 :=
  have hg : ∀ k, k < 2 →
      stack_guard (run (chip8_load_program chip8_make [0x22, 0x04, 0x00, 0x00, 0x00, 0xEE]).2
        ([idle, idle].take k)) ∧
      transfer_guard
        (run (chip8_load_program chip8_make [0x22, 0x04, 0x00, 0x00, 0x00, 0xEE]).2
          ([idle, idle].take k)) := by
    decide!
  have hs : stack_slot_used
      (chip8_load_program chip8_make [0x22, 0x04, 0x00, 0x00, 0x00, 0xEE]).2 = some 1 := by
    decide!
  have hop : executed_op
      (run (chip8_load_program chip8_make [0x22, 0x04, 0x00, 0x00, 0x00, 0xEE]).2
        ([idle, idle].take 0)) = some op_2NNN := by
    decide!
  let h := stack_pointer_within_capacity chip8_make [0x22, 0x04, 0x00, 0x00, 0x00, 0xEE]
    [idle, idle] (by decide) (by decide) (by decide) hg
  ⟨by decide, hg, hs, (h 1 (by decide)).1, ((h 0 (by decide)).2.2.2 (by decide)).1 1 hs,
    (h 2 (by decide)).2.2.1,
    (congrFun ((((h 0 (by decide)).2.2.2 (by decide)).2.1 hop idle).2.1) 0xEA2).trans
      (by decide!),
    (congrFun ((((h 0 (by decide)).2.2.2 (by decide)).2.1 hop idle).2.1) 0xEA3).trans
      (by decide!)⟩

/-! ## The exact fetch condition -/

/-- The end-of-program test for a 16-bit program counter and a program that fits: the `int`
`PC - 0x200 + 1` is negative below 0x1FF and becomes a huge `size_t`. -/
theorem at_end_false_iff (ch : chip8_t) (hL : 0x200 + ch.program_size < 0xEA0)
    (hpc : ch.program_counter < 65536) :
    at_end ch = false ↔
      0x1FF ≤ ch.program_counter ∧ ch.program_counter + 1 < 0x200 + ch.program_size := by
  unfold at_end
  rw [decide_eq_false_iff_not]
  simp only [PROGRAM_OFFSET, SIZE_RANGE]
  by_cases hlow : 0x1FF ≤ ch.program_counter
  · have e : (((ch.program_counter : Int) - ((0x200 : Nat) : Int) + 1)
        % ((2 ^ 64 : Nat) : Int)).toNat = ch.program_counter - 0x1FF := by
      omega
    rw [e]
    omega
  · have e : (((ch.program_counter : Int) - ((0x200 : Nat) : Int) + 1)
        % ((2 ^ 64 : Nat) : Int)).toNat = 2 ^ 64 - (0x1FF - ch.program_counter) := by
      omega
    rw [e]
    omega

/-- C23. For a machine whose program length `L` satisfies `0x200 + L < 0xEA0` and a 16-bit
program counter: `chip8_cpu_tick` gets past the end-of-program test exactly when
`0x1FF <= PC` and `PC + 1 < 0x200 + L`; otherwise it returns false right after the timer
block, in particular for every `PC` below 0x1FF; and when it gets past the test it decodes
the bytes at `PC` and `PC + 1`, both at addresses below 0xEA0 (for `PC = 0x1FF` these are the
bytes at 0x1FF and 0x200). -/
theorem fetch_condition (ch : chip8_t) (input : Nat → Bool) (rnd : Nat)
    (hL : 0x200 + ch.program_size < 0xEA0) (hpc : ch.program_counter < 65536) :
    (at_end ch = false ↔
      0x1FF ≤ ch.program_counter ∧ ch.program_counter + 1 < 0x200 + ch.program_size) ∧
    (¬ (0x1FF ≤ ch.program_counter ∧ ch.program_counter + 1 < 0x200 + ch.program_size) →
      chip8_cpu_tick ch input rnd = (false, tick_timers ch)) ∧
    (ch.program_counter < 0x1FF → (chip8_cpu_tick ch input rnd).1 = false) ∧
    (0x1FF ≤ ch.program_counter ∧ ch.program_counter + 1 < 0x200 + ch.program_size →
      fetch ch = (ch.memory ch.program_counter, ch.memory (ch.program_counter + 1)) ∧
      (∀ a ∈ fetch_addrs ch, a < 0xEA0) ∧
      chip8_cpu_tick ch input rnd =
        match execute (tick_timers ch) input rnd (opcode_of (fetch ch) &&& 0xfff)
            ((opcode_of (fetch ch) &&& 0xff) % 256) ((fetch ch).2 &&& 0x0f)
            ((fetch ch).1 &&& 0x0f) (((fetch ch).2 &&& 0xf0) >>> 4)
            (decode_bytes (fetch ch)) with
        | (some b, ch2) => (b, ch2)
        | (none, ch2) => (true, skip_next ch2)) := by
  have hiff := at_end_false_iff ch hL hpc
  have hhalt : ¬ (0x1FF ≤ ch.program_counter ∧
      ch.program_counter + 1 < 0x200 + ch.program_size) →
      chip8_cpu_tick ch input rnd = (false, tick_timers ch) := by
    intro hno
    have hend : at_end ch = true := by
      cases h : at_end ch
      · exact absurd (hiff.mp h) hno
      · rfl
    exact tick_at_end ch input rnd hend
  refine ⟨hiff, hhalt, ?_, ?_⟩
  · intro hlow
    rw [hhalt (by omega)]
  · intro hin
    refine ⟨rfl, ?_, tick_not_at_end ch input rnd (hiff.mpr hin)⟩
    intro a ha
    simp only [fetch_addrs, List.mem_cons, List.mem_singleton, List.not_mem_nil, or_false] at ha
    omega

/-- Witness for C23: after 11FF the program counter is 0x1FF; the next tick gets past the
test and fetches the bytes at 0x1FF and 0x200, which are 0x00 and 0x11. -/
theorem fetch_condition_witness :
    0x200 + (run jump_below_start [idle]).program_size < 0xEA0 ∧
    (run jump_below_start [idle]).program_counter = 0x1FF ∧
    at_end (run jump_below_start [idle]) = false ∧
    fetch (run jump_below_start [idle]) = (0x00, 0x11) :=
  let h := fetch_condition (run jump_below_start [idle]) (fun _ => false) 0 (by decide!)
    (by decide!)
  ⟨by decide!, by decide!, h.1.mpr (by decide!),
    (h.2.2.2 (by decide!)).1.trans (by decide!)⟩


/-! ## Decimal digits -/

/-- FX33 in both cases of its bounds test. -/
theorem tick_FX33 (ch : chip8_t) (input : Nat → Bool) (rnd x : Nat)
    (hend : at_end ch = false) (hf : fetch ch = (0xf0 + x, 0x33)) (hx : x < 16) :
    chip8_cpu_tick ch input rnd
      = if ch.i_reg + 2 ≥ 4096 then (false, tick_timers ch)
        else (true, skip_next { tick_timers ch with
          memory := upd (upd (upd ch.memory ch.i_reg ((ch.regs x / 100) % 256))
              (ch.i_reg + 1)
              (u8 (((ch.regs x : Int) - (((ch.regs x / 100) % 256 * 100 : Nat) : Int)) / 10)))
            (ch.i_reg + 2)
            (u8 ((ch.regs x : Int) - (((ch.regs x / 100) % 256 * 100 : Nat) : Int)
              - ((u8 (((ch.regs x : Int)
                  - (((ch.regs x / 100) % 256 * 100 : Nat) : Int)) / 10) * 10 : Nat) : Int))) }) := by
  rw [tick_bytes ch input rnd _ _ hend hf (by omega) (by decide)]
  have e1 : (0xf0 + x) / 16 = 15 := by omega
  have e2 : (0xf0 + x) % 16 = x := by omega
  rw [e1, e2, decode_pos 15 _ _ _ _ (by decide) (by omega)]
  have hd : decode 15 0 (0x33 / 16) (0x33 % 16) 0x1000 = op_FX33 := by decide
  rw [hd]
  by_cases hI : ch.i_reg + 2 ≥ 4096
  · have hI2 : ch.i_reg + 2 ≥ MEMORY_SIZE := hI
    simp only [execute, tick_timers_i_reg, if_pos hI2, if_pos hI]
  · have hI2 : ¬ (ch.i_reg + 2 ≥ MEMORY_SIZE) := hI
    simp only [execute, tick_timers_i_reg, tick_timers_regs, tick_timers_memory, if_neg hI2,
      if_neg hI]


/-- C21. FX33 for every register value `v = regs[X]` in `0..255`: if `I + 2 < 4096` the tick
returns true, `memory[I]`, `memory[I+1]`, `memory[I+2]` are the hundreds, tens and ones
digits of `v` (each at most 9, with `100 * memory[I] + 10 * memory[I+1] + memory[I+2] = v`)
and no other memory byte changes; if `I + 2 >= 4096` the tick returns false and memory is
unchanged. -/
theorem bcd_store (ch : chip8_t) (input : Nat → Bool) (rnd x : Nat)
    (hend : at_end ch = false) (hf : fetch ch = (0xf0 + x, 0x33)) (hx : x < 16)
    (hv : ch.regs x < 256) :
    (ch.i_reg + 2 < 4096 →
      (chip8_cpu_tick ch input rnd).1 = true ∧
      (chip8_cpu_tick ch input rnd).2.memory ch.i_reg = ch.regs x / 100 ∧
      (chip8_cpu_tick ch input rnd).2.memory (ch.i_reg + 1) = ch.regs x / 10 % 10 ∧
      (chip8_cpu_tick ch input rnd).2.memory (ch.i_reg + 2) = ch.regs x % 10 ∧
      (chip8_cpu_tick ch input rnd).2.memory ch.i_reg ≤ 9 ∧
      (chip8_cpu_tick ch input rnd).2.memory (ch.i_reg + 1) ≤ 9 ∧
      (chip8_cpu_tick ch input rnd).2.memory (ch.i_reg + 2) ≤ 9 ∧
      100 * (chip8_cpu_tick ch input rnd).2.memory ch.i_reg
        + 10 * (chip8_cpu_tick ch input rnd).2.memory (ch.i_reg + 1)
        + (chip8_cpu_tick ch input rnd).2.memory (ch.i_reg + 2) = ch.regs x ∧
      (∀ a, a ≠ ch.i_reg → a ≠ ch.i_reg + 1 → a ≠ ch.i_reg + 2 →
        (chip8_cpu_tick ch input rnd).2.memory a = ch.memory a)) ∧
    (ch.i_reg + 2 ≥ 4096 →
      (chip8_cpu_tick ch input rnd).1 = false ∧
      (chip8_cpu_tick ch input rnd).2.memory = ch.memory) := by
  have ht := tick_FX33 ch input rnd x hend hf hx
  constructor
  · intro hI
    rw [ht, if_neg (by omega)]
    have h100 : (ch.regs x / 100) % 256 = ch.regs x / 100 := by omega
    have h10 : u8 (((ch.regs x : Int) - (((ch.regs x / 100) % 256 * 100 : Nat) : Int)) / 10)
        = ch.regs x / 10 % 10 := by
      unfold u8; omega
    have hdd : ch.regs x / 10 / 10 = ch.regs x / 100 := Nat.div_div_eq_div_mul _ 10 10
    have h1 : u8 ((ch.regs x : Int) - (((ch.regs x / 100) % 256 * 100 : Nat) : Int)
        - ((ch.regs x / 10 % 10 * 10 : Nat) : Int)) = ch.regs x % 10 := by
      unfold u8; omega
    rw [h10, h1, h100]
    have m0 : (skip_next { tick_timers ch with
        memory := upd (upd (upd ch.memory ch.i_reg (ch.regs x / 100)) (ch.i_reg + 1)
          (ch.regs x / 10 % 10)) (ch.i_reg + 2) (ch.regs x % 10) }).memory ch.i_reg
        = ch.regs x / 100 := by
      simp [skip_next, upd]
    have m1 : (skip_next { tick_timers ch with
        memory := upd (upd (upd ch.memory ch.i_reg (ch.regs x / 100)) (ch.i_reg + 1)
          (ch.regs x / 10 % 10)) (ch.i_reg + 2) (ch.regs x % 10) }).memory (ch.i_reg + 1)
        = ch.regs x / 10 % 10 := by
      simp [skip_next, upd]
    have m2 : (skip_next { tick_timers ch with
        memory := upd (upd (upd ch.memory ch.i_reg (ch.regs x / 100)) (ch.i_reg + 1)
          (ch.regs x / 10 % 10)) (ch.i_reg + 2) (ch.regs x % 10) }).memory (ch.i_reg + 2)
        = ch.regs x % 10 := by
      simp [skip_next, upd]
    simp only [m0, m1, m2]
    refine ⟨trivial, trivial, trivial, trivial, by omega, by omega, by omega, by omega, ?_⟩
    intro a a0 a1 a2
    simp only [skip_next, upd]
    rw [if_neg a2, if_neg a1, if_neg a0]
  · intro hI
    rw [ht, if_pos hI]
    exact ⟨rfl, tick_timers_memory ch⟩

/-- Witness for C21: with V0 = 234 and I = 0x300, F033 stores the digits 2, 3, 4. -/
theorem bcd_store_witness :
    at_end (run bcd_start [idle, idle]) = false ∧
    fetch (run bcd_start [idle, idle]) = (0xf0 + 0, 0x33) ∧
    (run bcd_start [idle, idle]).regs 0 = 234 ∧
    (run bcd_start [idle, idle]).i_reg = 0x300 ∧
    (chip8_cpu_tick (run bcd_start [idle, idle]) (fun _ => false) 0).1 = true ∧
    (chip8_cpu_tick (run bcd_start [idle, idle]) (fun _ => false) 0).2.memory 0x300 = 2 ∧
    (chip8_cpu_tick (run bcd_start [idle, idle]) (fun _ => false) 0).2.memory 0x301 = 3 ∧
    (chip8_cpu_tick (run bcd_start [idle, idle]) (fun _ => false) 0).2.memory 0x302 = 4 :=
  let h := (bcd_store (run bcd_start [idle, idle]) (fun _ => false) 0 0 (by decide!)
    (by decide!) (by decide) (by decide!)).1 (by decide!)
  ⟨by decide!, by decide!, by decide!, by decide!, h.1, by decide!, by decide!, by decide!⟩


/-! ## Register transfers -/

theorem tick_FX55 (ch : chip8_t) (input : Nat → Bool) (rnd x : Nat)
    (hend : at_end ch = false) (hf : fetch ch = (0xf0 + x, 0x55)) (hx : x < 16) :
    chip8_cpu_tick ch input rnd
      = (true, skip_next (bump_ireg (store_regs (tick_timers ch) x) x)) := by
  rw [tick_bytes ch input rnd _ _ hend hf (by omega) (by decide)]
  have e1 : (0xf0 + x) / 16 = 15 := by omega
  have e2 : (0xf0 + x) % 16 = x := by omega
  rw [e1, e2, decode_pos 15 _ _ _ _ (by decide) (by omega)]
  have hd : decode 15 0 (0x55 / 16) (0x55 % 16) 0x1000 = op_FX55 := by decide
  rw [hd]
  rfl

theorem tick_FX65 (ch : chip8_t) (input : Nat → Bool) (rnd x : Nat)
    (hend : at_end ch = false) (hf : fetch ch = (0xf0 + x, 0x65)) (hx : x < 16) :
    chip8_cpu_tick ch input rnd
      = (true, skip_next (bump_ireg (load_regs (tick_timers ch) x) x)) := by
  rw [tick_bytes ch input rnd _ _ hend hf (by omega) (by decide)]
  have e1 : (0xf0 + x) / 16 = 15 := by omega
  have e2 : (0xf0 + x) % 16 = x := by omega
  rw [e1, e2, decode_pos 15 _ _ _ _ (by decide) (by omega)]
  have hd : decode 15 0 (0x65 / 16) (0x65 % 16) 0x1000 = op_FX65 := by decide
  rw [hd]
  rfl

/-- State after the FX55 tick, field by field. -/
theorem tick_FX55_fields (ch : chip8_t) (input : Nat → Bool) (rnd x : Nat)
    (hend : at_end ch = false) (hf : fetch ch = (0xf0 + x, 0x55)) (hx : x < 16) :
    (chip8_cpu_tick ch input rnd).1 = true ∧
    (∀ a, (chip8_cpu_tick ch input rnd).2.memory a
      = if ch.i_reg ≤ a ∧ a < ch.i_reg + (x + 1) then ch.regs (a - ch.i_reg)
        else ch.memory a) ∧
    (chip8_cpu_tick ch input rnd).2.regs = ch.regs ∧
    (chip8_cpu_tick ch input rnd).2.i_reg
      = if ch.increment_ireg = true then (ch.i_reg + (x + 1)) % 65536 else ch.i_reg := by
  rw [tick_FX55 ch input rnd x hend hf hx]
  obtain ⟨s1, s2, s3, _⟩ := store_loop (tick_timers ch) (x + 1)
  have hinc : (store_regs (tick_timers ch) x).increment_ireg = ch.increment_ireg := by
    have h := control_store_regs (tick_timers ch) x
    simp only [control, Prod.mk.injEq] at h
    rw [h.2.2.2.2.1, tick_timers_increment_ireg]
  simp only [tick_timers_i_reg, tick_timers_regs, tick_timers_memory] at s1 s2 s3
  refine ⟨rfl, ?_, ?_, ?_⟩
  · intro a
    have e : (skip_next (bump_ireg (store_regs (tick_timers ch) x) x)).memory
        = (store_regs (tick_timers ch) x).memory := by
      unfold bump_ireg skip_next
      split_ifs <;> rfl
    rw [e]
    exact s1 a
  · have e : (skip_next (bump_ireg (store_regs (tick_timers ch) x) x)).regs
        = (store_regs (tick_timers ch) x).regs := by
      unfold bump_ireg skip_next
      split_ifs <;> rfl
    rw [e]
    exact s2
  · unfold bump_ireg
    rw [hinc]
    by_cases hb : ch.increment_ireg = true
    · rw [if_pos hb, if_pos hb]
      show ((store_regs (tick_timers ch) x).i_reg + (x + 1)) % 65536 = _
      unfold store_regs
      rw [s3]
    · rw [if_neg hb, if_neg hb]
      show (store_regs (tick_timers ch) x).i_reg = _
      unfold store_regs
      rw [s3]

/-- State after the FX65 tick, field by field. -/
theorem tick_FX65_fields (ch : chip8_t) (input : Nat → Bool) (rnd x : Nat)
    (hend : at_end ch = false) (hf : fetch ch = (0xf0 + x, 0x65)) (hx : x < 16) :
    (chip8_cpu_tick ch input rnd).1 = true ∧
    (∀ i, (chip8_cpu_tick ch input rnd).2.regs i
      = if i < x + 1 then ch.memory (ch.i_reg + i) else ch.regs i) ∧
    (chip8_cpu_tick ch input rnd).2.memory = ch.memory ∧
    (chip8_cpu_tick ch input rnd).2.i_reg
      = if ch.increment_ireg = true then (ch.i_reg + (x + 1)) % 65536 else ch.i_reg := by
  rw [tick_FX65 ch input rnd x hend hf hx]
  obtain ⟨s1, s2, s3, _⟩ := load_loop (tick_timers ch) (x + 1)
  have hinc : (load_regs (tick_timers ch) x).increment_ireg = ch.increment_ireg := by
    have h := control_load_regs (tick_timers ch) x
    simp only [control, Prod.mk.injEq] at h
    rw [h.2.2.2.2.1, tick_timers_increment_ireg]
  simp only [tick_timers_i_reg, tick_timers_regs, tick_timers_memory] at s1 s2 s3
  refine ⟨rfl, ?_, ?_, ?_⟩
  · intro i
    have e : (skip_next (bump_ireg (load_regs (tick_timers ch) x) x)).regs
        = (load_regs (tick_timers ch) x).regs := by
      unfold bump_ireg skip_next
      split_ifs <;> rfl
    rw [e]
    exact s1 i
  · have e : (skip_next (bump_ireg (load_regs (tick_timers ch) x) x)).memory
        = (load_regs (tick_timers ch) x).memory := by
      unfold bump_ireg skip_next
      split_ifs <;> rfl
    rw [e]
    exact s2
  · unfold bump_ireg
    rw [hinc]
    by_cases hb : ch.increment_ireg = true
    · rw [if_pos hb, if_pos hb]
      show ((load_regs (tick_timers ch) x).i_reg + (x + 1)) % 65536 = _
      unfold load_regs
      rw [s3]
    · rw [if_neg hb, if_neg hb]
      show (load_regs (tick_timers ch) x).i_reg = _
      unfold load_regs
      rw [s3]


/-- C22. Register store and load. For `X ≤ 0xF` and `I + X < 4096`: a tick that executes
FX55 returns true, leaves `memory[I + i] = regs[i]` for every `i ≤ X`, and changes no other
memory byte and no register; a tick that executes FX65 returns true, leaves
`regs[i] = memory[I + i]` for every `i ≤ X`, and changes no register above `X` and no
memory byte; each of the two adds `X + 1` to the index register when the index-increment
flag is set and leaves it unchanged otherwise. Hence an FX65 executed in any later state
with the same `I`, whose memory still holds the bytes the FX55 stored at `I .. I + X`,
gives `V0 .. VX` the values they had before the FX55, whatever the registers hold in that
later state. -/
theorem register_store_load (ch : chip8_t) (input : Nat → Bool) (rnd x : Nat)
    (hend : at_end ch = false) (hx : x < 16) (hI : ch.i_reg + x < 4096) :
    (fetch ch = (0xf0 + x, 0x55) →
      (chip8_cpu_tick ch input rnd).1 = true ∧
      (∀ i, i ≤ x → (chip8_cpu_tick ch input rnd).2.memory (ch.i_reg + i) = ch.regs i) ∧
      (∀ a, (a < ch.i_reg ∨ ch.i_reg + x < a) →
        (chip8_cpu_tick ch input rnd).2.memory a = ch.memory a) ∧
      (chip8_cpu_tick ch input rnd).2.regs = ch.regs ∧
      (ch.increment_ireg = true →
        (chip8_cpu_tick ch input rnd).2.i_reg = ch.i_reg + x + 1) ∧
      (ch.increment_ireg = false → (chip8_cpu_tick ch input rnd).2.i_reg = ch.i_reg) ∧
      (∀ (c2 : chip8_t) (input2 : Nat → Bool) (rnd2 : Nat),
        at_end c2 = false → fetch c2 = (0xf0 + x, 0x65) → c2.i_reg = ch.i_reg →
        (∀ i, i ≤ x →
          c2.memory (ch.i_reg + i) = (chip8_cpu_tick ch input rnd).2.memory (ch.i_reg + i)) →
        ∀ i, i ≤ x → (chip8_cpu_tick c2 input2 rnd2).2.regs i = ch.regs i)) ∧
    (fetch ch = (0xf0 + x, 0x65) →
      (chip8_cpu_tick ch input rnd).1 = true ∧
      (∀ i, i ≤ x → (chip8_cpu_tick ch input rnd).2.regs i = ch.memory (ch.i_reg + i)) ∧
      (∀ i, x < i → (chip8_cpu_tick ch input rnd).2.regs i = ch.regs i) ∧
      (chip8_cpu_tick ch input rnd).2.memory = ch.memory ∧
      (ch.increment_ireg = true →
        (chip8_cpu_tick ch input rnd).2.i_reg = ch.i_reg + x + 1) ∧
      (ch.increment_ireg = false → (chip8_cpu_tick ch input rnd).2.i_reg = ch.i_reg)) := by
  constructor
  · intro hf
    obtain ⟨r, hm, hr, hi⟩ := tick_FX55_fields ch input rnd x hend hf hx
    have hstored : ∀ i, i ≤ x →
        (chip8_cpu_tick ch input rnd).2.memory (ch.i_reg + i) = ch.regs i := by
      intro i hle
      rw [hm, if_pos (by omega)]
      have e : ch.i_reg + i - ch.i_reg = i := by omega
      rw [e]
    refine ⟨r, hstored, ?_, hr, ?_, ?_, ?_⟩
    · intro a ha
      rw [hm, if_neg (by omega)]
    · intro hb
      rw [hi, if_pos hb]
      omega
    · intro hb
      rw [hi, if_neg (by simp [hb])]
    · intro c2 input2 rnd2 hend2 hf2 hI2 hmem i hle
      obtain ⟨_, hr2, _, _⟩ := tick_FX65_fields c2 input2 rnd2 x hend2 hf2 hx
      rw [hr2, if_pos (by omega), hI2, hmem i hle, hstored i hle]
  · intro hf
    obtain ⟨r, hr, hm, hi⟩ := tick_FX65_fields ch input rnd x hend hf hx
    refine ⟨r, ?_, ?_, hm, ?_, ?_⟩
    · intro i hle
      rw [hr, if_pos (by omega)]
    · intro i hlt
      rw [hr, if_neg (by omega)]
    · intro hb
      rw [hi, if_pos hb]
      omega
    · intro hb
      rw [hi, if_neg (by simp [hb])]

/-- Witness for C22 on the program 6011 6122 A300 F155 60AA 61BB F165: the fourth tick
executes F155 with V0 = 0x11, V1 = 0x22 and I = 0x300, the two bytes land at 0x300 and
0x301, and the seventh tick (F165, after both registers were overwritten) restores V0 and
V1. -/
theorem register_store_load_witness :
    at_end (run store_start [idle, idle, idle]) = false ∧
    (run store_start [idle, idle, idle]).i_reg + 1 < 4096 ∧
    fetch (run store_start [idle, idle, idle]) = (0xf0 + 1, 0x55) ∧
    (run store_start [idle, idle, idle, idle]).memory 0x300 = 0x11 ∧
    (run store_start [idle, idle, idle, idle]).memory 0x301 = 0x22 ∧
    (run store_start [idle, idle, idle, idle, idle, idle]).regs 0 = 0xAA ∧
    (run store_start [idle, idle, idle, idle, idle, idle]).regs 1 = 0xBB ∧
    (run store_start [idle, idle, idle, idle, idle, idle, idle]).regs 0 = 0x11 ∧
    (run store_start [idle, idle, idle, idle, idle, idle, idle]).regs 1 = 0x22 := by
  have hend : at_end (run store_start [idle, idle, idle]) = false := by decide!
  have hI : (run store_start [idle, idle, idle]).i_reg + 1 < 4096 := by decide!
  have hf : fetch (run store_start [idle, idle, idle]) = (0xf0 + 1, 0x55) := by decide!
  have hi : (run store_start [idle, idle, idle]).i_reg = 0x300 := by decide!
  have hr0 : (run store_start [idle, idle, idle]).regs 0 = 0x11 := by decide!
  have hr1 : (run store_start [idle, idle, idle]).regs 1 = 0x22 := by decide!
  have hend2 : at_end (run store_start [idle, idle, idle, idle, idle, idle]) = false := by
    decide!
  have hf2 : fetch (run store_start [idle, idle, idle, idle, idle, idle])
      = (0xf0 + 1, 0x65) := by decide!
  have hi2 : (run store_start [idle, idle, idle, idle, idle, idle]).i_reg
      = (run store_start [idle, idle, idle]).i_reg := by decide!
  have hm2 : ∀ i, i ≤ 1 →
      (run store_start [idle, idle, idle, idle, idle, idle]).memory
          ((run store_start [idle, idle, idle]).i_reg + i)
        = (chip8_cpu_tick (run store_start [idle, idle, idle]) idle.1 idle.2).2.memory
          ((run store_start [idle, idle, idle]).i_reg + i) := by
    intro i hle
    have hcases : i = 0 ∨ i = 1 := by omega
    rcases hcases with h | h
    · rw [h]
      decide!
    · rw [h]
      decide!
  obtain ⟨_, hst, _, _, _, _, hrt⟩ :=
    (register_store_load (run store_start [idle, idle, idle]) idle.1 idle.2 1
      hend (by decide) hI).1 hf
  have s0 := hst 0 (by decide)
  have s1 := hst 1 (by decide)
  have t0 := hrt _ idle.1 idle.2 hend2 hf2 hi2 hm2 0 (by decide)
  have t1 := hrt _ idle.1 idle.2 hend2 hf2 hi2 hm2 1 (by decide)
  rw [hi, hr0] at s0
  rw [hi, hr1] at s1
  rw [hr0] at t0
  rw [hr1] at t1
  refine ⟨hend, hI, hf, s0, s1, by decide!, by decide!, t0, t1⟩


end Chip8
